import Mathlib

/-!
# xf86-video-armada: frame synchronisation and page-flip bookkeeping

A shallow embedding of the timing code of `src/common_drm.c`:

* `common_drm_frame_to_msc` / `common_drm_msc_to_frame` (vblank sequence to MSC),
* `common_drm_get_msc` and `common_drm_get_drawable_msc` (polled MSC queries and the
  per-drawable CRTC binding),
* `common_drm_flip` (fan-out of a page flip to every enabled CRTC).

C integers are natural numbers reduced modulo `2^32` / `2^64` at every operation that
can overflow; `int64_t` values are integers in `[-2^63, 2^63)`.  Calls into libdrm are
inputs of the embedded functions (the reply of a vblank query, the outcome of a
framebuffer registration) or entries of an explicit call log (framebuffer removal,
page-flip requests).
-/

namespace Armada

/-! ## Machine integers -/

/-- Conversion of a 64-bit unsigned value to `int64_t` (two's complement). -/
def toInt64 (x : Nat) : Int :=
  if x % 2 ^ 64 < 2 ^ 63 then ((x % 2 ^ 64 : Nat) : Int) else ((x % 2 ^ 64 : Nat) : Int) - 2 ^ 64

/-- Conversion of an integer to `uint64_t` (reduction modulo `2^64`). -/
def toUInt64 (i : Int) : Nat :=
  (i % 2 ^ 64).toNat

/-! ## Timing domain (per CRTC) -/

/-- The timing fields of `struct common_crtc_info`: `last_seq` is a `uint32_t`,
the other three are `uint64_t`. -/
structure common_crtc_info where
  last_seq : Nat
  last_msc : Nat
  swap_msc : Nat
  swap_ust : Nat
deriving DecidableEq, Repr

/-- The fields hold values of their C types. -/
def common_crtc_info.wf (drmc : common_crtc_info) : Prop :=
  drmc.last_seq < 2 ^ 32 ∧ drmc.last_msc < 2 ^ 64 ∧
    drmc.swap_msc < 2 ^ 64 ∧ drmc.swap_ust < 2 ^ 64

instance (drmc : common_crtc_info) : Decidable drmc.wf := by
  unfold common_crtc_info.wf; infer_instance

/-- Embedding of `common_drm_frame_to_msc(crtc, seq)`: the updated CRTC state and the
returned MSC.  A sequence below the last one seen adds `0x100000000` to `last_msc`. -/
def common_drm_frame_to_msc (drmc : common_crtc_info) (seq : Nat) :
    common_crtc_info × Nat :=
  let last_msc :=
    if seq < drmc.last_seq then (drmc.last_msc + 0x100000000) % 2 ^ 64 else drmc.last_msc
  ({ drmc with last_msc := last_msc, last_seq := seq }, (last_msc + seq) % 2 ^ 64)

/-- Embedding of `common_drm_msc_to_frame(crtc, msc)`: `msc - last_msc` truncated to
`uint32_t`. -/
def common_drm_msc_to_frame (drmc : common_crtc_info) (msc : Nat) : Nat :=
  ((msc + 2 ^ 64 - drmc.last_msc % 2 ^ 64) % 2 ^ 64) % 2 ^ 32

/-- A run of `common_drm_frame_to_msc` calls on one CRTC: the final state and the
MSC returned by each call, in order. -/
def frame_to_msc_seq (drmc : common_crtc_info) : List Nat → common_crtc_info × List Nat
  | [] => (drmc, [])
  | seq :: rest =>
    let r := common_drm_frame_to_msc drmc seq
    let rs := frame_to_msc_seq r.1 rest
    (rs.1, r.2 :: rs.2)

/-- Number of positions of a list of raw values at which the value is strictly below
the raw value observed just before it (`prev` before the first one). -/
def descents (prev : Nat) : List Nat → Nat
  | [] => 0
  | seq :: rest => (if seq < prev then 1 else 0) + descents seq rest

/-! ## Polled MSC query -/

/-- The reply part of `drmVBlank` filled in by a successful `drmWaitVBlank`. -/
structure drmVBlankReply where
  sequence : Nat
  tval_sec : Nat
  tval_usec : Nat
deriving DecidableEq, Repr

/-- The X protocol status `Success`. -/
def Success : Int := 0

/-- What an MSC query hands back: the status it returns and the values stored
through the `ust` and `msc` pointers. -/
structure msc_reply where
  ret : Int
  ust : Nat
  msc : Nat
deriving DecidableEq, Repr

/-- Embedding of `common_drm_get_msc(crtc, &ust, &msc)`.  `vbl` is the outcome of
`common_drm_vblank_get`: `none` when `drmWaitVBlank` returned non-zero, the reply
otherwise. -/
def common_drm_get_msc (drmc : common_crtc_info) (vbl : Option drmVBlankReply) :
    common_crtc_info × msc_reply :=
  let drmc1 :=
    match vbl with
    | some reply =>
      let r := common_drm_frame_to_msc drmc reply.sequence
      { r.1 with
        swap_msc := r.2
        swap_ust := (reply.tval_sec * 1000000 + reply.tval_usec) % 2 ^ 64 }
    | none => drmc
  (drmc1, { ret := Success, ust := drmc1.swap_ust, msc := drmc1.swap_msc })

/-! ## Drawable binding -/

/-- The timing fields of `struct common_pixmap`; `crtc` is the index of the CRTC the
drawable is bound to, `delta_msc` is an `int64_t`. -/
structure common_pixmap where
  crtc : Option Nat
  last_ust : Nat
  last_msc : Nat
  delta_msc : Int
deriving DecidableEq, Repr

/-- The CRTCs of a screen, by index, and the private record of one drawable. -/
structure msc_state where
  crtcs : Nat → common_crtc_info
  drawc : common_pixmap

/-- Store a CRTC record back at index `c`. -/
def msc_state.set_crtc (s : msc_state) (c : Nat) (drmc : common_crtc_info) : msc_state :=
  { s with crtcs := fun j => if j = c then drmc else s.crtcs j }

/-- First block of `common_drm_get_drawable_msc`, `if (drawc->crtc) { ... }`: refresh
`last_ust` / `last_msc` from the bound CRTC.  Returns the state and the value of `ret`. -/
def drawable_msc_refresh (s : msc_state) (vbl_old : Option drmVBlankReply) :
    msc_state × Int :=
  match s.drawc.crtc with
  | none => (s, Success)
  | some old =>
    let r := common_drm_get_msc (s.crtcs old) vbl_old
    let s1 := s.set_crtc old r.1
    if r.2.ret = Success then
      ({ s1 with
          drawc := { s1.drawc with
            last_ust := r.2.ust
            last_msc := toUInt64 ((r.2.msc : Int) + s1.drawc.delta_msc) } }, r.2.ret)
    else (s1, r.2.ret)

/-- Second block of `common_drm_get_drawable_msc`, `if (drawc->crtc != crtc) { ... }`:
rebind the drawable and recompute `delta_msc`.  `ret` is the status so far. -/
def drawable_msc_rebind (s : msc_state) (ret : Int) (crtc : Option Nat)
    (vbl_new : Option drmVBlankReply) : msc_state × Int :=
  if s.drawc.crtc ≠ crtc then
    let s1 : msc_state := { s with drawc := { s.drawc with crtc := crtc } }
    match crtc with
    | none => (s1, ret)
    | some c =>
      let r := common_drm_get_msc (s1.crtcs c) vbl_new
      let s2 := s1.set_crtc c r.1
      if r.2.ret = Success then
        ({ s2 with
            drawc := { s2.drawc with
              delta_msc := toInt64 (toUInt64 ((s2.drawc.last_msc : Int) - (r.2.msc : Int))) } },
          r.2.ret)
      else (s2, r.2.ret)
  else (s, ret)

/-- Embedding of `common_drm_get_drawable_msc(crtc, pDraw, &ust, &msc)`.  `pDraw` tells whether a
drawable was passed, `vbl_old` is the outcome of the vblank query on the CRTC the
drawable is bound to and `vbl_new` the outcome of the query on the requested CRTC
(each is consulted only if the code makes that query). -/
def common_drm_get_drawable_msc (s : msc_state) (crtc : Option Nat) (pDraw : Bool)
    (vbl_old vbl_new : Option drmVBlankReply) : msc_state × msc_reply :=
  match pDraw, crtc with
  | false, none => (s, { ret := Success, ust := 0, msc := 0 })
  | false, some c =>
    let r := common_drm_get_msc (s.crtcs c) vbl_new
    (s.set_crtc c r.1, r.2)
  | true, _ =>
    let a := drawable_msc_refresh s vbl_old
    let b := drawable_msc_rebind a.1 a.2 crtc vbl_new
    (b.1, { ret := b.2, ust := b.1.drawc.last_ust, msc := b.1.drawc.last_msc })

/-- State after `common_drm_crtc_init`, which allocates the CRTC record with
`xnfcalloc`: every timing field starts at zero. -/
def common_drm_crtc_init : common_crtc_info :=
  { last_seq := 0, last_msc := 0, swap_msc := 0, swap_ust := 0 }

/-- A screen whose CRTCs are all freshly created, with the given drawable record. -/
def msc_state.init (drawc : common_pixmap) : msc_state :=
  { crtcs := fun _ => common_drm_crtc_init, drawc := drawc }

/-- One `common_drm_get_drawable_msc` call on the drawable: the requested CRTC and the
outcomes of the vblank queries the call may make. -/
structure drawable_query where
  crtc : Option Nat
  vbl_old : Option drmVBlankReply
  vbl_new : Option drmVBlankReply

/-- A run of `common_drm_get_drawable_msc` calls on the drawable: the final state and
the MSC returned by each call, in order. -/
def get_drawable_msc_seq (s : msc_state) : List drawable_query → msc_state × List Nat
  | [] => (s, [])
  | q :: rest =>
    let r := common_drm_get_drawable_msc s q.crtc true q.vbl_old q.vbl_new
    let rs := get_drawable_msc_seq r.1 rest
    (rs.1, r.2.msc :: rs.2)

/-- The query `q` made in state `s` reads from the CRTC the drawable is bound to (if
any) an MSC not below the one that CRTC reported at its previous read (`swap_msc`), and
the drawable's MSC advanced by the same amount still fits in 64 bits. -/
def query_advances (s : msc_state) (q : drawable_query) : Prop :=
  match s.drawc.crtc with
  | none => True
  | some a =>
    (s.crtcs a).swap_msc ≤ (common_drm_get_msc (s.crtcs a) q.vbl_old).2.msc ∧
    s.drawc.last_msc +
      ((common_drm_get_msc (s.crtcs a) q.vbl_old).2.msc - (s.crtcs a).swap_msc) < 2 ^ 64

/-- Every query of the run satisfies `query_advances` in the state it is made in. -/
def queries_advance (s : msc_state) : List drawable_query → Prop
  | [] => True
  | q :: rest =>
    query_advances s q ∧
      queries_advance (common_drm_get_drawable_msc s q.crtc true q.vbl_old q.vbl_new).1 rest

instance query_advances.decidable (s : msc_state) (q : drawable_query) :
    Decidable (query_advances s q) :=
  match h : s.drawc.crtc with
  | none => isTrue (by simp [query_advances, h])
  | some a =>
    decidable_of_iff
      ((s.crtcs a).swap_msc ≤ (common_drm_get_msc (s.crtcs a) q.vbl_old).2.msc ∧
        s.drawc.last_msc +
          ((common_drm_get_msc (s.crtcs a) q.vbl_old).2.msc - (s.crtcs a).swap_msc) < 2 ^ 64)
      (by simp [query_advances, h])

instance queries_advance.decidable :
    (s : msc_state) → (qs : List drawable_query) → Decidable (queries_advance s qs)
  | _, [] => isTrue trivial
  | s, q :: rest =>
    @instDecidableAnd _ _ (query_advances.decidable s q)
      (queries_advance.decidable
        (common_drm_get_drawable_msc s q.crtc true q.vbl_old q.vbl_new).1 rest)

/-- After a query the drawable's `last_msc` is the bound CRTC's last reported MSC plus
`delta_msc`, in 64-bit arithmetic. -/
def binding_consistent (s : msc_state) : Prop :=
  s.drawc.last_msc < 2 ^ 64 ∧
    ∀ a, s.drawc.crtc = some a →
      s.drawc.last_msc = toUInt64 (((s.crtcs a).swap_msc : Int) + s.drawc.delta_msc)

/-! ## Page flip fan-out -/

/-- The flip bookkeeping of `struct common_drm_info`.  `flip_event` is the handle of
the caller's completion event, `flip_ref_crtc` the index of the reference CRTC;
`flip_count` is an unsigned 32-bit counter. -/
structure common_drm_info where
  fb_id : Nat
  flip_event : Option Nat
  flip_ref_crtc : Option Nat
  flip_count : Nat
  flip_tv_sec : Nat
  flip_tv_usec : Nat
  flip_msc : Nat
  flip_old_fb_id : Nat
deriving DecidableEq, Repr

/-- What `common_drm_flip` meets at one entry of `xf86_config->crtc[]`: whether the
CRTC is enabled, whether `calloc` of the per-CRTC event succeeds and whether
`drmModePageFlip` accepts the request. -/
structure flip_crtc where
  enabled : Bool
  calloc_ok : Bool
  page_flip_ok : Bool
deriving DecidableEq, Repr

/-- Calls into libdrm made by the flip code, in the order they are made. -/
inductive drm_call where
  | AddFB (result : Option Nat)
  | PageFlip (crtc : Nat) (fb_id : Nat) (ok : Bool)
  | RmFB (fb_id : Nat)
deriving DecidableEq, Repr

/-- The `for` loop of `common_drm_flip` from index `i` on: one page-flip request per
enabled CRTC, `flip_count` incremented for each request the kernel accepts. -/
def common_drm_flip_loop (drm : common_drm_info) (log : List drm_call) (i : Nat) :
    List flip_crtc → common_drm_info × List drm_call
  | [] => (drm, log)
  | crtc :: rest =>
    if !crtc.enabled then common_drm_flip_loop drm log (i + 1) rest
    else if !crtc.calloc_ok then common_drm_flip_loop drm log (i + 1) rest
    else if !crtc.page_flip_ok then
      common_drm_flip_loop drm (log ++ [drm_call.PageFlip i drm.fb_id false]) (i + 1) rest
    else
      common_drm_flip_loop { drm with flip_count := (drm.flip_count + 1) % 2 ^ 32 }
        (log ++ [drm_call.PageFlip i drm.fb_id true]) (i + 1) rest

/-- Embedding of `common_drm_flip(pScrn, pixmap, event, ref_crtc)`.  `add_fb` is the outcome of
`drmModeAddFB` (`none` on failure, the new framebuffer id otherwise, which libdrm
stores through `&drm->fb_id` only on success).  Returns the updated record, the
boolean result and the libdrm calls made. -/
def common_drm_flip (drm : common_drm_info) (add_fb : Option Nat) (crtcs : List flip_crtc)
    (event : Option Nat) (ref_crtc : Option Nat) :
    common_drm_info × Bool × List drm_call :=
  let old_fb_id := drm.fb_id
  match add_fb with
  | none => (drm, false, [drm_call.AddFB none])
  | some new_fb_id =>
    let r := common_drm_flip_loop { drm with fb_id := new_fb_id }
      [drm_call.AddFB (some new_fb_id)] 0 crtcs
    if r.1.flip_count ≠ 0 then
      ({ r.1 with
          flip_event := event
          flip_ref_crtc := ref_crtc
          flip_msc := 0
          flip_tv_sec := 0
          flip_tv_usec := 0
          flip_old_fb_id := old_fb_id }, true, r.2)
    else
      ({ r.1 with fb_id := old_fb_id }, false, r.2 ++ [drm_call.RmFB r.1.fb_id])

/-- The CRTCs that accept the flip, by index counted from `i`: enabled, event allocated,
page-flip request accepted by the kernel. -/
def flip_accepting (i : Nat) : List flip_crtc → List Nat
  | [] => []
  | crtc :: rest =>
    if crtc.enabled && crtc.calloc_ok && crtc.page_flip_ok then i :: flip_accepting (i + 1) rest
    else flip_accepting (i + 1) rest

/-! ## Page flip completion -/

/-- What reaches the caller or the kernel when flip completions are handled: removal
of a framebuffer with `drmModeRmFB`, and the call of the completion event's handler with
the values passed to it. -/
inductive flip_effect where
  | RmFB (fb_id : Nat)
  | Complete (event : Nat) (msc : Nat) (tv_sec : Nat) (tv_usec : Nat)
deriving DecidableEq, Repr

/-- Embedding of `common_drm_flip_handler(event, msc, tv_sec, tv_usec)`; `crtc` is
`event->crtc`.  The decrement of the unsigned `flip_count` wraps from 0 to `2^32 - 1`. -/
def common_drm_flip_handler (drm : common_drm_info) (crtc : Nat)
    (msc tv_sec tv_usec : Nat) : common_drm_info × List flip_effect :=
  let drm1 : common_drm_info :=
    if drm.flip_ref_crtc = some crtc then
      { drm with flip_msc := msc, flip_tv_sec := tv_sec, flip_tv_usec := tv_usec }
    else drm
  let drm2 : common_drm_info :=
    { drm1 with
      flip_count := if drm1.flip_count = 0 then 2 ^ 32 - 1 else drm1.flip_count - 1 }
  if drm2.flip_count ≠ 0 then (drm2, [])
  else
    (drm2,
      flip_effect.RmFB drm2.flip_old_fb_id ::
        (match drm2.flip_event with
          | some event =>
            [flip_effect.Complete event drm2.flip_msc drm2.flip_tv_sec drm2.flip_tv_usec]
          | none => []))

/-- A page-flip completion delivered by the kernel: the CRTC of the per-CRTC event and
the `frame`, `tv_sec`, `tv_usec` arguments of the event callback. -/
structure flip_completion where
  crtc : Nat
  frame : Nat
  tv_sec : Nat
  tv_usec : Nat
deriving DecidableEq, Repr

/-- The CRTC records of a screen together with its flip bookkeeping. -/
structure flip_state where
  crtcs : Nat → common_crtc_info
  drm : common_drm_info

/-- Embedding of `common_drm_event(fd, frame, tv_sec, tv_usec, event_data)` for an event
created by `common_drm_flip`, whose handler is `common_drm_flip_handler`. -/
def common_drm_event (s : flip_state) (e : flip_completion) :
    flip_state × List flip_effect :=
  let r := common_drm_frame_to_msc (s.crtcs e.crtc) e.frame
  let drmc : common_crtc_info :=
    { r.1 with
      swap_msc := r.2
      swap_ust := (e.tv_sec * 1000000 + e.tv_usec) % 2 ^ 64 }
  let h := common_drm_flip_handler s.drm e.crtc r.2 e.tv_sec e.tv_usec
  ({ crtcs := fun j => if j = e.crtc then drmc else s.crtcs j, drm := h.1 }, h.2)

/-- Delivery of a list of completions in order: the final state and every effect
produced, in order. -/
def flip_events (s : flip_state) : List flip_completion → flip_state × List flip_effect
  | [] => (s, [])
  | e :: rest =>
    let r := common_drm_event s e
    let rs := flip_events r.1 rest
    (rs.1, r.2 ++ rs.2)

/-- Whether an effect is the call of the completion handler. -/
def flip_effect.is_complete : flip_effect → Bool
  | flip_effect.Complete _ _ _ _ => true
  | flip_effect.RmFB _ => false

/-- Whether an effect is the removal of a framebuffer. -/
def flip_effect.is_rm_fb : flip_effect → Bool
  | flip_effect.RmFB _ => true
  | flip_effect.Complete _ _ _ _ => false

/-! ## Backlight interface discovery (`common/backlight.c`) -/

/-- Conversion of an `int` to `unsigned` (reduction modulo `2^32`). -/
def toUInt32 (i : Int) : Nat :=
  (i % 2 ^ 32).toNat

/-- Modelled from the spec: the values of the enumerators of `enum backlight_type`,
which is declared in `backlight.h`, a header that is not among the sources.  The
embedded functions take them as a parameter. -/
structure backlight_type where
  BL_NONE : Int
  BL_FIRMWARE : Int
  BL_PLATFORM : Int
  BL_RAW : Int
  BL_NAMED : Int
deriving DecidableEq, Repr

/-- Modelled from the spec: the enumerators of `enum backlight_type` (missing header
`backlight.h`) are `int` values; `BL_NONE`, the mark of a candidate that is not eligible,
is negative, and the four ranks are non-negative and small enough that a rank plus the
length of `known_interfaces` stays below `INT_MAX`. -/
def backlight_type.valid (t : backlight_type) : Prop :=
  -(2 ^ 31) ≤ t.BL_NONE ∧ t.BL_NONE < 0 ∧
  0 ≤ t.BL_FIRMWARE ∧ t.BL_FIRMWARE + 13 < 2 ^ 31 - 1 ∧
  0 ≤ t.BL_PLATFORM ∧ t.BL_PLATFORM + 13 < 2 ^ 31 - 1 ∧
  0 ≤ t.BL_RAW ∧ t.BL_RAW + 13 < 2 ^ 31 - 1 ∧
  0 ≤ t.BL_NAMED ∧ t.BL_NAMED + 13 < 2 ^ 31 - 1

/-- Modelled from the spec: the order of the enumerators of `enum backlight_type`
(missing header `backlight.h`), "firmware" ranking best, then "platform", then "raw",
then the named interfaces. -/
def backlight_type.spec_order (t : backlight_type) : Prop :=
  t.BL_FIRMWARE < t.BL_PLATFORM ∧ t.BL_PLATFORM < t.BL_RAW ∧ t.BL_RAW < t.BL_NAMED

/-- Modelled from the spec: one assignment of the enumerators of `enum backlight_type`
(missing header `backlight.h`) in the spec's order. -/
def backlight_type.spec : backlight_type :=
  { BL_NONE := -1, BL_FIRMWARE := 0, BL_PLATFORM := 1, BL_RAW := 2, BL_NAMED := 3 }

instance (t : backlight_type) : Decidable t.valid := by
  unfold backlight_type.valid; infer_instance

instance (t : backlight_type) : Decidable t.spec_order := by
  unfold backlight_type.spec_order; infer_instance

/-- Modelled from the spec: the part of the order of the enumerators of
`enum backlight_type` (missing header `backlight.h`) that a choice between a "firmware"
and a "raw" interface rests on: "firmware" ranks better than "raw", and `BL_FIRMWARE` is
an enumerator other than `BL_NAMED`. -/
def backlight_type.firmware_order (t : backlight_type) : Prop :=
  t.BL_FIRMWARE < t.BL_RAW ∧ t.BL_FIRMWARE ≠ t.BL_NAMED

instance (t : backlight_type) : Decidable t.firmware_order := by
  unfold backlight_type.firmware_order; infer_instance

/-- What sysfs holds for one interface under `/sys/class/backlight`: the values
`__backlight_read` returns for `brightness`, `max_brightness` and `bl_power` (`-1` when
the file cannot be read), the bytes `read` returns from `type` (`none` when the file
cannot be opened or `read` returns no byte), and the descriptor `__backlight_open`
returns for `brightness` opened `O_RDWR` (negative on failure). -/
structure backlight_sysfs where
  brightness : Int
  max_brightness : Int
  bl_power : Int
  type : Option String
  brightness_fd : Int
deriving DecidableEq, Repr

/-- The table `known_interfaces`, in priority order. -/
def known_interfaces : List String :=
  ["dell_backlight", "gmux_backlight", "asus-laptop", "asus-nb-wmi", "eeepc",
   "thinkpad_screen", "mbp_backlight", "fujitsu-laptop", "sony", "samsung",
   "acpi_video1", "acpi_video0", "intel_backlight"]

/-- The C library's `isspace` in the "C" locale. -/
def isspace (c : Char) : Bool :=
  c = ' ' || c = '\t' || c = '\n' || c = '\x0b' || c = '\x0c' || c = '\r'

/-- The string `__backlight_type` compares with `strcmp`: the bytes read from the `type`
file with trailing white space cut off, up to the first NUL; `none` when nothing was
read. -/
def backlight_type_text (content : Option String) : Option String :=
  match content with
  | none => none
  | some s =>
    if 0 < s.length then
      some (String.mk
        (((s.toList.reverse.dropWhile isspace).reverse).takeWhile (fun c => c ≠ '\x00')))
    else none

/-- Embedding of `__backlight_type(iface)`. -/
def __backlight_type (t : backlight_type) (sys : String → backlight_sysfs)
    (iface : String) : Int :=
  let v : Int :=
    match backlight_type_text (sys iface).type with
    | some buf =>
      if buf = "raw" then t.BL_RAW
      else if buf = "platform" then t.BL_PLATFORM
      else if buf = "firmware" then t.BL_FIRMWARE
      else t.BL_NAMED
    | none => t.BL_NAMED
  if v = t.BL_NAMED then v + (known_interfaces.indexOf iface : Nat) else v

/-- Embedding of `backlight_exists(iface)`. -/
def backlight_exists (t : backlight_type) (sys : String → backlight_sysfs)
    (iface : String) : Int :=
  if (sys iface).brightness < 0 then t.BL_NONE
  else if (sys iface).max_brightness ≤ 0 then t.BL_NONE
  else __backlight_type t sys iface

/-- A directory entry as `__backlight_find` meets it: its name and whether `strdup` of
the name succeeds. -/
structure dirent where
  d_name : String
  strdup_ok : Bool
deriving DecidableEq, Repr

/-- The `while ((de = readdir(dir)))` loop of `__backlight_find`, with the current
`best_iface` and `best_type`.  The comparison `v < best_type` is made in `unsigned`. -/
def backlight_find_loop (t : backlight_type) (sys : String → backlight_sysfs)
    (best_iface : Option String) (best_type : Nat) : List dirent → Option String
  | [] => best_iface
  | de :: rest =>
    if de.d_name.toList.head? = some '.' then
      backlight_find_loop t sys best_iface best_type rest
    else if toUInt32 (backlight_exists t sys de.d_name) < best_type then
      if de.strdup_ok then
        backlight_find_loop t sys (some de.d_name)
          (toUInt32 (backlight_exists t sys de.d_name)) rest
      else backlight_find_loop t sys best_iface best_type rest
    else backlight_find_loop t sys best_iface best_type rest

/-- Embedding of `__backlight_find()`.  `dir` is `none` when `opendir` fails and the
entries in `readdir` order otherwise; `best_type` starts at `INT_MAX`. -/
def __backlight_find (t : backlight_type) (sys : String → backlight_sysfs)
    (dir : Option (List dirent)) : Option String :=
  match dir with
  | none => none
  | some ents => backlight_find_loop t sys none (2 ^ 31 - 1) ents

/-- The fields of `struct backlight`. -/
structure backlight where
  type : Int
  iface : Option String
  fd : Int
  pid : Int
  max : Int
  has_power : Int
deriving DecidableEq, Repr

/-- Embedding of `backlight_init(b)`. -/
def backlight_init (t : backlight_type) (b : backlight) : backlight :=
  { b with type := t.BL_NONE, iface := none, fd := -1, pid := -1, max := -1, has_power := 0 }

/-- Embedding of `__backlight_direct_init(b, iface)` with `__backlight_init` inlined (the
descriptor is stored as returned by `__backlight_open`).  Returns the record and the
`int` result. -/
def __backlight_direct_init (sys : String → backlight_sysfs) (b : backlight)
    (iface : String) : backlight × Int :=
  if (sys iface).brightness_fd < 0 then (b, 0)
  else
    let b1 : backlight := if (sys iface).bl_power ≠ -1 then { b with has_power := 1 } else b
    ({ b1 with fd := (sys iface).brightness_fd, iface := some iface }, 1)

/-- Embedding of `__backlight_helper_init(b, iface)`, which always returns 0. -/
def __backlight_helper_init (b : backlight) : backlight × Int :=
  (b, 0)

/-- Embedding of `backlight_open(b, iface)`.  Returns the record and the `int` result
(the current level, or `-1`). -/
def backlight_open (t : backlight_type) (sys : String → backlight_sysfs)
    (dir : Option (List dirent)) (b : backlight) (iface : Option String) :
    backlight × Int :=
  let iface1 : Option String :=
    match iface with
    | some i => some i
    | none => __backlight_find t sys dir
  match iface1 with
  | none => (backlight_init t b, -1)
  | some i =>
    let b1 : backlight := { b with type := __backlight_type t sys i }
    let b2 : backlight := { b1 with max := (sys i).max_brightness }
    if b2.max ≤ 0 then (backlight_init t b2, -1)
    else if (sys i).brightness < 0 then (backlight_init t b2, -1)
    else
      let d := __backlight_direct_init sys b2 i
      if d.2 = 0 then
        let h := __backlight_helper_init d.1
        if h.2 = 0 then (backlight_init t h.1, -1) else (h.1, (sys i).brightness)
      else (d.1, (sys i).brightness)

/-- A sysfs holding the two interfaces `acpi_video0` (type "firmware") and
`intel_backlight` (type "raw"), both at brightness 5 of 10; any other name is absent. -/
def sysfs_acpi_intel (name : String) : backlight_sysfs :=
  if name = "acpi_video0" then
    { brightness := 5, max_brightness := 10, bl_power := 0, type := some "firmware\n",
      brightness_fd := 7 }
  else if name = "intel_backlight" then
    { brightness := 5, max_brightness := 10, bl_power := -1, type := some "raw\n",
      brightness_fd := 8 }
  else
    { brightness := -1, max_brightness := -1, bl_power := -1, type := none,
      brightness_fd := -1 }

/-- An interface is named (untyped) when its `type` file cannot be read or holds none
of "raw", "platform" and "firmware". -/
def backlight_named (sys : String → backlight_sysfs) (iface : String) : Prop :=
  ∀ buf, backlight_type_text (sys iface).type = some buf →
    buf ≠ "raw" ∧ buf ≠ "platform" ∧ buf ≠ "firmware"

/-- A sysfs in which every interface reads brightness 0 of 10, type "raw", without
`bl_power`. -/
def sysfs_dark (_name : String) : backlight_sysfs :=
  { brightness := 0, max_brightness := 10, bl_power := -1, type := some "raw\n",
    brightness_fd := 5 }

/-- A sysfs holding the two interfaces `acpi_video0` and `acpi_video1`, both of type
"firmware" at brightness 5 of 10; any other name is absent. -/
def sysfs_two_firmware (name : String) : backlight_sysfs :=
  if name = "acpi_video0" then
    { brightness := 5, max_brightness := 10, bl_power := 0, type := some "firmware\n",
      brightness_fd := 7 }
  else if name = "acpi_video1" then
    { brightness := 5, max_brightness := 10, bl_power := 0, type := some "firmware\n",
      brightness_fd := 8 }
  else
    { brightness := -1, max_brightness := -1, bl_power := -1, type := none,
      brightness_fd := -1 }

/-! ## Backlight level (`common/backlight.c`) -/

/-- Embedding of `backlight_set(b, level)`: the level handed to `write` (none when the
device has no interface and nothing is written) and the `int` result.  `write_ok` tells
whether `write` stores the whole text.  The test `(unsigned)level > b->max` compares in
`unsigned`. -/
def backlight_set (b : backlight) (level : Int) (write_ok : Bool) : Option Int × Int :=
  if b.iface = none then (none, 0)
  else
    let level1 : Int := if toUInt32 b.max < toUInt32 level then b.max else level
    (some level1, if write_ok then 0 else -1)

/-- Embedding of `backlight_get(b)`; `brightness` is what `__backlight_read` returns for
the `brightness` file.  Returns the record, which the function leaves alone, and the
`int` result. -/
def backlight_get (b : backlight) (brightness : Int) : backlight × Int :=
  if b.iface = none then (b, -1)
  else if b.max < brightness then (b, b.max)
  else if brightness < 0 then (b, -1)
  else (b, brightness)

/-- Embedding of `backlight_disable(b)`. -/
def backlight_disable (b : backlight) : backlight :=
  if b.iface = none then b else { b with iface := none }

/-! ## DPMS hook of a connector (`src/common_drm.c`) -/

/-- The X constant `DPMSModeOn`. -/
def DPMSModeOn : Int := 0

/-- The fields of `struct common_conn_info` the DPMS hook works on. -/
structure common_conn_info where
  dpms_mode : Int
  backlight : backlight
  backlight_active_level : Int
deriving DecidableEq, Repr

/-- What a DPMS call does that is visible outside the record, in order: reading the
backlight brightness, writing a backlight level, writing the DPMS property with
`drmModeConnectorSetProperty`, and storing `conn->dpms_mode`. -/
inductive conn_effect where
  | BacklightRead
  | BacklightWrite (level : Int)
  | SetProperty (mode : Int)
  | StoreDpmsMode (mode : Int)
deriving DecidableEq, Repr

/-- What one DPMS call meets: whether the connector has a "DPMS" property, what the
backlight `brightness` file reads, and whether a write of a level succeeds. -/
structure dpms_env where
  has_dpms : Bool
  brightness : Int
  write_ok : Bool
deriving DecidableEq, Repr

/-- Embedding of `common_drm_conn_backlight_set(output, level)`: a failed
`backlight_set` disables the backlight. -/
def common_drm_conn_backlight_set (conn : common_conn_info) (level : Int)
    (write_ok : Bool) : common_conn_info × List conn_effect :=
  let r := backlight_set conn.backlight level write_ok
  let effects : List conn_effect :=
    match r.1 with
    | some v => [conn_effect.BacklightWrite v]
    | none => []
  if r.2 < 0 then ({ conn with backlight := backlight_disable conn.backlight }, effects)
  else (conn, effects)

/-- Embedding of `common_drm_conn_backlight_get(output)`. -/
def common_drm_conn_backlight_get (conn : common_conn_info) (brightness : Int) :
    Int × List conn_effect :=
  ((backlight_get conn.backlight brightness).2,
    if conn.backlight.iface = none then [] else [conn_effect.BacklightRead])

/-- Embedding of `common_drm_conn_dpms_backlight(output, oldmode, mode)`. -/
def common_drm_conn_dpms_backlight (conn : common_conn_info) (oldmode mode : Int)
    (env : dpms_env) : common_conn_info × List conn_effect :=
  if conn.backlight.iface = none then (conn, [])
  else if mode = DPMSModeOn then
    if oldmode ≠ DPMSModeOn then
      common_drm_conn_backlight_set conn conn.backlight_active_level env.write_ok
    else (conn, [])
  else
    let g := common_drm_conn_backlight_get conn env.brightness
    let conn1 : common_conn_info :=
      if oldmode = DPMSModeOn then { conn with backlight_active_level := g.1 } else conn
    let e1 : List conn_effect := if oldmode = DPMSModeOn then g.2 else []
    let s := common_drm_conn_backlight_set conn1 0 env.write_ok
    (s.1, e1 ++ s.2)

/-- Embedding of `common_drm_conn_dpms(output, mode)`. -/
def common_drm_conn_dpms (conn : common_conn_info) (mode : Int) (env : dpms_env) :
    common_conn_info × List conn_effect :=
  if env.has_dpms then
    let a : common_conn_info × List conn_effect :=
      if mode ≠ DPMSModeOn then common_drm_conn_dpms_backlight conn conn.dpms_mode mode env
      else (conn, [])
    let b : common_conn_info × List conn_effect :=
      if mode = DPMSModeOn then common_drm_conn_dpms_backlight a.1 a.1.dpms_mode mode env
      else (a.1, [])
    ({ b.1 with dpms_mode := mode },
      a.2 ++ [conn_effect.SetProperty mode] ++ b.2 ++ [conn_effect.StoreDpmsMode mode])
  else (conn, [])

/-- A run of `common_drm_conn_dpms` calls: the final record and the effects of each
call. -/
def conn_dpms_seq (conn : common_conn_info) :
    List (Int × dpms_env) → common_conn_info × List (List conn_effect)
  | [] => (conn, [])
  | c :: rest =>
    let r := common_drm_conn_dpms conn c.1 c.2
    let rs := conn_dpms_seq r.1 rest
    (rs.1, r.2 :: rs.2)

/-! ## Queued vblank events -/

/-- What `common_drm_queue_msc_event` hands back: the sequence it asked the kernel for,
its `int` result and the value left in `*msc`. -/
structure queue_reply where
  sequence : Nat
  ret : Int
  msc : Nat
deriving DecidableEq, Repr

/-- Embedding of `common_drm_queue_msc_event(pScrn, crtc, &msc, func, nextonmiss, event)`.
`vbl` is the outcome of `drmWaitVBlank`: `none` when it fails (result `-1`), the reply
otherwise. -/
def common_drm_queue_msc_event (drmc : common_crtc_info) (msc : Nat)
    (vbl : Option drmVBlankReply) : common_crtc_info × queue_reply :=
  let sequence := common_drm_msc_to_frame drmc msc
  match vbl with
  | none => (drmc, { sequence := sequence, ret := -1, msc := msc })
  | some reply =>
    let r := common_drm_frame_to_msc drmc reply.sequence
    (r.1, { sequence := sequence, ret := 0, msc := r.2 })

/-- Embedding of `common_drm_queue_drawable_msc_event(pScrn, crtc, pDraw, pmsc, ...)`.
`drawc` is the drawable's record, none when `pDraw` is `NULL`. -/
def common_drm_queue_drawable_msc_event (drmc : common_crtc_info)
    (drawc : Option common_pixmap) (pmsc : Nat) (vbl : Option drmVBlankReply) :
    common_crtc_info × queue_reply :=
  let delta : Int :=
    match drawc with
    | some d => d.delta_msc
    | none => 0
  let msc : Nat :=
    match drawc with
    | some _ => toUInt64 ((pmsc : Int) - delta)
    | none => pmsc
  let r := common_drm_queue_msc_event drmc msc vbl
  (r.1, { r.2 with msc := toUInt64 ((r.2.msc : Int) + delta) })

/-- The operations on one CRTC's timing record: a direct `common_drm_frame_to_msc`,
the CRTC part of `common_drm_event`, `common_drm_get_msc` and
`common_drm_queue_msc_event`. -/
inductive crtc_op where
  | frame_to_msc (seq : Nat)
  | event (frame : Nat) (tv_sec : Nat) (tv_usec : Nat)
  | get_msc (vbl : Option drmVBlankReply)
  | queue_msc_event (msc : Nat) (vbl : Option drmVBlankReply)
deriving DecidableEq, Repr

/-- The CRTC record after an operation. -/
def crtc_op.apply (drmc : common_crtc_info) : crtc_op → common_crtc_info
  | crtc_op.frame_to_msc seq => (common_drm_frame_to_msc drmc seq).1
  | crtc_op.event frame tv_sec tv_usec =>
    (common_drm_event ⟨fun _ => drmc, ⟨0, none, none, 0, 0, 0, 0, 0⟩⟩
      ⟨0, frame, tv_sec, tv_usec⟩).1.crtcs 0
  | crtc_op.get_msc vbl => (common_drm_get_msc drmc vbl).1
  | crtc_op.queue_msc_event msc vbl => (common_drm_queue_msc_event drmc msc vbl).1

/-- The CRTC record after a list of operations, in order. -/
def crtc_run (drmc : common_crtc_info) : List crtc_op → common_crtc_info
  | [] => drmc
  | op :: rest => crtc_run (op.apply drmc) rest

/-! ## DRM master reference count -/

/-- The master reference count of `struct common_drm_device` (an `int`; overflow of
the count is not modelled). -/
structure common_drm_device where
  master_count : Int
deriving DecidableEq, Repr

/-- Calls into libdrm made by the master bookkeeping. -/
inductive master_call where
  | SetMaster
  | DropMaster
deriving DecidableEq, Repr

/-- Embedding of `common_alloc_dev(entity_num, fd, path, ddx_managed_master)`: none
when an allocation fails, otherwise the device with `master_count =
!ddx_managed_master`. -/
def common_alloc_dev (ddx_managed_master : Bool) (alloc_ok : Bool) :
    Option common_drm_device :=
  if alloc_ok then some { master_count := if ddx_managed_master then 0 else 1 } else none

/-- Embedding of `common_drm_get_master(drm_dev)`; `set_master_ok` tells whether
`drmSetMaster` returns 0. -/
def common_drm_get_master (dev : common_drm_device) (set_master_ok : Bool) :
    common_drm_device × Bool × List master_call :=
  if dev.master_count ≠ 0 then ({ master_count := dev.master_count + 1 }, true, [])
  else ({ master_count := dev.master_count + 1 }, set_master_ok, [master_call.SetMaster])

/-- Embedding of `common_drm_put_master(drm_dev)`: none when
`assert(drm_dev->master_count)` fails. -/
def common_drm_put_master (dev : common_drm_device) :
    Option (common_drm_device × List master_call) :=
  if dev.master_count = 0 then none
  else if dev.master_count - 1 = 0 then
    some ({ master_count := dev.master_count - 1 }, [master_call.DropMaster])
  else some ({ master_count := dev.master_count - 1 }, [])

/-- A call of the master bookkeeping: an acquire (with the outcome of `drmSetMaster`,
should it be called) or a release. -/
inductive master_op where
  | acquire (set_master_ok : Bool)
  | release
deriving DecidableEq, Repr

/-- A run of acquire / release calls: none when an assertion fails, otherwise the
final device and the libdrm calls made by each call. -/
def master_run (dev : common_drm_device) :
    List master_op → Option (common_drm_device × List (List master_call))
  | [] => some (dev, [])
  | master_op.acquire ok :: rest =>
    match master_run (common_drm_get_master dev ok).1 rest with
    | some (d, calls) => some (d, (common_drm_get_master dev ok).2.2 :: calls)
    | none => none
  | master_op.release :: rest =>
    match common_drm_put_master dev with
    | none => none
    | some (d1, c1) =>
      match master_run d1 rest with
      | some (d, calls) => some (d, c1 :: calls)
      | none => none

/-- The count a list of calls should leave, starting from `init`: plus one per
acquire, minus one per release. -/
def master_balance (init : Int) : List master_op → Int
  | [] => init
  | master_op.acquire _ :: rest => master_balance (init + 1) rest
  | master_op.release :: rest => master_balance (init - 1) rest

/-! ## Sequence-to-MSC conversion: results -/

theorem frame_to_msc_last_msc_lt (drmc : common_crtc_info) (seq : Nat)
    (hm : drmc.last_msc < 2 ^ 64) : (common_drm_frame_to_msc drmc seq).1.last_msc < 2 ^ 64 := by
  unfold common_drm_frame_to_msc
  dsimp only
  split
  · exact Nat.mod_lt _ (by norm_num)
  · exact hm

theorem frame_to_msc_seq_length (drmc : common_crtc_info) (rs : List Nat) :
    (frame_to_msc_seq drmc rs).2.length = rs.length := by
  induction rs generalizing drmc with
  | nil => rfl
  | cons r rest ih => simp [frame_to_msc_seq, ih]

theorem frame_to_msc_seq_final (drmc : common_crtc_info) (rs : List Nat)
    (hm : drmc.last_msc < 2 ^ 64) :
    (frame_to_msc_seq drmc rs).1.last_seq = rs.getLastD drmc.last_seq ∧
    (frame_to_msc_seq drmc rs).1.last_msc =
      (drmc.last_msc + 2 ^ 32 * descents drmc.last_seq rs) % 2 ^ 64 := by
  induction rs generalizing drmc with
  | nil => simp [frame_to_msc_seq, descents]; omega
  | cons r rest ih =>
    have h1 := ih (common_drm_frame_to_msc drmc r).1 (frame_to_msc_last_msc_lt drmc r hm)
    simp only [frame_to_msc_seq, descents]
    refine ⟨?_, ?_⟩
    · rw [h1.1]
      cases rest with
      | nil => simp [common_drm_frame_to_msc]
      | cons a l => simp [List.getLastD]
    · rw [h1.2]
      simp only [common_drm_frame_to_msc]
      split
      · omega
      · omega

theorem frame_to_msc_seq_get (drmc : common_crtc_info) (rs : List Nat) (i : Nat)
    (hi : i < rs.length) :
    (frame_to_msc_seq drmc rs).2.getD i 0 =
      (drmc.last_msc + 2 ^ 32 * descents drmc.last_seq (rs.take (i + 1)) + rs.getD i 0)
        % 2 ^ 64 := by
  induction rs generalizing drmc i with
  | nil => simp at hi
  | cons r rest ih =>
    cases i with
    | zero =>
      simp only [frame_to_msc_seq, List.getD_cons_zero, List.take_succ_cons, List.take_zero,
        descents, common_drm_frame_to_msc]
      split
      · omega
      · omega
    | succ j =>
      have hj : j < rest.length := by simpa using hi
      simp only [frame_to_msc_seq, List.getD_cons_succ, List.take_succ_cons, descents]
      rw [ih (common_drm_frame_to_msc drmc r).1 j hj]
      simp only [common_drm_frame_to_msc]
      split
      · omega
      · omega

/-- C1: a run of `common_drm_frame_to_msc` calls from the state `(last_seq, last_msc)`
returns, at call `i`, `last_msc + 2^32 * d_i + r_i` modulo `2^64`, where `d_i` counts the
raw values up to `r_i` that are strictly below their predecessor; afterwards `last_seq`
is the last raw value and `last_msc` has grown by `2^32 * d_n`.  From a fresh CRTC the raw
values `[10, 20, 5, 15]` give `[10, 20, 2^32 + 5, 2^32 + 15]`. -/
theorem frame_to_msc_seq_spec (drmc : common_crtc_info) (rs : List Nat)
    (hm : drmc.last_msc < 2 ^ 64) :
    (frame_to_msc_seq drmc rs).2.length = rs.length ∧
    (∀ i, i < rs.length →
      (frame_to_msc_seq drmc rs).2.getD i 0 =
        (drmc.last_msc + 2 ^ 32 * descents drmc.last_seq (rs.take (i + 1)) + rs.getD i 0)
          % 2 ^ 64) ∧
    (frame_to_msc_seq drmc rs).1.last_seq = rs.getLastD drmc.last_seq ∧
    (frame_to_msc_seq drmc rs).1.last_msc =
      (drmc.last_msc + 2 ^ 32 * descents drmc.last_seq rs) % 2 ^ 64 ∧
    (∀ sm su, (frame_to_msc_seq
        { last_seq := 0, last_msc := 0, swap_msc := sm, swap_ust := su } [10, 20, 5, 15]).2 =
      [10, 20, 2 ^ 32 + 5, 2 ^ 32 + 15]) :=
  ⟨frame_to_msc_seq_length drmc rs, frame_to_msc_seq_get drmc rs,
    (frame_to_msc_seq_final drmc rs hm).1, (frame_to_msc_seq_final drmc rs hm).2,
    fun _ _ => by simp only [frame_to_msc_seq, common_drm_frame_to_msc]; norm_num⟩

/-- C1 at the state `(last_seq, last_msc) = (20, 2^32)` with the raw values `[5, 15]`. -/
theorem frame_to_msc_seq_spec_witness :
    (frame_to_msc_seq { last_seq := 20, last_msc := 2 ^ 32, swap_msc := 0, swap_ust := 0 }
        [5, 15]).2 = [2 ^ 33 + 5, 2 ^ 33 + 15] ∧
    (frame_to_msc_seq { last_seq := 20, last_msc := 2 ^ 32, swap_msc := 0, swap_ust := 0 }
        [5, 15]).1.last_msc = 2 ^ 33 := by
  have h := frame_to_msc_seq_spec
    { last_seq := 20, last_msc := 2 ^ 32, swap_msc := 0, swap_ust := 0 } [5, 15] (by norm_num)
  refine ⟨?_, ?_⟩
  · simp only [frame_to_msc_seq, common_drm_frame_to_msc]; norm_num
  · rw [h.2.2.2.1]; simp only [descents]; norm_num

theorem frame_to_msc_seq_take_succ (drmc : common_crtc_info) (r : Nat) (rest : List Nat)
    (k : Nat) :
    (frame_to_msc_seq drmc ((r :: rest).take (k + 1))).1 =
      (frame_to_msc_seq (common_drm_frame_to_msc drmc r).1 (rest.take k)).1 := by
  simp [frame_to_msc_seq]

/-- C2: over any run of `common_drm_frame_to_msc` calls with 32-bit raw values (each
one is either at least the previous raw value or below it, which the code takes as one
wrap), every returned MSC is at least the one returned before it, and the first is at
least `last_msc + last_seq` of the starting state, as long as `last_msc + 2^32` stays
below `2^64` in every state of the run. -/
theorem frame_to_msc_seq_monotone (drmc : common_crtc_info) (rs : List Nat)
    (hs : drmc.last_seq < 2 ^ 32) (hr : ∀ r ∈ rs, r < 2 ^ 32)
    (hno : ∀ k, k ≤ rs.length →
      (frame_to_msc_seq drmc (rs.take k)).1.last_msc + 2 ^ 32 < 2 ^ 64) :
    List.Chain (· ≤ ·) (drmc.last_msc + drmc.last_seq) (frame_to_msc_seq drmc rs).2 := by
  induction rs generalizing drmc with
  | nil => simp [frame_to_msc_seq]
  | cons r rest ih =>
    have h0 : drmc.last_msc + 2 ^ 32 < 2 ^ 64 := by
      simpa [frame_to_msc_seq] using hno 0 (Nat.zero_le _)
    have h1 : (common_drm_frame_to_msc drmc r).1.last_msc + 2 ^ 32 < 2 ^ 64 := by
      simpa [frame_to_msc_seq] using hno 1 (by simp)
    have hr0 : r < 2 ^ 32 := hr r (by simp)
    have hout : (common_drm_frame_to_msc drmc r).2 =
        (common_drm_frame_to_msc drmc r).1.last_msc + (common_drm_frame_to_msc drmc r).1.last_seq := by
      simp only [common_drm_frame_to_msc] at h1 ⊢
      omega
    have hge : drmc.last_msc + drmc.last_seq ≤ (common_drm_frame_to_msc drmc r).2 := by
      rw [hout]
      simp only [common_drm_frame_to_msc] at h1 ⊢
      split
      · omega
      · rename_i hlt; split at h1 <;> omega
    simp only [frame_to_msc_seq]
    refine List.Chain.cons hge ?_
    rw [hout]
    apply ih
    · simpa [common_drm_frame_to_msc] using hr0
    · intro x hx; exact hr x (by simp [hx])
    · intro k hk
      rw [← frame_to_msc_seq_take_succ]
      exact hno (k + 1) (by simpa using hk)

/-- C2 at the state `(last_seq, last_msc) = (20, 0)` with the raw values `[30, 5, 15]`:
the returned MSCs `[30, 2^32 + 5, 2^32 + 15]` rise from `20`. -/
theorem frame_to_msc_seq_monotone_witness :
    List.Chain (· ≤ ·) (0 + 20)
      (frame_to_msc_seq { last_seq := 20, last_msc := 0, swap_msc := 0, swap_ust := 0 }
        [30, 5, 15]).2 :=
  frame_to_msc_seq_monotone
    { last_seq := 20, last_msc := 0, swap_msc := 0, swap_ust := 0 } [30, 5, 15]
    (by norm_num) (by intro r hr; simp at hr; omega)
    (by
      intro k hk
      have hk3 : k ≤ 3 := hk
      interval_cases k <;>
        simp only [List.take, frame_to_msc_seq, common_drm_frame_to_msc] <;> norm_num)

/-! ## Auxiliary facts on the 64-bit conversions and the two blocks of the drawable query -/

theorem toInt64_emod (x : Nat) : toInt64 x % 2 ^ 64 = (x : Int) % 2 ^ 64 := by
  unfold toInt64
  split <;> omega

theorem toUInt64_lt (i : Int) : toUInt64 i < 2 ^ 64 := by
  unfold toUInt64
  omega

theorem toUInt64_cast (i : Int) : ((toUInt64 i : Nat) : Int) = i % 2 ^ 64 := by
  unfold toUInt64
  omega

theorem toUInt64_add_toInt64 (x : Int) (y : Nat) :
    toUInt64 (x + toInt64 y) = toUInt64 (x + y) := by
  have h := toInt64_emod y
  unfold toUInt64
  congr 1
  omega

theorem toInt64_exact (i : Int) (h1 : -(2 ^ 63) ≤ i) (h2 : i < 2 ^ 63) :
    toInt64 (toUInt64 i) = i := by
  unfold toInt64 toUInt64
  split <;> omega

theorem get_msc_ret (drmc : common_crtc_info) (vbl : Option drmVBlankReply) :
    (common_drm_get_msc drmc vbl).2.ret = Success := rfl

theorem get_msc_msc (drmc : common_crtc_info) (vbl : Option drmVBlankReply) :
    (common_drm_get_msc drmc vbl).2.msc = (common_drm_get_msc drmc vbl).1.swap_msc := rfl


theorem drawable_msc_refresh_none (s : msc_state) (v : Option drmVBlankReply)
    (h : s.drawc.crtc = none) : drawable_msc_refresh s v = (s, Success) := by
  simp [drawable_msc_refresh, h]

theorem drawable_msc_refresh_some (s : msc_state) (v : Option drmVBlankReply) (a : Nat)
    (h : s.drawc.crtc = some a) :
    drawable_msc_refresh s v =
      ({ crtcs := fun j => if j = a then (common_drm_get_msc (s.crtcs a) v).1 else s.crtcs j
         drawc :=
          { crtc := some a
            last_ust := (common_drm_get_msc (s.crtcs a) v).2.ust
            last_msc := toUInt64
              (((common_drm_get_msc (s.crtcs a) v).2.msc : Int) + s.drawc.delta_msc)
            delta_msc := s.drawc.delta_msc } },
        Success) := by
  have e : drawable_msc_refresh s v =
      ({ crtcs := fun j => if j = a then (common_drm_get_msc (s.crtcs a) v).1 else s.crtcs j
         drawc := { s.drawc with
           last_ust := (common_drm_get_msc (s.crtcs a) v).2.ust
           last_msc := toUInt64
             (((common_drm_get_msc (s.crtcs a) v).2.msc : Int) + s.drawc.delta_msc) } },
        Success) := by
    simp [drawable_msc_refresh, h, msc_state.set_crtc, get_msc_ret]
  rw [e]
  simp only [h]

theorem drawable_msc_rebind_same (s : msc_state) (ret : Int) (crtc : Option Nat)
    (v : Option drmVBlankReply) (h : s.drawc.crtc = crtc) :
    drawable_msc_rebind s ret crtc v = (s, ret) := by
  simp [drawable_msc_rebind, h]

theorem drawable_msc_rebind_none (s : msc_state) (ret : Int)
    (v : Option drmVBlankReply) (h : s.drawc.crtc ≠ none) :
    drawable_msc_rebind s ret none v = ({ s with drawc := { s.drawc with crtc := none } }, ret) := by
  simp [drawable_msc_rebind, h]

theorem drawable_msc_rebind_some (s : msc_state) (ret : Int) (b : Nat)
    (v : Option drmVBlankReply) (h : s.drawc.crtc ≠ some b) :
    drawable_msc_rebind s ret (some b) v =
      ({ crtcs := fun j => if j = b then (common_drm_get_msc (s.crtcs b) v).1 else s.crtcs j
         drawc := { s.drawc with
           crtc := some b
           delta_msc := toInt64 (toUInt64
             ((s.drawc.last_msc : Int) - ((common_drm_get_msc (s.crtcs b) v).2.msc : Int))) } },
        Success) := by
  simp [drawable_msc_rebind, h, msc_state.set_crtc, get_msc_ret]

/-! ## Polled MSC query: results -/

/-- C3: when the vblank query fails, `common_drm_get_msc` hands back the cached
`swap_ust` and `swap_msc` as they were and leaves the CRTC record (`last_seq`,
`last_msc`, `swap_msc`, `swap_ust`) unchanged. -/
theorem get_msc_failure_cached (drmc : common_crtc_info) :
    (common_drm_get_msc drmc none).2.ust = drmc.swap_ust ∧
    (common_drm_get_msc drmc none).2.msc = drmc.swap_msc ∧
    (common_drm_get_msc drmc none).1 = drmc :=
  ⟨rfl, rfl, rfl⟩

/-- C4 refuted as stated: on a failed vblank query `common_drm_get_msc` still returns
`Success`, so its return value is not an error exactly when the query failed. -/
theorem get_msc_failure_not_signalled :
    ¬ ((common_drm_get_msc common_drm_crtc_init none).2.ret ≠ Success ↔
        (none : Option drmVBlankReply) = none) := by
  simp [get_msc_ret]

/-- C4 as amended: `common_drm_get_msc` returns `Success` whether or not the vblank
query failed, and so does `common_drm_get_drawable_msc`; a failed query shows only in
the cached values being handed back. -/
theorem get_msc_always_success (drmc : common_crtc_info) (s : msc_state)
    (crtc : Option Nat) (pDraw : Bool) (vbl vbl_old vbl_new : Option drmVBlankReply) :
    (common_drm_get_msc drmc vbl).2.ret = Success ∧
    (common_drm_get_drawable_msc s crtc pDraw vbl_old vbl_new).2.ret = Success := by
  refine ⟨rfl, ?_⟩
  cases pDraw with
  | false => cases crtc <;> rfl
  | true =>
    simp only [common_drm_get_drawable_msc]
    have h1 : (drawable_msc_refresh s vbl_old).2 = Success := by
      cases hc : s.drawc.crtc with
      | none => rw [drawable_msc_refresh_none s vbl_old hc]
      | some a => rw [drawable_msc_refresh_some s vbl_old a hc]
    rw [h1]
    by_cases hb : (drawable_msc_refresh s vbl_old).1.drawc.crtc = crtc
    · rw [drawable_msc_rebind_same _ _ _ vbl_new hb]
    · cases crtc with
      | none => rw [drawable_msc_rebind_none _ _ vbl_new hb]
      | some b => rw [drawable_msc_rebind_some _ _ b vbl_new hb]

/-! ## Drawable binding: results -/

/-- C5: a `common_drm_get_drawable_msc` call requesting a CRTC `b` other than the one the
drawable is bound to ends with the drawable bound to `b` and `delta_msc` equal to
`refreshed - new_msc` in 64-bit arithmetic, where `refreshed` is `last_msc` as refreshed
from the old CRTC at the start of the call (the cached `last_msc` if none was bound) and
`new_msc` is the MSC read from `b` during the call; the difference is exact whenever it
fits an `int64_t`, e.g. `100` and `40` give `60`. -/
theorem get_drawable_msc_rebind (s : msc_state) (b : Nat)
    (vbl_old vbl_new : Option drmVBlankReply) (refreshed new_msc : Nat)
    (hne : s.drawc.crtc ≠ some b)
    (href : refreshed = match s.drawc.crtc with
      | none => s.drawc.last_msc
      | some a => toUInt64
          (((common_drm_get_msc (s.crtcs a) vbl_old).2.msc : Int) + s.drawc.delta_msc))
    (hnew : new_msc = (common_drm_get_msc (s.crtcs b) vbl_new).2.msc) :
    (common_drm_get_drawable_msc s (some b) true vbl_old vbl_new).1.drawc.crtc = some b ∧
    (common_drm_get_drawable_msc s (some b) true vbl_old vbl_new).1.drawc.delta_msc =
      toInt64 (toUInt64 ((refreshed : Int) - (new_msc : Int))) ∧
    (-(2 ^ 63) ≤ (refreshed : Int) - (new_msc : Int) → (refreshed : Int) - (new_msc : Int) < 2 ^ 63 →
      (common_drm_get_drawable_msc s (some b) true vbl_old vbl_new).1.drawc.delta_msc =
        (refreshed : Int) - (new_msc : Int)) ∧
    (refreshed = 100 → new_msc = 40 →
      (common_drm_get_drawable_msc s (some b) true vbl_old vbl_new).1.drawc.delta_msc = 60) := by
  have key : (common_drm_get_drawable_msc s (some b) true vbl_old vbl_new).1.drawc.crtc = some b ∧
      (common_drm_get_drawable_msc s (some b) true vbl_old vbl_new).1.drawc.delta_msc =
        toInt64 (toUInt64 ((refreshed : Int) - (new_msc : Int))) := by
    cases hc : s.drawc.crtc with
    | none =>
      rw [hc] at href
      simp only [common_drm_get_drawable_msc]
      rw [drawable_msc_refresh_none s vbl_old hc, drawable_msc_rebind_some s _ b vbl_new hne]
      simp [href, hnew]
    | some a =>
      rw [hc] at href
      have hab : b ≠ a := fun e => hne (by rw [hc, e])
      simp only [common_drm_get_drawable_msc]
      rw [drawable_msc_refresh_some s vbl_old a hc]
      rw [drawable_msc_rebind_some _ _ b vbl_new (by simpa [hc] using hab.symm)]
      simp [href, hnew, hab]
  refine ⟨key.1, key.2, ?_, ?_⟩
  · intro h1 h2
    rw [key.2, toInt64_exact _ h1 h2]
  · intro h1 h2
    rw [key.2, h1, h2]
    rw [toInt64_exact] <;> norm_num

/-- C5 on a drawable bound to CRTC 0 that reads MSC 100 there and is moved to CRTC 1,
which reads MSC 40: the drawable ends bound to CRTC 1 with `delta_msc = 60`. -/
theorem get_drawable_msc_rebind_witness :
    (common_drm_get_drawable_msc (msc_state.init ⟨some 0, 0, 0, 0⟩) (some 1) true
        (some ⟨100, 0, 0⟩) (some ⟨40, 0, 0⟩)).1.drawc.crtc = some 1 ∧
    (common_drm_get_drawable_msc (msc_state.init ⟨some 0, 0, 0, 0⟩) (some 1) true
        (some ⟨100, 0, 0⟩) (some ⟨40, 0, 0⟩)).1.drawc.delta_msc = 60 := by
  have h := get_drawable_msc_rebind (msc_state.init ⟨some 0, 0, 0, 0⟩) 1
    (some ⟨100, 0, 0⟩) (some ⟨40, 0, 0⟩) 100 40 (by decide) (by decide) (by decide)
  exact ⟨h.1, h.2.2.2 rfl rfl⟩

/-- C6: the `common_drm_get_drawable_msc` call that moves a drawable from CRTC `a` to
CRTC `b` returns the MSC just read from `a` plus the old `delta_msc` (the pre-rebind
`last_msc`), and the next query against `b`, made when the MSC read from `b` is `k`
beyond the one read during the rebind, returns that value plus `k` (modulo `2^64`). -/
theorem get_drawable_msc_continuity (s : msc_state) (a b : Nat)
    (v1 v2 v3 v4 : Option drmVBlankReply) (k : Nat)
    (ha : s.drawc.crtc = some a) (hab : a ≠ b)
    (hk : (common_drm_get_msc
        ((common_drm_get_drawable_msc s (some b) true v1 v2).1.crtcs b) v3).2.msc =
      ((common_drm_get_msc (s.crtcs b) v2).2.msc + k) % 2 ^ 64) :
    (common_drm_get_drawable_msc s (some b) true v1 v2).2.msc =
      toUInt64 (((common_drm_get_msc (s.crtcs a) v1).2.msc : Int) + s.drawc.delta_msc) ∧
    (common_drm_get_drawable_msc
        (common_drm_get_drawable_msc s (some b) true v1 v2).1 (some b) true v3 v4).2.msc =
      ((common_drm_get_drawable_msc s (some b) true v1 v2).2.msc + k) % 2 ^ 64 := by
  have hba : b ≠ a := fun e => hab e.symm
  have hne : s.drawc.crtc ≠ some b := by rw [ha]; simpa using hab
  have h1 : common_drm_get_drawable_msc s (some b) true v1 v2 =
      ((drawable_msc_rebind (drawable_msc_refresh s v1).1 Success (some b) v2).1,
        { ret := Success
          ust := (common_drm_get_msc (s.crtcs a) v1).2.ust
          msc := toUInt64
            (((common_drm_get_msc (s.crtcs a) v1).2.msc : Int) + s.drawc.delta_msc) }) := by
    simp only [common_drm_get_drawable_msc]
    rw [drawable_msc_refresh_some s v1 a ha]
    rw [drawable_msc_rebind_some _ _ b v2 (by simpa [ha] using hab)]
  rw [h1] at hk ⊢
  refine ⟨rfl, ?_⟩
  rw [drawable_msc_refresh_some s v1 a ha] at hk ⊢
  rw [drawable_msc_rebind_some _ _ b v2 (by simpa [ha] using hab)] at hk ⊢
  simp only [common_drm_get_drawable_msc]
  rw [drawable_msc_refresh_some _ v3 b rfl, drawable_msc_rebind_same _ _ _ v4 rfl]
  simp only [hba, if_false, if_true] at hk ⊢
  rw [hk, toUInt64_add_toInt64]
  have hl := toUInt64_lt (((common_drm_get_msc (s.crtcs a) v1).2.msc : Int) + s.drawc.delta_msc)
  have hc := toUInt64_cast (((common_drm_get_msc (s.crtcs a) v1).2.msc : Int) + s.drawc.delta_msc)
  generalize toUInt64 (((common_drm_get_msc (s.crtcs a) v1).2.msc : Int) + s.drawc.delta_msc) = L at *
  generalize (common_drm_get_msc (s.crtcs b) v2).2.msc = m at *
  have hc2 := toUInt64_cast ((L : Int) - (m : Int))
  unfold toUInt64 at *
  omega

/-- C6 on a drawable bound to CRTC 0 at MSC 100, moved to CRTC 1 at MSC 40 and queried
again when CRTC 1 is at MSC 45: the two calls return 100 and 105. -/
theorem get_drawable_msc_continuity_witness :
    (common_drm_get_drawable_msc (msc_state.init ⟨some 0, 0, 0, 0⟩) (some 1) true
        (some ⟨100, 0, 0⟩) (some ⟨40, 0, 0⟩)).2.msc = 100 ∧
    (common_drm_get_drawable_msc
        (common_drm_get_drawable_msc (msc_state.init ⟨some 0, 0, 0, 0⟩) (some 1) true
          (some ⟨100, 0, 0⟩) (some ⟨40, 0, 0⟩)).1
        (some 1) true (some ⟨45, 0, 0⟩) none).2.msc = 105 := by
  have h := get_drawable_msc_continuity (msc_state.init ⟨some 0, 0, 0, 0⟩) 0 1
    (some ⟨100, 0, 0⟩) (some ⟨40, 0, 0⟩) (some ⟨45, 0, 0⟩) none 5 rfl (by decide) (by decide)
  constructor
  · rw [h.1]; decide
  · rw [h.2, h.1]; decide

theorem get_drawable_msc_ret_msc (s : msc_state) (crtc : Option Nat)
    (v1 v2 : Option drmVBlankReply) :
    (common_drm_get_drawable_msc s crtc true v1 v2).2.msc =
      (common_drm_get_drawable_msc s crtc true v1 v2).1.drawc.last_msc := rfl

theorem toUInt64_sub_add (L m : Nat) (hL : L < 2 ^ 64) :
    toUInt64 ((m : Int) + toInt64 (toUInt64 ((L : Int) - (m : Int)))) = L := by
  rw [toUInt64_add_toInt64]
  have hc := toUInt64_cast ((L : Int) - (m : Int))
  unfold toUInt64 at *
  omega

theorem get_drawable_msc_consistent (s : msc_state) (crtc : Option Nat)
    (v1 v2 : Option drmVBlankReply) (hl : s.drawc.last_msc < 2 ^ 64) :
    binding_consistent (common_drm_get_drawable_msc s crtc true v1 v2).1 := by
  simp only [common_drm_get_drawable_msc]
  cases hc : s.drawc.crtc with
  | none =>
    rw [drawable_msc_refresh_none s v1 hc]
    cases crtc with
    | none =>
      rw [drawable_msc_rebind_same _ _ _ v2 hc]
      exact ⟨hl, fun a ha => by rw [hc] at ha; cases ha⟩
    | some b =>
      rw [drawable_msc_rebind_some _ _ b v2 (by simp [hc])]
      refine ⟨hl, ?_⟩
      intro a ha
      simp only [Option.some.injEq] at ha
      subst ha
      simp only [if_true, get_msc_msc]
      rw [toUInt64_sub_add _ _ hl]
  | some a =>
    rw [drawable_msc_refresh_some s v1 a hc]
    by_cases hreq : crtc = some a
    · subst hreq
      rw [drawable_msc_rebind_same _ _ _ v2 rfl]
      refine ⟨toUInt64_lt _, ?_⟩
      intro a2 ha2
      simp only [Option.some.injEq] at ha2
      subst ha2
      simp only [if_true, get_msc_msc]
    · cases crtc with
      | none =>
        rw [drawable_msc_rebind_none _ _ v2 (by simp)]
        exact ⟨toUInt64_lt _, fun a2 ha2 => by cases ha2⟩
      | some b =>
        have hba : b ≠ a := fun e => hreq (by rw [e])
        rw [drawable_msc_rebind_some _ _ b v2 (by simpa using hba.symm)]
        refine ⟨toUInt64_lt _, ?_⟩
        intro a2 ha2
        simp only [Option.some.injEq] at ha2
        subst ha2
        simp only [if_true, hba, if_false, get_msc_msc]
        rw [toUInt64_sub_add _ _ (toUInt64_lt _)]

theorem drawable_msc_rebind_last_msc (s : msc_state) (ret : Int) (crtc : Option Nat)
    (v : Option drmVBlankReply) :
    (drawable_msc_rebind s ret crtc v).1.drawc.last_msc = s.drawc.last_msc := by
  by_cases h : s.drawc.crtc = crtc
  · rw [drawable_msc_rebind_same s ret crtc v h]
  · cases crtc with
    | none => rw [drawable_msc_rebind_none s ret v h]
    | some b => rw [drawable_msc_rebind_some s ret b v h]

theorem get_drawable_msc_step_le (s : msc_state) (q : drawable_query)
    (hinv : binding_consistent s) (hq : query_advances s q) :
    s.drawc.last_msc ≤
      (common_drm_get_drawable_msc s q.crtc true q.vbl_old q.vbl_new).2.msc := by
  simp only [common_drm_get_drawable_msc, drawable_msc_rebind_last_msc]
  cases hc : s.drawc.crtc with
  | none => rw [drawable_msc_refresh_none s _ hc]
  | some a =>
    rw [drawable_msc_refresh_some s _ a hc]
    simp only
    have h1 := hinv.2 a hc
    unfold query_advances at hq
    rw [hc] at hq
    simp only at hq
    obtain ⟨hq1, hq2⟩ := hq
    generalize (common_drm_get_msc (s.crtcs a) q.vbl_old).2.msc = m at *
    generalize (s.crtcs a).swap_msc = m0 at *
    generalize s.drawc.last_msc = L at *
    generalize s.drawc.delta_msc = d at *
    unfold toUInt64 at *
    omega

theorem get_drawable_msc_seq_chain (s : msc_state) (qs : List drawable_query)
    (hinv : binding_consistent s) (hq : queries_advance s qs) :
    List.Chain (· ≤ ·) s.drawc.last_msc (get_drawable_msc_seq s qs).2 := by
  induction qs generalizing s with
  | nil => simp [get_drawable_msc_seq]
  | cons q rest ih =>
    simp only [get_drawable_msc_seq]
    refine List.Chain.cons (get_drawable_msc_step_le s q hinv hq.1) ?_
    rw [get_drawable_msc_ret_msc]
    exact ih _ (get_drawable_msc_consistent s q.crtc q.vbl_old q.vbl_new hinv.1) hq.2

/-- C7: over any run of `common_drm_get_drawable_msc` queries on one drawable, whatever
CRTC (or none) each query requests, the returned MSCs are non-decreasing, provided that
after the first query every read of the bound CRTC yields an MSC not below that CRTC's
previous one and the drawable's MSC advanced by that amount stays below `2^64`. -/
theorem get_drawable_msc_seq_monotone (s : msc_state) (q : drawable_query)
    (qs : List drawable_query) (hl : s.drawc.last_msc < 2 ^ 64)
    (hq : queries_advance
      (common_drm_get_drawable_msc s q.crtc true q.vbl_old q.vbl_new).1 qs) :
    List.Chain' (· ≤ ·) (get_drawable_msc_seq s (q :: qs)).2 := by
  have h := get_drawable_msc_seq_chain _ qs
    (get_drawable_msc_consistent s q.crtc q.vbl_old q.vbl_new hl) hq
  simp only [get_drawable_msc_seq]
  exact h

/-- C7 on a drawable that starts unbound, is bound to CRTC 0 (at MSC 10), queried there
(MSC 12), moved to CRTC 1 (CRTC 0 at 15, CRTC 1 at 3), unbound (CRTC 1 at 7) and bound
to CRTC 0 again (raw sequence 1, a wrap): the returned MSCs `[0, 2, 5, 9, 9]` never
decrease. -/
theorem get_drawable_msc_seq_monotone_witness :
    List.Chain' (· ≤ ·)
      (get_drawable_msc_seq (msc_state.init ⟨none, 0, 0, 0⟩)
        [⟨some 0, none, some ⟨10, 0, 0⟩⟩, ⟨some 0, some ⟨12, 0, 0⟩, none⟩,
         ⟨some 1, some ⟨15, 0, 0⟩, some ⟨3, 0, 0⟩⟩, ⟨none, some ⟨7, 0, 0⟩, none⟩,
         ⟨some 0, none, some ⟨1, 0, 0⟩⟩]).2 :=
  get_drawable_msc_seq_monotone (msc_state.init ⟨none, 0, 0, 0⟩)
    ⟨some 0, none, some ⟨10, 0, 0⟩⟩
    [⟨some 0, some ⟨12, 0, 0⟩, none⟩,
     ⟨some 1, some ⟨15, 0, 0⟩, some ⟨3, 0, 0⟩⟩, ⟨none, some ⟨7, 0, 0⟩, none⟩,
     ⟨some 0, none, some ⟨1, 0, 0⟩⟩]
    (by decide)
    (by decide)

/-- C8 refuted as stated: a drawable is bound to CRTC 0, then queried with no CRTC
requested while CRTC 0 is 100 frames further (timestamp 7 us), which unbinds it; the
next query, with no CRTC bound and none requested, returns `(7, 100)`, not `(0, 0)`. -/
theorem get_drawable_msc_unbound_not_zero :
    (common_drm_get_drawable_msc
      (common_drm_get_drawable_msc (msc_state.init ⟨none, 0, 0, 0⟩) (some 0) true
        none (some ⟨40, 0, 0⟩)).1 none true (some ⟨140, 0, 7⟩) none).1.drawc.crtc = none ∧
    (common_drm_get_drawable_msc
      (common_drm_get_drawable_msc
        (common_drm_get_drawable_msc (msc_state.init ⟨none, 0, 0, 0⟩) (some 0) true
          none (some ⟨40, 0, 0⟩)).1 none true (some ⟨140, 0, 7⟩) none).1
      none true none none).2 = { ret := Success, ust := 7, msc := 100 } ∧
    (common_drm_get_drawable_msc
      (common_drm_get_drawable_msc
        (common_drm_get_drawable_msc (msc_state.init ⟨none, 0, 0, 0⟩) (some 0) true
          none (some ⟨40, 0, 0⟩)).1 none true (some ⟨140, 0, 7⟩) none).1
      none true none none).2 ≠ { ret := Success, ust := 0, msc := 0 } := by
  decide

/-- C8 as amended: with no drawable and no CRTC requested the query returns `(0, 0)`
with `Success` and changes nothing; on a drawable with no bound CRTC, requesting none,
it returns `Success` with the drawable's cached `(last_ust, last_msc)`, which is
`(0, 0)` when those cached values are zero. -/
theorem get_drawable_msc_no_domain (s : msc_state) (v1 v2 : Option drmVBlankReply) :
    common_drm_get_drawable_msc s none false v1 v2 =
      (s, { ret := Success, ust := 0, msc := 0 }) ∧
    (s.drawc.crtc = none →
      (common_drm_get_drawable_msc s none true v1 v2).2 =
        { ret := Success, ust := s.drawc.last_ust, msc := s.drawc.last_msc }) ∧
    (s.drawc.crtc = none → s.drawc.last_ust = 0 → s.drawc.last_msc = 0 →
      (common_drm_get_drawable_msc s none true v1 v2).2 =
        { ret := Success, ust := 0, msc := 0 }) := by
  have h : s.drawc.crtc = none →
      (common_drm_get_drawable_msc s none true v1 v2).2 =
        { ret := Success, ust := s.drawc.last_ust, msc := s.drawc.last_msc } := by
    intro hc
    simp only [common_drm_get_drawable_msc]
    rw [drawable_msc_refresh_none s v1 hc, drawable_msc_rebind_same _ _ _ v2 hc]
  refine ⟨rfl, h, ?_⟩
  intro hc hu hm
  rw [h hc, hu, hm]

/-- C8 (amended) on a fresh drawable record: no CRTC bound, cached values zero. -/
theorem get_drawable_msc_no_domain_witness :
    (common_drm_get_drawable_msc (msc_state.init ⟨none, 0, 0, 0⟩) none true none none).2 =
      { ret := Success, ust := 0, msc := 0 } :=
  (get_drawable_msc_no_domain (msc_state.init ⟨none, 0, 0, 0⟩) none none).2.2 rfl rfl rfl

/-- C9: a query on a drawable with no bound CRTC, requesting none, returns the cached
`last_ust` and `last_msc` and leaves the drawable record and every CRTC record as they
were. -/
theorem get_drawable_msc_unbound_cached (s : msc_state) (v1 v2 : Option drmVBlankReply)
    (hc : s.drawc.crtc = none) :
    common_drm_get_drawable_msc s none true v1 v2 =
      (s, { ret := Success, ust := s.drawc.last_ust, msc := s.drawc.last_msc }) := by
  simp only [common_drm_get_drawable_msc]
  rw [drawable_msc_refresh_none s v1 hc, drawable_msc_rebind_same _ _ _ v2 hc]

/-- C9 on an unbound drawable whose cached values are `(7, 100)`. -/
theorem get_drawable_msc_unbound_cached_witness :
    (common_drm_get_drawable_msc (msc_state.init ⟨none, 7, 100, 0⟩) none true
        none (some ⟨5, 0, 0⟩)).2 = { ret := Success, ust := 7, msc := 100 } ∧
    (common_drm_get_drawable_msc (msc_state.init ⟨none, 7, 100, 0⟩) none true
        none (some ⟨5, 0, 0⟩)).1.drawc = ⟨none, 7, 100, 0⟩ := by
  rw [get_drawable_msc_unbound_cached (msc_state.init ⟨none, 7, 100, 0⟩) none
    (some ⟨5, 0, 0⟩) rfl]
  exact ⟨rfl, rfl⟩

/-! ## Page flip fan-out: results -/

theorem flip_loop_none_enabled (drm : common_drm_info) (log : List drm_call) (i : Nat)
    (crtcs : List flip_crtc) (hd : ∀ c ∈ crtcs, c.enabled = false) :
    common_drm_flip_loop drm log i crtcs = (drm, log) := by
  induction crtcs generalizing i with
  | nil => rfl
  | cons c rest ih =>
    have hc : c.enabled = false := hd c (by simp)
    simp only [common_drm_flip_loop, hc, Bool.not_false, if_true]
    exact ih (i + 1) (fun x hx => hd x (by simp [hx]))

/-- C10: with no flip outstanding (`flip_count = 0`) and no enabled CRTC,
`common_drm_flip` returns `FALSE`, leaves `fb_id` and `flip_count` (indeed the whole
record) as before and removes the framebuffer it registered exactly once, removing
nothing else; when the registration fails it returns `FALSE` with the record unchanged
and removes nothing. -/
theorem flip_no_enabled_crtc (drm : common_drm_info) (crtcs : List flip_crtc)
    (event ref_crtc : Option Nat) (new_fb_id : Nat)
    (h0 : drm.flip_count = 0) (hd : ∀ c ∈ crtcs, c.enabled = false) :
    ((common_drm_flip drm (some new_fb_id) crtcs event ref_crtc).2.1 = false ∧
      (common_drm_flip drm (some new_fb_id) crtcs event ref_crtc).1.fb_id = drm.fb_id ∧
      (common_drm_flip drm (some new_fb_id) crtcs event ref_crtc).1.flip_count = 0 ∧
      (common_drm_flip drm (some new_fb_id) crtcs event ref_crtc).1 = drm ∧
      (common_drm_flip drm (some new_fb_id) crtcs event ref_crtc).2.2 =
        [drm_call.AddFB (some new_fb_id), drm_call.RmFB new_fb_id] ∧
      (common_drm_flip drm (some new_fb_id) crtcs event ref_crtc).2.2.count
        (drm_call.RmFB new_fb_id) = 1) ∧
    ((common_drm_flip drm none crtcs event ref_crtc).2.1 = false ∧
      (common_drm_flip drm none crtcs event ref_crtc).1 = drm ∧
      ∀ fb, drm_call.RmFB fb ∉ (common_drm_flip drm none crtcs event ref_crtc).2.2) := by
  have h : common_drm_flip drm (some new_fb_id) crtcs event ref_crtc =
      (drm, false, [drm_call.AddFB (some new_fb_id), drm_call.RmFB new_fb_id]) := by
    simp only [common_drm_flip]
    rw [flip_loop_none_enabled _ _ _ crtcs hd]
    simp only [h0, ne_eq, not_true_eq_false, if_false, List.cons_append, List.nil_append]
    cases drm
    simp only at h0
    subst h0
    rfl
  refine ⟨?_, ?_⟩
  · rw [h]
    refine ⟨rfl, rfl, h0, rfl, rfl, ?_⟩
    simp [List.count_cons]
  · refine ⟨rfl, rfl, ?_⟩
    intro fb
    simp [common_drm_flip]

/-- C10 on a device showing framebuffer 3 with two disabled CRTCs: the flip to a new
framebuffer 9 is rejected, `fb_id` is 3 again and framebuffer 9 was removed. -/
theorem flip_no_enabled_crtc_witness :
    common_drm_flip ⟨3, none, none, 0, 0, 0, 0, 0⟩ (some 9)
        [⟨false, true, true⟩, ⟨false, true, true⟩] (some 1) (some 0) =
      (⟨3, none, none, 0, 0, 0, 0, 0⟩, false, [drm_call.AddFB (some 9), drm_call.RmFB 9]) := by
  have h := flip_no_enabled_crtc ⟨3, none, none, 0, 0, 0, 0, 0⟩
    [⟨false, true, true⟩, ⟨false, true, true⟩] (some 1) (some 0) 9 rfl (by decide)
  exact Prod.ext h.1.2.2.2.1 (Prod.ext h.1.1 h.1.2.2.2.2.1)
theorem flip_accepting_length_le (i : Nat) (crtcs : List flip_crtc) :
    (flip_accepting i crtcs).length ≤ crtcs.length := by
  induction crtcs generalizing i with
  | nil => simp [flip_accepting]
  | cons c rest ih =>
    simp only [flip_accepting]
    split
    · simpa using ih (i + 1)
    · exact Nat.le_succ_of_le (ih (i + 1))

theorem flip_accepting_none (i : Nat) (crtcs : List flip_crtc)
    (h : ∀ c ∈ crtcs, (c.enabled && c.calloc_ok && c.page_flip_ok) = false) :
    flip_accepting i crtcs = [] := by
  induction crtcs generalizing i with
  | nil => rfl
  | cons c rest ih =>
    simp only [flip_accepting, h c (by simp), Bool.false_eq_true, if_false]
    exact ih (i + 1) (fun x hx => h x (by simp [hx]))

theorem flip_loop_fields (drm : common_drm_info) (log : List drm_call) (i : Nat)
    (crtcs : List flip_crtc) :
    (common_drm_flip_loop drm log i crtcs).1 =
      { drm with flip_count := (common_drm_flip_loop drm log i crtcs).1.flip_count } := by
  induction crtcs generalizing drm log i with
  | nil => rfl
  | cons c rest ih =>
    rcases c with ⟨en, al, pf⟩
    cases en <;> cases al <;> cases pf <;>
      simp only [common_drm_flip_loop, Bool.not_false, Bool.not_true, if_true, if_false,
        Bool.false_eq_true] <;>
      rw [ih]

theorem flip_loop_count (drm : common_drm_info) (log : List drm_call) (i : Nat)
    (crtcs : List flip_crtc) (hn : drm.flip_count + crtcs.length < 2 ^ 32) :
    (common_drm_flip_loop drm log i crtcs).1.flip_count =
      drm.flip_count + (flip_accepting i crtcs).length := by
  induction crtcs generalizing drm log i with
  | nil => simp [common_drm_flip_loop, flip_accepting]
  | cons c rest ih =>
    simp only [List.length_cons] at hn
    rcases c with ⟨en, al, pf⟩
    cases en <;> cases al <;> cases pf <;>
      simp only [common_drm_flip_loop, flip_accepting, Bool.not_false, Bool.not_true,
        if_true, if_false, Bool.and_true, Bool.and_false, Bool.false_and, Bool.true_and,
        Bool.false_eq_true, List.length_cons] <;>
      rw [ih] <;> (try simp only) <;> omega

theorem flip_loop_count_none (drm : common_drm_info) (log : List drm_call) (i : Nat)
    (crtcs : List flip_crtc)
    (h : ∀ c ∈ crtcs, (c.enabled && c.calloc_ok && c.page_flip_ok) = false) :
    (common_drm_flip_loop drm log i crtcs).1.flip_count = drm.flip_count := by
  induction crtcs generalizing drm log i with
  | nil => rfl
  | cons c rest ih =>
    have hc := h c (by simp)
    have hr : ∀ x ∈ rest, (x.enabled && x.calloc_ok && x.page_flip_ok) = false :=
      fun x hx => h x (by simp [hx])
    rcases c with ⟨en, al, pf⟩
    cases en <;> cases al <;> cases pf <;>
      simp only [common_drm_flip_loop, Bool.not_false, Bool.not_true, if_true, if_false,
        Bool.false_eq_true] <;>
      first
        | exact ih _ _ _ hr
        | (simp at hc)

theorem flip_loop_log (drm : common_drm_info) (log : List drm_call) (i : Nat)
    (crtcs : List flip_crtc) :
    ∃ l, (common_drm_flip_loop drm log i crtcs).2 = log ++ l ∧
      ∀ x ∈ l, ∃ c ok, x = drm_call.PageFlip c drm.fb_id ok := by
  induction crtcs generalizing drm log i with
  | nil => exact ⟨[], by simp [common_drm_flip_loop]⟩
  | cons c rest ih =>
    rcases c with ⟨en, al, pf⟩
    cases en <;> cases al <;> cases pf <;>
      simp only [common_drm_flip_loop, Bool.not_false, Bool.not_true, if_true, if_false,
        Bool.false_eq_true]
    all_goals first
      | exact ih _ _ _
      | (obtain ⟨l, hl, hx⟩ := ih drm (log ++ [drm_call.PageFlip i drm.fb_id false]) (i + 1)
         refine ⟨drm_call.PageFlip i drm.fb_id false :: l, by simpa using hl, ?_⟩
         intro x hx2
         rcases List.mem_cons.mp hx2 with h | h
         · exact ⟨i, false, h⟩
         · exact hx x h)
      | (obtain ⟨l, hl, hx⟩ := ih { drm with flip_count := (drm.flip_count + 1) % 2 ^ 32 }
           (log ++ [drm_call.PageFlip i drm.fb_id true]) (i + 1)
         refine ⟨drm_call.PageFlip i drm.fb_id true :: l, by simpa using hl, ?_⟩
         intro x hx2
         rcases List.mem_cons.mp hx2 with h | h
         · exact ⟨i, true, h⟩
         · exact hx x h)

theorem flip_accepting_length (i : Nat) (crtcs : List flip_crtc) :
    (flip_accepting i crtcs).length =
      crtcs.countP (fun c => c.enabled && c.calloc_ok && c.page_flip_ok) := by
  induction crtcs generalizing i with
  | nil => rfl
  | cons c rest ih =>
    simp only [flip_accepting, List.countP_cons]
    split
    · rename_i h
      simp [h, ih (i + 1)]
    · rename_i h
      simp [h, ih (i + 1)]

theorem flip_accepting_ge (i : Nat) (crtcs : List flip_crtc) :
    ∀ x ∈ flip_accepting i crtcs, i ≤ x := by
  induction crtcs generalizing i with
  | nil => simp [flip_accepting]
  | cons c rest ih =>
    intro x hx
    simp only [flip_accepting] at hx
    split at hx
    · rcases List.mem_cons.mp hx with h | h
      · omega
      · have := ih (i + 1) x h; omega
    · have := ih (i + 1) x hx; omega

theorem flip_accepting_nodup (i : Nat) (crtcs : List flip_crtc) :
    (flip_accepting i crtcs).Nodup := by
  induction crtcs generalizing i with
  | nil => simp [flip_accepting]
  | cons c rest ih =>
    simp only [flip_accepting]
    split
    · refine List.nodup_cons.mpr ⟨?_, ih (i + 1)⟩
      intro h
      have := flip_accepting_ge (i + 1) rest i h
      omega
    · exact ih (i + 1)

theorem flip_handler_fields (drm : common_drm_info) (c msc sec usec : Nat) :
    (common_drm_flip_handler drm c msc sec usec).1.flip_count =
      (if drm.flip_count = 0 then 2 ^ 32 - 1 else drm.flip_count - 1) ∧
    (common_drm_flip_handler drm c msc sec usec).1.flip_event = drm.flip_event ∧
    (common_drm_flip_handler drm c msc sec usec).1.flip_ref_crtc = drm.flip_ref_crtc ∧
    (common_drm_flip_handler drm c msc sec usec).1.flip_old_fb_id = drm.flip_old_fb_id ∧
    (common_drm_flip_handler drm c msc sec usec).1.fb_id = drm.fb_id := by
  simp only [common_drm_flip_handler]
  split_ifs <;> simp_all

theorem flip_handler_cached (drm : common_drm_info) (c msc sec usec : Nat) :
    (drm.flip_ref_crtc = some c →
      (common_drm_flip_handler drm c msc sec usec).1.flip_msc = msc ∧
      (common_drm_flip_handler drm c msc sec usec).1.flip_tv_sec = sec ∧
      (common_drm_flip_handler drm c msc sec usec).1.flip_tv_usec = usec) ∧
    (drm.flip_ref_crtc ≠ some c →
      (common_drm_flip_handler drm c msc sec usec).1.flip_msc = drm.flip_msc ∧
      (common_drm_flip_handler drm c msc sec usec).1.flip_tv_sec = drm.flip_tv_sec ∧
      (common_drm_flip_handler drm c msc sec usec).1.flip_tv_usec = drm.flip_tv_usec) := by
  simp only [common_drm_flip_handler]
  split_ifs <;> simp_all

theorem flip_handler_effects (drm : common_drm_info) (c msc sec usec : Nat) :
    (common_drm_flip_handler drm c msc sec usec).2 =
      if (common_drm_flip_handler drm c msc sec usec).1.flip_count ≠ 0 then []
      else
        flip_effect.RmFB (common_drm_flip_handler drm c msc sec usec).1.flip_old_fb_id ::
          (match (common_drm_flip_handler drm c msc sec usec).1.flip_event with
            | some event =>
              [flip_effect.Complete event
                (common_drm_flip_handler drm c msc sec usec).1.flip_msc
                (common_drm_flip_handler drm c msc sec usec).1.flip_tv_sec
                (common_drm_flip_handler drm c msc sec usec).1.flip_tv_usec]
            | none => []) := by
  simp only [common_drm_flip_handler]
  split_ifs <;> simp_all
theorem flip_some_eq (drm : common_drm_info) (crtcs : List flip_crtc)
    (event ref_crtc : Option Nat) (new_fb_id : Nat) :
    common_drm_flip drm (some new_fb_id) crtcs event ref_crtc =
      if (common_drm_flip_loop { drm with fb_id := new_fb_id }
          [drm_call.AddFB (some new_fb_id)] 0 crtcs).1.flip_count ≠ 0 then
        ({ fb_id := new_fb_id
           flip_event := event
           flip_ref_crtc := ref_crtc
           flip_count := (common_drm_flip_loop { drm with fb_id := new_fb_id }
             [drm_call.AddFB (some new_fb_id)] 0 crtcs).1.flip_count
           flip_tv_sec := 0
           flip_tv_usec := 0
           flip_msc := 0
           flip_old_fb_id := drm.fb_id }, true,
          (common_drm_flip_loop { drm with fb_id := new_fb_id }
            [drm_call.AddFB (some new_fb_id)] 0 crtcs).2)
      else
        ({ drm with flip_count := 0 }, false,
          (common_drm_flip_loop { drm with fb_id := new_fb_id }
            [drm_call.AddFB (some new_fb_id)] 0 crtcs).2 ++ [drm_call.RmFB new_fb_id]) := by
  simp only [common_drm_flip]
  have hf := flip_loop_fields { drm with fb_id := new_fb_id }
    [drm_call.AddFB (some new_fb_id)] 0 crtcs
  generalize common_drm_flip_loop { drm with fb_id := new_fb_id }
    [drm_call.AddFB (some new_fb_id)] 0 crtcs = r at *
  rcases r with ⟨r1, r2⟩
  simp only at hf ⊢
  by_cases hc : r1.flip_count = 0
  · simp only [hc, ne_eq, not_true_eq_false, if_false]
    rw [hf]
  · simp only [hc, ne_eq, not_false_eq_true, if_true]
    rw [hf]

/-- C11 refuted as stated: with an earlier flip outstanding (`flip_count = 1`, retiring
framebuffer 2, event 5, reference CRTC 0) and the only CRTC rejecting the page-flip
request, `common_drm_flip` returns `TRUE`, keeps the new framebuffer 9 as `fb_id`, removes
nothing and overwrites `flip_event`, `flip_ref_crtc` and `flip_old_fb_id`. -/
theorem flip_outstanding_not_undone :
    common_drm_flip ⟨3, some 5, some 0, 1, 0, 0, 0, 2⟩ (some 9) [⟨true, true, false⟩]
        (some 6) (some 1) =
      (⟨9, some 6, some 1, 1, 0, 0, 0, 3⟩, true,
        [drm_call.AddFB (some 9), drm_call.PageFlip 0 9 false]) := by
  decide

/-- C11 as amended: when no flip is outstanding at entry (`flip_count = 0`) and no CRTC
accepts the request (each one is disabled, or its event allocation or its page-flip
request fails), `common_drm_flip` returns `FALSE`, removes the framebuffer it just
registered (the last libdrm call, and the only removal), restores `fb_id` and leaves
`flip_old_fb_id`, `flip_event`, `flip_ref_crtc` and the rest of the record untouched. -/
theorem flip_no_acceptor (drm : common_drm_info) (crtcs : List flip_crtc)
    (event ref_crtc : Option Nat) (new_fb_id : Nat)
    (h0 : drm.flip_count = 0)
    (hn : ∀ c ∈ crtcs, (c.enabled && c.calloc_ok && c.page_flip_ok) = false) :
    (common_drm_flip drm (some new_fb_id) crtcs event ref_crtc).2.1 = false ∧
    (common_drm_flip drm (some new_fb_id) crtcs event ref_crtc).1 = drm ∧
    (common_drm_flip drm (some new_fb_id) crtcs event ref_crtc).1.fb_id = drm.fb_id ∧
    (common_drm_flip drm (some new_fb_id) crtcs event ref_crtc).1.flip_old_fb_id =
      drm.flip_old_fb_id ∧
    (common_drm_flip drm (some new_fb_id) crtcs event ref_crtc).1.flip_event =
      drm.flip_event ∧
    (common_drm_flip drm (some new_fb_id) crtcs event ref_crtc).1.flip_ref_crtc =
      drm.flip_ref_crtc ∧
    (common_drm_flip drm (some new_fb_id) crtcs event ref_crtc).2.2.getLast? =
      some (drm_call.RmFB new_fb_id) ∧
    (common_drm_flip drm (some new_fb_id) crtcs event ref_crtc).2.2.count
      (drm_call.RmFB new_fb_id) = 1 ∧
    ∀ fb, drm_call.RmFB fb ∈ (common_drm_flip drm (some new_fb_id) crtcs event ref_crtc).2.2 →
      fb = new_fb_id := by
  have hc := flip_loop_count_none { drm with fb_id := new_fb_id }
    [drm_call.AddFB (some new_fb_id)] 0 crtcs hn
  obtain ⟨l, hl, hx⟩ := flip_loop_log { drm with fb_id := new_fb_id }
    [drm_call.AddFB (some new_fb_id)] 0 crtcs
  have hnot : ∀ fb, drm_call.RmFB fb ∉ l := by
    intro fb hfb
    obtain ⟨c, ok, h⟩ := hx _ hfb
    cases h
  have hd : ({ drm with flip_count := 0 } : common_drm_info) = drm := by
    cases drm
    simp only at h0
    subst h0
    rfl
  have e : common_drm_flip drm (some new_fb_id) crtcs event ref_crtc =
      (drm, false, [drm_call.AddFB (some new_fb_id)] ++ l ++ [drm_call.RmFB new_fb_id]) := by
    rw [flip_some_eq, hc, hl]
    simp only [h0, ne_eq, not_true_eq_false, if_false, hd]
  rw [e]
  refine ⟨rfl, rfl, rfl, rfl, rfl, rfl, ?_, ?_, ?_⟩
  · rw [List.getLast?_concat]
  · rw [List.count_append, List.count_append]
    simp [List.count_eq_zero_of_not_mem (hnot new_fb_id)]
  · intro fb hfb
    simp only [List.mem_append, List.mem_singleton, drm_call.RmFB.injEq] at hfb
    rcases hfb with (h | h) | h
    · cases h
    · exact absurd h (hnot fb)
    · exact h

/-- C11 (amended) on a device showing framebuffer 3 with one disabled CRTC, one whose
event allocation fails and one whose page-flip request fails. -/
theorem flip_no_acceptor_witness :
    common_drm_flip ⟨3, some 5, some 0, 0, 1, 2, 7, 2⟩ (some 9)
        [⟨false, true, true⟩, ⟨true, false, true⟩, ⟨true, true, false⟩] (some 6) (some 1) =
      (⟨3, some 5, some 0, 0, 1, 2, 7, 2⟩, false,
        [drm_call.AddFB (some 9), drm_call.PageFlip 2 9 false, drm_call.RmFB 9]) := by
  have h := flip_no_acceptor ⟨3, some 5, some 0, 0, 1, 2, 7, 2⟩
    [⟨false, true, true⟩, ⟨true, false, true⟩, ⟨true, true, false⟩] (some 6) (some 1) 9
    rfl (by decide)
  exact Prod.ext h.2.1 (Prod.ext h.1 (by decide))

/-- C12: after a `common_drm_flip` call entered with `flip_count = 0` (and a successful
framebuffer registration), `flip_count` is the number of CRTCs that are enabled and whose
event allocation and page-flip request both succeeded, and the call returns `TRUE`
exactly when that number is at least 1; when the registration fails no request is made,
`flip_count` stays 0 and the call returns `FALSE`. -/
theorem flip_pending_count (drm : common_drm_info) (crtcs : List flip_crtc)
    (event ref_crtc : Option Nat) (new_fb_id : Nat)
    (h0 : drm.flip_count = 0) (hlen : crtcs.length < 2 ^ 32) :
    (common_drm_flip drm (some new_fb_id) crtcs event ref_crtc).1.flip_count =
      crtcs.countP (fun c => c.enabled && c.calloc_ok && c.page_flip_ok) ∧
    ((common_drm_flip drm (some new_fb_id) crtcs event ref_crtc).2.1 = true ↔
      1 ≤ crtcs.countP (fun c => c.enabled && c.calloc_ok && c.page_flip_ok)) ∧
    (common_drm_flip drm none crtcs event ref_crtc).1.flip_count = 0 ∧
    (common_drm_flip drm none crtcs event ref_crtc).2.1 = false := by
  have hc := flip_loop_count { drm with fb_id := new_fb_id }
    [drm_call.AddFB (some new_fb_id)] 0 crtcs (by simpa [h0] using hlen)
  have hc2 : (common_drm_flip_loop { drm with fb_id := new_fb_id }
      [drm_call.AddFB (some new_fb_id)] 0 crtcs).1.flip_count =
      crtcs.countP (fun c => c.enabled && c.calloc_ok && c.page_flip_ok) := by
    rw [hc, flip_accepting_length]
    show drm.flip_count + _ = _
    rw [h0, Nat.zero_add]
  rw [flip_some_eq, hc2]
  refine ⟨?_, ?_, h0, rfl⟩
  · split
    · rfl
    · rename_i h
      simp only [ne_eq, not_not] at h
      simp [h]
  · split
    · rename_i h
      simp only [true_iff]
      omega
    · rename_i h
      simp only [ne_eq, not_not] at h
      simp [h]

/-- C12 on three CRTCs of which one is disabled, one accepts and one rejects the
page-flip request: one flip is pending and the call is accepted. -/
theorem flip_pending_count_witness :
    (common_drm_flip ⟨3, none, none, 0, 0, 0, 0, 0⟩ (some 9)
        [⟨false, true, true⟩, ⟨true, true, true⟩, ⟨true, true, false⟩]
        (some 6) (some 1)).1.flip_count = 1 ∧
    (common_drm_flip ⟨3, none, none, 0, 0, 0, 0, 0⟩ (some 9)
        [⟨false, true, true⟩, ⟨true, true, true⟩, ⟨true, true, false⟩]
        (some 6) (some 1)).2.1 = true := by
  have h := flip_pending_count ⟨3, none, none, 0, 0, 0, 0, 0⟩
    [⟨false, true, true⟩, ⟨true, true, true⟩, ⟨true, true, false⟩] (some 6) (some 1) 9
    rfl (by norm_num)
  exact ⟨h.1.trans (by decide), h.2.1.mpr (by decide)⟩

/-- C13 refuted as stated: a flip with no reference CRTC designated is accepted by
CRTC 0, the first accepting CRTC, yet the recorded `flip_ref_crtc` is none. -/
theorem flip_ref_crtc_not_first_accepted :
    (common_drm_flip ⟨3, none, none, 0, 0, 0, 0, 0⟩ (some 9) [⟨true, true, true⟩]
        (some 6) none).2.1 = true ∧
    (flip_accepting 0 [⟨true, true, true⟩]).head? = some 0 ∧
    (common_drm_flip ⟨3, none, none, 0, 0, 0, 0, 0⟩ (some 9) [⟨true, true, true⟩]
        (some 6) none).1.flip_ref_crtc = none := by
  decide

/-- C13 as amended: an accepted `common_drm_flip` records `flip_old_fb_id` = the `fb_id`
current before the call and `flip_ref_crtc` = the `ref_crtc` argument exactly as passed,
so when the caller designates no CRTC the recorded reference CRTC is none. -/
theorem flip_accepted_records (drm : common_drm_info) (add_fb : Option Nat)
    (crtcs : List flip_crtc) (event ref_crtc : Option Nat)
    (hacc : (common_drm_flip drm add_fb crtcs event ref_crtc).2.1 = true) :
    (common_drm_flip drm add_fb crtcs event ref_crtc).1.flip_old_fb_id = drm.fb_id ∧
    (common_drm_flip drm add_fb crtcs event ref_crtc).1.flip_ref_crtc = ref_crtc ∧
    (ref_crtc = none →
      (common_drm_flip drm add_fb crtcs event ref_crtc).1.flip_ref_crtc = none) := by
  cases add_fb with
  | none => simp [common_drm_flip] at hacc
  | some new_fb_id =>
    rw [flip_some_eq] at hacc ⊢
    split at hacc
    · rename_i h
      rw [if_pos h]
      exact ⟨rfl, rfl, fun hr => hr⟩
    · simp at hacc

/-- C13 (amended) on a flip accepted by CRTC 0 with CRTC 1 designated, and on the same
flip with no CRTC designated. -/
theorem flip_accepted_records_witness :
    (common_drm_flip ⟨3, none, none, 0, 0, 0, 0, 0⟩ (some 9) [⟨true, true, true⟩]
        (some 6) (some 1)).1.flip_old_fb_id = 3 ∧
    (common_drm_flip ⟨3, none, none, 0, 0, 0, 0, 0⟩ (some 9) [⟨true, true, true⟩]
        (some 6) (some 1)).1.flip_ref_crtc = some 1 ∧
    (common_drm_flip ⟨3, none, none, 0, 0, 0, 0, 0⟩ (some 9) [⟨true, true, true⟩]
        (some 6) none).1.flip_ref_crtc = none :=
  ⟨(flip_accepted_records ⟨3, none, none, 0, 0, 0, 0, 0⟩ (some 9) [⟨true, true, true⟩]
      (some 6) (some 1) (by decide)).1,
    (flip_accepted_records ⟨3, none, none, 0, 0, 0, 0, 0⟩ (some 9) [⟨true, true, true⟩]
      (some 6) (some 1) (by decide)).2.1,
    (flip_accepted_records ⟨3, none, none, 0, 0, 0, 0, 0⟩ (some 9) [⟨true, true, true⟩]
      (some 6) none (by decide)).2.2 rfl⟩

/-! ## Page flip completion: results -/

theorem flip_events_append (s : flip_state) (l1 l2 : List flip_completion) :
    flip_events s (l1 ++ l2) =
      ((flip_events (flip_events s l1).1 l2).1,
        (flip_events s l1).2 ++ (flip_events (flip_events s l1).1 l2).2) := by
  induction l1 generalizing s with
  | nil => simp [flip_events]
  | cons e rest ih => simp [flip_events, ih, List.append_assoc]

theorem flip_event_crtcs_other (s : flip_state) (e : flip_completion) (c : Nat)
    (h : e.crtc ≠ c) : (common_drm_event s e).1.crtcs c = s.crtcs c := by
  have h2 : c ≠ e.crtc := fun x => h x.symm
  simp [common_drm_event, h2]

theorem flip_handler_count_pos (drm : common_drm_info) (c msc sec usec : Nat)
    (h : 1 ≤ drm.flip_count) :
    (common_drm_flip_handler drm c msc sec usec).1.flip_count = drm.flip_count - 1 := by
  rw [(flip_handler_fields drm c msc sec usec).1, if_neg (by omega)]

theorem flip_events_pending (s : flip_state) (evs : List flip_completion)
    (hk : evs.length < s.drm.flip_count) :
    (flip_events s evs).2 = [] ∧
    (flip_events s evs).1.drm.flip_count = s.drm.flip_count - evs.length := by
  induction evs generalizing s with
  | nil => simp [flip_events]
  | cons e rest ih =>
    simp only [List.length_cons] at hk
    have he := flip_handler_effects s.drm e.crtc
      (common_drm_frame_to_msc (s.crtcs e.crtc) e.frame).2 e.tv_sec e.tv_usec
    have hc : (common_drm_event s e).1.drm.flip_count = s.drm.flip_count - 1 :=
      flip_handler_count_pos s.drm e.crtc _ e.tv_sec e.tv_usec (by omega)
    have hc2 : (common_drm_flip_handler s.drm e.crtc
        (common_drm_frame_to_msc (s.crtcs e.crtc) e.frame).2 e.tv_sec e.tv_usec).1.flip_count
        = s.drm.flip_count - 1 := hc
    have hnil : (common_drm_event s e).2 = [] := by
      show (common_drm_flip_handler _ _ _ _ _).2 = _
      rw [he, if_pos]
      rw [hc2]; omega
    have h := ih (common_drm_event s e).1 (by rw [hc]; omega)
    simp only [flip_events, hnil, List.nil_append, List.length_cons]
    refine ⟨h.1, ?_⟩
    rw [h.2, hc]; omega

theorem flip_events_all (s : flip_state) (evs : List flip_completion)
    (hk : evs.length = s.drm.flip_count) (h1 : 1 ≤ s.drm.flip_count) :
    (flip_events s evs).1.drm.flip_count = 0 ∧
    (flip_events s evs).2 =
      flip_effect.RmFB s.drm.flip_old_fb_id ::
        (match s.drm.flip_event with
          | some event =>
            [flip_effect.Complete event (flip_events s evs).1.drm.flip_msc
              (flip_events s evs).1.drm.flip_tv_sec (flip_events s evs).1.drm.flip_tv_usec]
          | none => []) := by
  induction evs generalizing s with
  | nil => simp at hk; omega
  | cons e rest ih =>
    simp only [List.length_cons] at hk
    have hf := flip_handler_fields s.drm e.crtc
      (common_drm_frame_to_msc (s.crtcs e.crtc) e.frame).2 e.tv_sec e.tv_usec
    have he := flip_handler_effects s.drm e.crtc
      (common_drm_frame_to_msc (s.crtcs e.crtc) e.frame).2 e.tv_sec e.tv_usec
    have hc : (common_drm_event s e).1.drm.flip_count = s.drm.flip_count - 1 :=
      flip_handler_count_pos s.drm e.crtc _ e.tv_sec e.tv_usec h1
    have hc2 : (common_drm_flip_handler s.drm e.crtc
        (common_drm_frame_to_msc (s.crtcs e.crtc) e.frame).2 e.tv_sec e.tv_usec).1.flip_count
        = s.drm.flip_count - 1 := hc
    have hev : (common_drm_event s e).1.drm.flip_event = s.drm.flip_event := hf.2.1
    have hold : (common_drm_event s e).1.drm.flip_old_fb_id = s.drm.flip_old_fb_id :=
      hf.2.2.2.1
    cases rest with
    | nil =>
      have hone : s.drm.flip_count = 1 := by simpa using hk.symm
      have hz : (common_drm_event s e).1.drm.flip_count = 0 := by rw [hc, hone]
      have heff : (common_drm_event s e).2 = _ := he
      rw [if_neg (by rw [hc2, hone]; simp)] at heff
      simp only [flip_events, List.append_nil]
      refine ⟨hz, ?_⟩
      rw [heff, hf.2.2.2.1, hf.2.1]
      rfl
    | cons e2 rest2 =>
      simp only [List.length_cons] at hk
      have hnil : (common_drm_event s e).2 = [] := by
        show (common_drm_flip_handler _ _ _ _ _).2 = _
        rw [he, if_pos]
        rw [hc2]; omega
      have h := ih (common_drm_event s e).1 (by rw [hc]; simp; omega) (by rw [hc]; omega)
      rw [hev, hold] at h
      have hfe : flip_events s (e :: e2 :: rest2) =
          ((flip_events (common_drm_event s e).1 (e2 :: rest2)).1,
            (common_drm_event s e).2 ++ (flip_events (common_drm_event s e).1 (e2 :: rest2)).2) :=
        rfl
      rw [hfe, hnil]
      exact ⟨h.1, h.2⟩

theorem flip_events_ref (s : flip_state) (evs : List flip_completion) :
    (flip_events s evs).1.drm.flip_ref_crtc = s.drm.flip_ref_crtc := by
  induction evs generalizing s with
  | nil => rfl
  | cons e rest ih =>
    simp only [flip_events]
    rw [ih]
    exact (flip_handler_fields s.drm e.crtc _ e.tv_sec e.tv_usec).2.2.1

theorem flip_events_crtcs_other (s : flip_state) (evs : List flip_completion) (c : Nat)
    (h : ∀ e ∈ evs, e.crtc ≠ c) : (flip_events s evs).1.crtcs c = s.crtcs c := by
  induction evs generalizing s with
  | nil => rfl
  | cons e rest ih =>
    simp only [flip_events]
    rw [ih _ (fun x hx => h x (by simp [hx]))]
    exact flip_event_crtcs_other s e c (h e (by simp))

theorem flip_events_cached_other (s : flip_state) (evs : List flip_completion)
    (h : ∀ e ∈ evs, s.drm.flip_ref_crtc ≠ some e.crtc) :
    (flip_events s evs).1.drm.flip_msc = s.drm.flip_msc ∧
    (flip_events s evs).1.drm.flip_tv_sec = s.drm.flip_tv_sec ∧
    (flip_events s evs).1.drm.flip_tv_usec = s.drm.flip_tv_usec := by
  induction evs generalizing s with
  | nil => exact ⟨rfl, rfl, rfl⟩
  | cons e rest ih =>
    have hr : (common_drm_event s e).1.drm.flip_ref_crtc = s.drm.flip_ref_crtc :=
      (flip_handler_fields s.drm e.crtc _ e.tv_sec e.tv_usec).2.2.1
    have hc := (flip_handler_cached s.drm e.crtc
      (common_drm_frame_to_msc (s.crtcs e.crtc) e.frame).2 e.tv_sec e.tv_usec).2 (h e (by simp))
    have h2 := ih (common_drm_event s e).1
      (fun x hx => by rw [hr]; exact h x (by simp [hx]))
    simp only [flip_events]
    exact ⟨h2.1.trans hc.1, h2.2.1.trans hc.2.1, h2.2.2.trans hc.2.2⟩

theorem flip_events_cached_ref (s : flip_state) (evs : List flip_completion)
    (e : flip_completion) (he : e ∈ evs) (hr : s.drm.flip_ref_crtc = some e.crtc)
    (hnd : (evs.map flip_completion.crtc).Nodup) :
    (flip_events s evs).1.drm.flip_msc =
      (common_drm_frame_to_msc (s.crtcs e.crtc) e.frame).2 ∧
    (flip_events s evs).1.drm.flip_tv_sec = e.tv_sec ∧
    (flip_events s evs).1.drm.flip_tv_usec = e.tv_usec := by
  obtain ⟨l1, l2, rfl⟩ := List.append_of_mem he
  simp only [List.map_append, List.map_cons] at hnd
  have hn := List.nodup_append.mp hnd
  have hn2 := List.nodup_cons.mp hn.2.1
  have h1 : ∀ x ∈ l1, x.crtc ≠ e.crtc := by
    intro x hx heq
    exact hn.2.2 (List.mem_map_of_mem _ hx) (by rw [heq]; simp)
  have h2 : ∀ x ∈ l2, x.crtc ≠ e.crtc := by
    intro x hx heq
    exact hn2.1 (by rw [← heq]; exact List.mem_map_of_mem _ hx)
  rw [flip_events_append]
  simp only [flip_events]
  have hs1 : (flip_events s l1).1.crtcs e.crtc = s.crtcs e.crtc :=
    flip_events_crtcs_other s l1 e.crtc h1
  have hr1 : (flip_events s l1).1.drm.flip_ref_crtc = some e.crtc := by
    rw [flip_events_ref, hr]
  have hc : (common_drm_event (flip_events s l1).1 e).1.drm.flip_msc =
        (common_drm_frame_to_msc ((flip_events s l1).1.crtcs e.crtc) e.frame).2 ∧
      (common_drm_event (flip_events s l1).1 e).1.drm.flip_tv_sec = e.tv_sec ∧
      (common_drm_event (flip_events s l1).1 e).1.drm.flip_tv_usec = e.tv_usec :=
    (flip_handler_cached (flip_events s l1).1.drm e.crtc
      (common_drm_frame_to_msc ((flip_events s l1).1.crtcs e.crtc) e.frame).2
      e.tv_sec e.tv_usec).1 hr1
  have hre : (common_drm_event (flip_events s l1).1 e).1.drm.flip_ref_crtc = some e.crtc :=
    ((flip_handler_fields (flip_events s l1).1.drm e.crtc _ e.tv_sec e.tv_usec).2.2.1).trans
      hr1
  have h3 := flip_events_cached_other (common_drm_event (flip_events s l1).1 e).1 l2
    (fun x hx => by
      rw [hre]
      intro heq
      exact h2 x hx (Option.some.inj heq).symm)
  rw [hs1] at hc
  exact ⟨h3.1.trans hc.1, h3.2.1.trans hc.2.1, h3.2.2.trans hc.2.2⟩

theorem flip_accepted_state (drm : common_drm_info) (crtcs : List flip_crtc)
    (event ref_crtc : Option Nat) (new_fb_id : Nat) (evs : List flip_completion)
    (h0 : drm.flip_count = 0) (hlen : crtcs.length < 2 ^ 32)
    (hacc : (common_drm_flip drm (some new_fb_id) crtcs event ref_crtc).2.1 = true)
    (hperm : (evs.map flip_completion.crtc).Perm (flip_accepting 0 crtcs)) :
    (common_drm_flip drm (some new_fb_id) crtcs event ref_crtc).1.flip_count = evs.length ∧
    1 ≤ evs.length ∧ evs.length < 2 ^ 32 ∧
    (common_drm_flip drm (some new_fb_id) crtcs event ref_crtc).1.flip_event = event ∧
    (common_drm_flip drm (some new_fb_id) crtcs event ref_crtc).1.flip_ref_crtc = ref_crtc ∧
    (common_drm_flip drm (some new_fb_id) crtcs event ref_crtc).1.flip_old_fb_id =
      drm.fb_id ∧
    (common_drm_flip drm (some new_fb_id) crtcs event ref_crtc).1.flip_msc = 0 ∧
    (common_drm_flip drm (some new_fb_id) crtcs event ref_crtc).1.flip_tv_sec = 0 ∧
    (common_drm_flip drm (some new_fb_id) crtcs event ref_crtc).1.flip_tv_usec = 0 ∧
    (evs.map flip_completion.crtc).Nodup := by
  have hl : evs.length = (flip_accepting 0 crtcs).length := by
    have := hperm.length_eq
    simpa using this
  have hle := flip_accepting_length_le 0 crtcs
  have hc0 := flip_loop_count { drm with fb_id := new_fb_id }
    [drm_call.AddFB (some new_fb_id)] 0 crtcs (by simpa [h0] using hlen)
  have hc : (common_drm_flip_loop { drm with fb_id := new_fb_id }
      [drm_call.AddFB (some new_fb_id)] 0 crtcs).1.flip_count =
      (flip_accepting 0 crtcs).length := by
    rw [hc0]
    show drm.flip_count + _ = _
    rw [h0, Nat.zero_add]
  have hnd : (evs.map flip_completion.crtc).Nodup :=
    hperm.nodup_iff.mpr (flip_accepting_nodup 0 crtcs)
  rw [flip_some_eq] at hacc ⊢
  split at hacc
  · rename_i h
    rw [if_pos h]
    rw [hc] at h
    refine ⟨by simp only; rw [hc, hl], by omega, by omega, rfl, rfl, rfl, rfl, rfl, rfl, hnd⟩
  · simp at hacc

/-- C14 refuted as stated: with an earlier flip still outstanding on CRTC 1
(`flip_count = 1` at entry), a flip with a completion event is accepted by CRTC 0 alone
(`k = 1`); the completion of CRTC 0, its `k`-th and last, calls no handler and leaves
`flip_count` at 1, not 0. -/
theorem flip_outstanding_no_callback :
    (common_drm_flip ⟨3, some 5, some 1, 1, 0, 0, 0, 2⟩ (some 9)
      [⟨true, true, true⟩, ⟨true, true, false⟩] (some 6) (some 0)).2.1 = true ∧
    flip_accepting 0 [⟨true, true, true⟩, ⟨true, true, false⟩] = [0] ∧
    (flip_events ⟨fun _ => common_drm_crtc_init,
        (common_drm_flip ⟨3, some 5, some 1, 1, 0, 0, 0, 2⟩ (some 9)
          [⟨true, true, true⟩, ⟨true, true, false⟩] (some 6) (some 0)).1⟩
        [⟨0, 50, 1, 5⟩]).2.countP flip_effect.is_complete = 0 ∧
    (flip_events ⟨fun _ => common_drm_crtc_init,
        (common_drm_flip ⟨3, some 5, some 1, 1, 0, 0, 0, 2⟩ (some 9)
          [⟨true, true, true⟩, ⟨true, true, false⟩] (some 6) (some 0)).1⟩
        [⟨0, 50, 1, 5⟩]).1.drm.flip_count = 1 := by
  decide

/-- C14 as amended: for a flip accepted with no earlier flip outstanding
(`flip_count = 0` at entry) and with a completion event, and for every arrival order of
the completions of the accepting CRTCs, each completion lowers
`flip_count` by one (after `j` of them it is `k - j`), the completion handler is not
called during the first `k - 1` completions and is called exactly once over all `k`. -/
theorem flip_completion_once (crtcs0 : Nat → common_crtc_info) (drm : common_drm_info)
    (crtcs : List flip_crtc) (ref_crtc : Option Nat) (event new_fb_id : Nat)
    (evs : List flip_completion)
    (h0 : drm.flip_count = 0) (hlen : crtcs.length < 2 ^ 32)
    (hacc : (common_drm_flip drm (some new_fb_id) crtcs (some event) ref_crtc).2.1 = true)
    (hperm : (evs.map flip_completion.crtc).Perm (flip_accepting 0 crtcs)) :
    (∀ j, j ≤ evs.length →
      (flip_events ⟨crtcs0, (common_drm_flip drm (some new_fb_id) crtcs (some event)
        ref_crtc).1⟩ (evs.take j)).1.drm.flip_count = evs.length - j) ∧
    (∀ j, j < evs.length →
      (flip_events ⟨crtcs0, (common_drm_flip drm (some new_fb_id) crtcs (some event)
        ref_crtc).1⟩ (evs.take j)).2.countP flip_effect.is_complete = 0) ∧
    (flip_events ⟨crtcs0, (common_drm_flip drm (some new_fb_id) crtcs (some event)
      ref_crtc).1⟩ evs).2.countP flip_effect.is_complete = 1 := by
  obtain ⟨hc, h1, hb, hev, -, -, -, -, -, -⟩ :=
    flip_accepted_state drm crtcs (some event) ref_crtc new_fb_id evs h0 hlen hacc hperm
  generalize (common_drm_flip drm (some new_fb_id) crtcs (some event) ref_crtc).1 = D at *
  have hall := flip_events_all ⟨crtcs0, D⟩ evs hc.symm (by rw [hc]; exact h1)
  have hpend : ∀ j, j < evs.length →
      (flip_events ⟨crtcs0, D⟩ (evs.take j)).2 = [] ∧
      (flip_events ⟨crtcs0, D⟩ (evs.take j)).1.drm.flip_count = evs.length - j := by
    intro j hj
    have hlj : (evs.take j).length = j := by simp; omega
    have := flip_events_pending ⟨crtcs0, D⟩ (evs.take j) (by rw [hlj, hc]; exact hj)
    rw [hlj, hc] at this
    exact this
  refine ⟨?_, ?_, ?_⟩
  · intro j hj
    rcases Nat.lt_or_ge j evs.length with hlt | hge
    · exact (hpend j hlt).2
    · have : j = evs.length := by omega
      subst this
      rw [List.take_length, hall.1]; simp
  · intro j hj
    rw [(hpend j hj).1]; rfl
  · rw [hall.2]
    simp only [hev]
    rfl

/-- C14 (amended) on a flip accepted by CRTCs 0 and 2 whose completions arrive in the
order 2, 0: no handler call after the first completion, one after both. -/
theorem flip_completion_once_witness :
    (flip_events ⟨fun _ => common_drm_crtc_init,
        (common_drm_flip ⟨3, none, none, 0, 0, 0, 0, 0⟩ (some 9)
          [⟨true, true, true⟩, ⟨false, true, true⟩, ⟨true, true, true⟩] (some 6)
          (some 0)).1⟩ [⟨2, 50, 1, 5⟩]).2.countP flip_effect.is_complete = 0 ∧
    (flip_events ⟨fun _ => common_drm_crtc_init,
        (common_drm_flip ⟨3, none, none, 0, 0, 0, 0, 0⟩ (some 9)
          [⟨true, true, true⟩, ⟨false, true, true⟩, ⟨true, true, true⟩] (some 6)
          (some 0)).1⟩ [⟨2, 50, 1, 5⟩, ⟨0, 70, 1, 9⟩]).2.countP
      flip_effect.is_complete = 1 := by
  have h := flip_completion_once (fun _ => common_drm_crtc_init)
    ⟨3, none, none, 0, 0, 0, 0, 0⟩
    [⟨true, true, true⟩, ⟨false, true, true⟩, ⟨true, true, true⟩] (some 0) 6 9
    [⟨2, 50, 1, 5⟩, ⟨0, 70, 1, 9⟩] rfl (by norm_num) (by decide) (by decide)
  exact ⟨h.2.1 1 (by decide), h.2.2⟩

/-- C15 refuted as stated: with an earlier flip still outstanding on CRTC 1
(`flip_count = 1` at entry), a flip is accepted by CRTCs 0 and 2 (`k = 2`); over their
two completions nothing is removed, the retiring framebuffer included, and `flip_count`
ends at 1. -/
theorem flip_outstanding_not_retired :
    (common_drm_flip ⟨3, none, none, 1, 0, 0, 0, 2⟩ (some 9)
      [⟨true, true, true⟩, ⟨true, true, false⟩, ⟨true, true, true⟩] none none).2.1 = true ∧
    flip_accepting 0 [⟨true, true, true⟩, ⟨true, true, false⟩, ⟨true, true, true⟩] =
      [0, 2] ∧
    (flip_events ⟨fun _ => common_drm_crtc_init,
        (common_drm_flip ⟨3, none, none, 1, 0, 0, 0, 2⟩ (some 9)
          [⟨true, true, true⟩, ⟨true, true, false⟩, ⟨true, true, true⟩] none none).1⟩
        [⟨2, 50, 1, 5⟩, ⟨0, 70, 1, 9⟩]).2.countP flip_effect.is_rm_fb = 0 ∧
    (flip_events ⟨fun _ => common_drm_crtc_init,
        (common_drm_flip ⟨3, none, none, 1, 0, 0, 0, 2⟩ (some 9)
          [⟨true, true, true⟩, ⟨true, true, false⟩, ⟨true, true, true⟩] none none).1⟩
        [⟨2, 50, 1, 5⟩, ⟨0, 70, 1, 9⟩]).1.drm.flip_count = 1 := by
  decide

/-- C15 as amended: over the completions of a flip accepted with no earlier flip
outstanding (`flip_count = 0` at entry), in any arrival order, nothing is
removed while completions are still outstanding (`flip_count` non-zero); the last
completion brings `flip_count` to 0 and removes the retiring framebuffer (the `fb_id`
current before the flip) exactly once, as the first effect, ahead of the call of the
completion handler. -/
theorem flip_retire_once (crtcs0 : Nat → common_crtc_info) (drm : common_drm_info)
    (crtcs : List flip_crtc) (event ref_crtc : Option Nat) (new_fb_id : Nat)
    (evs : List flip_completion)
    (h0 : drm.flip_count = 0) (hlen : crtcs.length < 2 ^ 32)
    (hacc : (common_drm_flip drm (some new_fb_id) crtcs event ref_crtc).2.1 = true)
    (hperm : (evs.map flip_completion.crtc).Perm (flip_accepting 0 crtcs)) :
    (∀ j, j < evs.length →
      (flip_events ⟨crtcs0, (common_drm_flip drm (some new_fb_id) crtcs event
        ref_crtc).1⟩ (evs.take j)).2 = [] ∧
      (flip_events ⟨crtcs0, (common_drm_flip drm (some new_fb_id) crtcs event
        ref_crtc).1⟩ (evs.take j)).1.drm.flip_count ≠ 0) ∧
    (flip_events ⟨crtcs0, (common_drm_flip drm (some new_fb_id) crtcs event
      ref_crtc).1⟩ evs).1.drm.flip_count = 0 ∧
    (flip_events ⟨crtcs0, (common_drm_flip drm (some new_fb_id) crtcs event
      ref_crtc).1⟩ evs).2.countP flip_effect.is_rm_fb = 1 ∧
    ∃ rest,
      (flip_events ⟨crtcs0, (common_drm_flip drm (some new_fb_id) crtcs event
        ref_crtc).1⟩ evs).2 = flip_effect.RmFB drm.fb_id :: rest ∧
      ∀ x ∈ rest, x.is_complete = true := by
  obtain ⟨hc, h1, hb, hev, -, hold, -, -, -, -⟩ :=
    flip_accepted_state drm crtcs event ref_crtc new_fb_id evs h0 hlen hacc hperm
  generalize (common_drm_flip drm (some new_fb_id) crtcs event ref_crtc).1 = D at *
  have hall := flip_events_all ⟨crtcs0, D⟩ evs hc.symm (by rw [hc]; exact h1)
  simp only [hold, hev] at hall
  refine ⟨?_, hall.1, ?_, ?_⟩
  · intro j hj
    have hlj : (evs.take j).length = j := by simp; omega
    have := flip_events_pending ⟨crtcs0, D⟩ (evs.take j) (by rw [hlj, hc]; exact hj)
    rw [hlj, hc] at this
    exact ⟨this.1, by rw [this.2]; omega⟩
  · rw [hall.2]
    cases event <;> rfl
  · rw [hall.2]
    cases event with
    | none => exact ⟨[], rfl, by simp⟩
    | some ev => exact ⟨_, rfl, by simp [flip_effect.is_complete]⟩

/-- C15 (amended) on a flip from framebuffer 3 accepted by CRTCs 0 and 2, completions
arriving in the order 2, 0: nothing after the first, then framebuffer 3 removed and the
handler called. -/
theorem flip_retire_once_witness :
    (flip_events ⟨fun _ => common_drm_crtc_init,
        (common_drm_flip ⟨3, none, none, 0, 0, 0, 0, 0⟩ (some 9)
          [⟨true, true, true⟩, ⟨false, true, true⟩, ⟨true, true, true⟩] (some 6)
          (some 0)).1⟩ [⟨2, 50, 1, 5⟩]).2 = [] ∧
    (flip_events ⟨fun _ => common_drm_crtc_init,
        (common_drm_flip ⟨3, none, none, 0, 0, 0, 0, 0⟩ (some 9)
          [⟨true, true, true⟩, ⟨false, true, true⟩, ⟨true, true, true⟩] (some 6)
          (some 0)).1⟩ [⟨2, 50, 1, 5⟩, ⟨0, 70, 1, 9⟩]).2.countP
      flip_effect.is_rm_fb = 1 := by
  have h := flip_retire_once (fun _ => common_drm_crtc_init)
    ⟨3, none, none, 0, 0, 0, 0, 0⟩
    [⟨true, true, true⟩, ⟨false, true, true⟩, ⟨true, true, true⟩] (some 6) (some 0) 9
    [⟨2, 50, 1, 5⟩, ⟨0, 70, 1, 9⟩] rfl (by norm_num) (by decide) (by decide)
  exact ⟨(h.1 1 (by decide)).1, h.2.2.1⟩

/-- C16 refuted as stated: with an earlier flip still outstanding on CRTC 0
(`flip_count = 1` at entry), a flip with event 6 and reference CRTC 0 is accepted by
CRTC 1 alone, so the reference CRTC is not among its completing CRTCs; its own
completion calls no handler, and when the earlier flip's completion on CRTC 0 (frame 50
at 1 s 2 us) arrives first, the handler is called with `(50, 1, 2)`, not `(0, 0, 0)`. -/
theorem flip_outstanding_values :
    (common_drm_flip ⟨3, some 5, some 0, 1, 0, 0, 0, 2⟩ (some 9)
      [⟨true, true, false⟩, ⟨true, true, true⟩] (some 6) (some 0)).2.1 = true ∧
    flip_accepting 0 [⟨true, true, false⟩, ⟨true, true, true⟩] = [1] ∧
    (flip_events ⟨fun _ => common_drm_crtc_init,
        (common_drm_flip ⟨3, some 5, some 0, 1, 0, 0, 0, 2⟩ (some 9)
          [⟨true, true, false⟩, ⟨true, true, true⟩] (some 6) (some 0)).1⟩
        [⟨1, 60, 3, 4⟩]).2 = [] ∧
    (flip_events ⟨fun _ => common_drm_crtc_init,
        (common_drm_flip ⟨3, some 5, some 0, 1, 0, 0, 0, 2⟩ (some 9)
          [⟨true, true, false⟩, ⟨true, true, true⟩] (some 6) (some 0)).1⟩
        [⟨0, 50, 1, 2⟩, ⟨1, 60, 3, 4⟩]).2 =
      [flip_effect.RmFB 3, flip_effect.Complete 6 50 1 2] := by
  decide

/-- C16 as amended: for a flip accepted with no earlier flip outstanding
(`flip_count = 0` at entry), with a completion event, and any arrival order of the
completions, the handler is called with the MSC that `common_drm_frame_to_msc` computes
for the reference CRTC's own completion and with that completion's `tv_sec` and
`tv_usec`, when the reference CRTC is among the completing ones; it is called with
`(0, 0, 0)` when no reference CRTC was designated or the designated one does not
complete; and a completion of a CRTC other than the reference CRTC leaves the cached
`flip_msc`, `flip_tv_sec`, `flip_tv_usec` as they were. -/
theorem flip_completion_values (crtcs0 : Nat → common_crtc_info) (drm : common_drm_info)
    (crtcs : List flip_crtc) (ref_crtc : Option Nat) (event new_fb_id : Nat)
    (evs : List flip_completion)
    (h0 : drm.flip_count = 0) (hlen : crtcs.length < 2 ^ 32)
    (hacc : (common_drm_flip drm (some new_fb_id) crtcs (some event) ref_crtc).2.1 = true)
    (hperm : (evs.map flip_completion.crtc).Perm (flip_accepting 0 crtcs)) :
    (∀ e ∈ evs, ref_crtc = some e.crtc →
      (flip_events ⟨crtcs0, (common_drm_flip drm (some new_fb_id) crtcs (some event)
        ref_crtc).1⟩ evs).2 =
        [flip_effect.RmFB drm.fb_id,
          flip_effect.Complete event (common_drm_frame_to_msc (crtcs0 e.crtc) e.frame).2
            e.tv_sec e.tv_usec]) ∧
    ((∀ e ∈ evs, ref_crtc ≠ some e.crtc) →
      (flip_events ⟨crtcs0, (common_drm_flip drm (some new_fb_id) crtcs (some event)
        ref_crtc).1⟩ evs).2 = [flip_effect.RmFB drm.fb_id, flip_effect.Complete event 0 0 0]) ∧
    (∀ (s : flip_state) (e : flip_completion), s.drm.flip_ref_crtc ≠ some e.crtc →
      (common_drm_event s e).1.drm.flip_msc = s.drm.flip_msc ∧
      (common_drm_event s e).1.drm.flip_tv_sec = s.drm.flip_tv_sec ∧
      (common_drm_event s e).1.drm.flip_tv_usec = s.drm.flip_tv_usec) := by
  obtain ⟨hc, h1, hb, hev, href, hold, hm, hs, hu, hnd⟩ :=
    flip_accepted_state drm crtcs (some event) ref_crtc new_fb_id evs h0 hlen hacc hperm
  generalize (common_drm_flip drm (some new_fb_id) crtcs (some event) ref_crtc).1 = D at *
  have hall := flip_events_all ⟨crtcs0, D⟩ evs hc.symm (by rw [hc]; exact h1)
  simp only [hold, hev] at hall
  refine ⟨?_, ?_, ?_⟩
  · intro e he hr
    have hcr := flip_events_cached_ref ⟨crtcs0, D⟩ evs e he (by simp only [href, hr]) hnd
    rw [hall.2, hcr.1, hcr.2.1, hcr.2.2]
  · intro hno
    have hco := flip_events_cached_other ⟨crtcs0, D⟩ evs
      (fun e he => by simp only [href]; exact hno e he)
    rw [hall.2, hco.1, hco.2.1, hco.2.2]
    simp only [hm, hs, hu]
  · intro s e hne
    exact (flip_handler_cached s.drm e.crtc _ e.tv_sec e.tv_usec).2 hne

/-- C16 (amended) on a flip from framebuffer 3 accepted by CRTCs 0 and 2 with reference
CRTC 0, whose completion (frame 70 at 1 s 9 us) arrives last: the handler gets `(70, 1, 9)`. -/
theorem flip_completion_values_witness :
    (flip_events ⟨fun _ => common_drm_crtc_init,
        (common_drm_flip ⟨3, none, none, 0, 0, 0, 0, 0⟩ (some 9)
          [⟨true, true, true⟩, ⟨false, true, true⟩, ⟨true, true, true⟩] (some 6)
          (some 0)).1⟩ [⟨2, 50, 1, 5⟩, ⟨0, 70, 1, 9⟩]).2 =
      [flip_effect.RmFB 3, flip_effect.Complete 6 70 1 9] := by
  have h := flip_completion_values (fun _ => common_drm_crtc_init)
    ⟨3, none, none, 0, 0, 0, 0, 0⟩
    [⟨true, true, true⟩, ⟨false, true, true⟩, ⟨true, true, true⟩] (some 0) 6 9
    [⟨2, 50, 1, 5⟩, ⟨0, 70, 1, 9⟩] rfl (by norm_num) (by decide) (by decide)
  exact (h.1 ⟨0, 70, 1, 9⟩ (by decide) rfl).trans (by decide)

/-! ## Backlight interface discovery: results -/

theorem known_interfaces_length : known_interfaces.length = 13 := by
  decide

theorem backlight_type_of_text (t : backlight_type) (sys : String → backlight_sysfs)
    (i : String) (ho : t.spec_order) :
    (backlight_type_text (sys i).type = some "firmware" →
      __backlight_type t sys i = t.BL_FIRMWARE) ∧
    (backlight_type_text (sys i).type = some "platform" →
      __backlight_type t sys i = t.BL_PLATFORM) ∧
    (backlight_type_text (sys i).type = some "raw" →
      __backlight_type t sys i = t.BL_RAW) := by
  obtain ⟨h1, h2, h3⟩ := ho
  refine ⟨?_, ?_, ?_⟩ <;> intro h <;> simp only [__backlight_type, h]
  · have e1 : ¬ ("firmware" = "raw") := by decide
    have e2 : ¬ ("firmware" = "platform") := by decide
    simp only [e1, e2, if_false, if_true]
    rw [if_neg (by omega)]
  · have e1 : ¬ ("platform" = "raw") := by decide
    simp only [e1, if_false, if_true]
    rw [if_neg (by omega)]
  · simp only [if_true]
    rw [if_neg (by omega)]

theorem backlight_type_of_named (t : backlight_type) (sys : String → backlight_sysfs)
    (i : String) (hn : backlight_named sys i) :
    __backlight_type t sys i = t.BL_NAMED + (known_interfaces.indexOf i : Nat) := by
  simp only [__backlight_type]
  cases h : backlight_type_text (sys i).type with
  | none => simp
  | some buf =>
    obtain ⟨e1, e2, e3⟩ := hn buf h
    simp [e1, e2, e3]

/-- C17: with the enumerators in the spec's order, `__backlight_type` gives an interface
whose `type` file reads "firmware" a rank strictly below one reading "platform", that one
a rank strictly below one reading "raw", and that one a rank strictly below every named
(untyped) interface; a named interface gets `BL_NAMED` plus the index of its name in
`known_interfaces`, so an earlier name ranks strictly below a later one and a listed name
strictly below a name that is not in the list. -/
theorem backlight_type_rank (t : backlight_type) (sys : String → backlight_sysfs)
    (ho : t.spec_order) :
    (∀ f p r n, backlight_type_text (sys f).type = some "firmware" →
      backlight_type_text (sys p).type = some "platform" →
      backlight_type_text (sys r).type = some "raw" → backlight_named sys n →
      __backlight_type t sys f < __backlight_type t sys p ∧
      __backlight_type t sys p < __backlight_type t sys r ∧
      __backlight_type t sys r < __backlight_type t sys n) ∧
    (∀ n, backlight_named sys n →
      __backlight_type t sys n = t.BL_NAMED + (known_interfaces.indexOf n : Nat)) ∧
    (∀ a b, backlight_named sys a → backlight_named sys b →
      known_interfaces.indexOf a < known_interfaces.indexOf b →
      __backlight_type t sys a < __backlight_type t sys b) ∧
    (∀ a b, backlight_named sys a → backlight_named sys b →
      a ∈ known_interfaces → b ∉ known_interfaces →
      __backlight_type t sys a < __backlight_type t sys b) := by
  refine ⟨?_, ?_, ?_, ?_⟩
  · intro f p r n hf hp hr hn
    rw [(backlight_type_of_text t sys f ho).1 hf, (backlight_type_of_text t sys p ho).2.1 hp,
      (backlight_type_of_text t sys r ho).2.2 hr, backlight_type_of_named t sys n hn]
    obtain ⟨h1, h2, h3⟩ := ho
    omega
  · intro n hn
    exact backlight_type_of_named t sys n hn
  · intro a b ha hb hlt
    rw [backlight_type_of_named t sys a ha, backlight_type_of_named t sys b hb]
    omega
  · intro a b ha hb hin hout
    rw [backlight_type_of_named t sys a ha, backlight_type_of_named t sys b hb]
    have h1 : known_interfaces.indexOf a < known_interfaces.length :=
      List.indexOf_lt_length.mpr hin
    have h2 : known_interfaces.indexOf b = known_interfaces.length :=
      List.indexOf_eq_length.mpr hout
    omega

/-- C17 on the sysfs holding `acpi_video0` (firmware) and `intel_backlight` (raw), with
the untyped names `dell_backlight` (listed first) and `foo` (not listed): the ranks are
0, 2, 3 and 16. -/
theorem backlight_type_rank_witness :
    __backlight_type backlight_type.spec sysfs_acpi_intel "acpi_video0" = 0 ∧
    __backlight_type backlight_type.spec sysfs_acpi_intel "intel_backlight" = 2 ∧
    __backlight_type backlight_type.spec sysfs_acpi_intel "dell_backlight" = 3 ∧
    __backlight_type backlight_type.spec sysfs_acpi_intel "dell_backlight" <
      __backlight_type backlight_type.spec sysfs_acpi_intel "foo" := by
  have h := backlight_type_rank backlight_type.spec sysfs_acpi_intel (by decide)
  refine ⟨by decide, by decide, ?_, ?_⟩
  · rw [h.2.1 "dell_backlight" (by intro buf hb; simp [sysfs_acpi_intel, backlight_type_text] at hb)]
    decide
  · exact h.2.2.2 "dell_backlight" "foo"
      (by intro buf hb; simp [sysfs_acpi_intel, backlight_type_text] at hb)
      (by intro buf hb; simp [sysfs_acpi_intel, backlight_type_text] at hb)
      (by decide) (by decide)

theorem backlight_type_range (t : backlight_type) (sys : String → backlight_sysfs)
    (i : String) (hv : t.valid) :
    0 ≤ __backlight_type t sys i ∧ __backlight_type t sys i < 2 ^ 31 - 1 := by
  obtain ⟨-, -, f1, f2, p1, p2, r1, r2, n1, n2⟩ := hv
  have hidx : known_interfaces.indexOf i ≤ 13 := by
    have := @List.indexOf_le_length _ _ i known_interfaces
    rwa [known_interfaces_length] at this
  have hcase : ∀ v : Int,
      (v = t.BL_RAW ∨ v = t.BL_PLATFORM ∨ v = t.BL_FIRMWARE ∨ v = t.BL_NAMED) →
      0 ≤ (if v = t.BL_NAMED then v + (known_interfaces.indexOf i : Nat) else v) ∧
      (if v = t.BL_NAMED then v + (known_interfaces.indexOf i : Nat) else v) < 2 ^ 31 - 1 := by
    intro v hv
    split_ifs <;> omega
  simp only [__backlight_type]
  apply hcase
  cases backlight_type_text (sys i).type with
  | none => simp
  | some buf =>
    simp only
    split_ifs <;> simp

theorem backlight_exists_cases (t : backlight_type) (sys : String → backlight_sysfs)
    (i : String) (hv : t.valid) :
    (backlight_exists t sys i = t.BL_NONE ∧
      ¬ (0 ≤ (sys i).brightness ∧ 0 < (sys i).max_brightness) ∧
      2 ^ 31 - 1 ≤ toUInt32 (backlight_exists t sys i)) ∨
    (backlight_exists t sys i = __backlight_type t sys i ∧
      backlight_exists t sys i ≠ t.BL_NONE ∧
      (0 ≤ (sys i).brightness ∧ 0 < (sys i).max_brightness) ∧
      ((toUInt32 (backlight_exists t sys i) : Nat) : Int) = backlight_exists t sys i ∧
      toUInt32 (backlight_exists t sys i) < 2 ^ 31 - 1) := by
  have hr := backlight_type_range t sys i hv
  obtain ⟨a1, a2, -⟩ := hv
  simp only [backlight_exists]
  split_ifs with h1 h2
  · left
    refine ⟨rfl, by omega, ?_⟩
    unfold toUInt32; omega
  · left
    refine ⟨rfl, by omega, ?_⟩
    unfold toUInt32; omega
  · right
    refine ⟨rfl, by omega, by omega, ?_, ?_⟩
    · unfold toUInt32; omega
    · unfold toUInt32; omega

theorem backlight_find_loop_sel (t : backlight_type) (sys : String → backlight_sysfs)
    (b : Option String) (bt : Nat) (ents : List dirent) :
    backlight_find_loop t sys b bt ents = b ∨
    ∃ de ∈ ents, de.d_name.toList.head? ≠ some '.' ∧
      backlight_find_loop t sys b bt ents = some de.d_name ∧
      toUInt32 (backlight_exists t sys de.d_name) < bt := by
  induction ents generalizing b bt with
  | nil => exact Or.inl rfl
  | cons de rest ih =>
    simp only [backlight_find_loop]
    split_ifs with hd hlt hs
    · rcases ih b bt with h | ⟨x, hx, h1, h2, h3⟩
      · exact Or.inl h
      · exact Or.inr ⟨x, by simp [hx], h1, h2, h3⟩
    · rcases ih (some de.d_name) (toUInt32 (backlight_exists t sys de.d_name))
        with h | ⟨x, hx, h1, h2, h3⟩
      · exact Or.inr ⟨de, by simp, hd, h, hlt⟩
      · exact Or.inr ⟨x, by simp [hx], h1, h2, by omega⟩
    · rcases ih b bt with h | ⟨x, hx, h1, h2, h3⟩
      · exact Or.inl h
      · exact Or.inr ⟨x, by simp [hx], h1, h2, h3⟩
    · rcases ih b bt with h | ⟨x, hx, h1, h2, h3⟩
      · exact Or.inl h
      · exact Or.inr ⟨x, by simp [hx], h1, h2, h3⟩

theorem backlight_find_loop_min (t : backlight_type) (sys : String → backlight_sysfs)
    (b : Option String) (bt : Nat) (ents : List dirent) :
    (backlight_find_loop t sys b bt ents = b ∧
      ∀ de ∈ ents, de.d_name.toList.head? ≠ some '.' → de.strdup_ok = true →
        bt ≤ toUInt32 (backlight_exists t sys de.d_name)) ∨
    ∃ l1 de l2, ents = l1 ++ de :: l2 ∧ de.d_name.toList.head? ≠ some '.' ∧
      de.strdup_ok = true ∧
      backlight_find_loop t sys b bt ents = some de.d_name ∧
      toUInt32 (backlight_exists t sys de.d_name) < bt ∧
      (∀ m ∈ l1, m.d_name.toList.head? ≠ some '.' → m.strdup_ok = true →
        toUInt32 (backlight_exists t sys de.d_name) <
          toUInt32 (backlight_exists t sys m.d_name)) ∧
      (∀ m ∈ l2, m.d_name.toList.head? ≠ some '.' → m.strdup_ok = true →
        toUInt32 (backlight_exists t sys de.d_name) ≤
          toUInt32 (backlight_exists t sys m.d_name)) := by
  induction ents generalizing b bt with
  | nil => exact Or.inl ⟨rfl, by simp⟩
  | cons de rest ih =>
    simp only [backlight_find_loop]
    split_ifs with hd hlt hs
    · rcases ih b bt with ⟨h, hall⟩ | ⟨l1, x, l2, he, h1, hk, h2, h3, h4, h5⟩
      · refine Or.inl ⟨h, ?_⟩
        intro m hm hnd hok
        rcases List.mem_cons.mp hm with e | e
        · subst e; exact absurd hd hnd
        · exact hall m e hnd hok
      · refine Or.inr ⟨de :: l1, x, l2, by simp [he], h1, hk, h2, h3, ?_, h5⟩
        intro m hm hnd hok
        rcases List.mem_cons.mp hm with e | e
        · subst e; exact absurd hd hnd
        · exact h4 m e hnd hok
    · rcases ih (some de.d_name) (toUInt32 (backlight_exists t sys de.d_name))
        with ⟨h, hall⟩ | ⟨l1, x, l2, he, h1, hk, h2, h3, h4, h5⟩
      · exact Or.inr ⟨[], de, rest, rfl, hd, hs, h, hlt, by simp, hall⟩
      · refine Or.inr ⟨de :: l1, x, l2, by simp [he], h1, hk, h2, by omega, ?_, h5⟩
        intro m hm hnd hok
        rcases List.mem_cons.mp hm with e | e
        · subst e; exact h3
        · exact h4 m e hnd hok
    · rcases ih b bt with ⟨h, hall⟩ | ⟨l1, x, l2, he, h1, hk, h2, h3, h4, h5⟩
      · refine Or.inl ⟨h, ?_⟩
        intro m hm hnd hok
        rcases List.mem_cons.mp hm with e | e
        · subst e; exact absurd hok hs
        · exact hall m e hnd hok
      · refine Or.inr ⟨de :: l1, x, l2, by simp [he], h1, hk, h2, h3, ?_, h5⟩
        intro m hm hnd hok
        rcases List.mem_cons.mp hm with e | e
        · subst e; exact absurd hok hs
        · exact h4 m e hnd hok
    · rcases ih b bt with ⟨h, hall⟩ | ⟨l1, x, l2, he, h1, hk, h2, h3, h4, h5⟩
      · refine Or.inl ⟨h, ?_⟩
        intro m hm hnd hok
        rcases List.mem_cons.mp hm with e | e
        · subst e; omega
        · exact hall m e hnd hok
      · refine Or.inr ⟨de :: l1, x, l2, by simp [he], h1, hk, h2, h3, ?_, h5⟩
        intro m hm hnd hok
        rcases List.mem_cons.mp hm with e | e
        · subst e; omega
        · exact h4 m e hnd hok

theorem backlight_type_firmware_raw (t : backlight_type) (sys : String → backlight_sysfs)
    (i : String) :
    (backlight_type_text (sys i).type = some "firmware" → t.BL_FIRMWARE ≠ t.BL_NAMED →
      __backlight_type t sys i = t.BL_FIRMWARE) ∧
    (backlight_type_text (sys i).type = some "raw" → t.BL_RAW ≤ __backlight_type t sys i) := by
  refine ⟨?_, ?_⟩
  · intro h hn
    have e1 : ¬ ("firmware" = "raw") := by decide
    have e2 : ¬ ("firmware" = "platform") := by decide
    simp only [__backlight_type, h, e1, e2, if_false, if_true]
    rw [if_neg hn]
  · intro h
    simp only [__backlight_type, h, if_true]
    split_ifs
    · omega
    · exact le_refl _

/-- C18 refuted as stated: over the candidates `acpi_video0` (eligible, type
"firmware") and `intel_backlight` (eligible, type "raw"), when the copy of the name
`acpi_video0` fails, discovery selects the raw interface `intel_backlight`. -/
theorem backlight_find_raw_when_copy_fails :
    backlight_exists backlight_type.spec sysfs_acpi_intel "acpi_video0" ≠
      backlight_type.spec.BL_NONE ∧
    backlight_type_text (sysfs_acpi_intel "acpi_video0").type = some "firmware" ∧
    backlight_exists backlight_type.spec sysfs_acpi_intel "intel_backlight" ≠
      backlight_type.spec.BL_NONE ∧
    backlight_type_text (sysfs_acpi_intel "intel_backlight").type = some "raw" ∧
    __backlight_find backlight_type.spec sysfs_acpi_intel
      (some [⟨"acpi_video0", false⟩, ⟨"intel_backlight", true⟩]) =
      some "intel_backlight" := by
  decide

/-- C18 as amended: with "firmware" ranking better than "raw", discovery over any list
of entries (any enumeration order) that contains an eligible interface of type
"firmware" whose name can be copied selects an eligible entry ranked no worse than
firmware, hence never one of type "raw"; over `acpi_video0` (firmware) and
`intel_backlight` (raw), in either order and with the copies succeeding, it selects
`acpi_video0`. -/
theorem backlight_find_firmware_over_raw (t : backlight_type)
    (sys : String → backlight_sysfs) (ents : List dirent)
    (hv : t.valid) (ho : t.firmware_order)
    (f : dirent) (hf : f ∈ ents) (hdot : f.d_name.toList.head? ≠ some '.')
    (hfs : f.strdup_ok = true)
    (hfe : backlight_exists t sys f.d_name ≠ t.BL_NONE)
    (hft : backlight_type_text (sys f.d_name).type = some "firmware") :
    (∃ de ∈ ents, __backlight_find t sys (some ents) = some de.d_name ∧
      backlight_exists t sys de.d_name ≠ t.BL_NONE ∧
      __backlight_type t sys de.d_name ≤ t.BL_FIRMWARE ∧
      backlight_type_text (sys de.d_name).type ≠ some "raw") ∧
    __backlight_find t sysfs_acpi_intel
      (some [⟨"acpi_video0", true⟩, ⟨"intel_backlight", true⟩]) = some "acpi_video0" ∧
    __backlight_find t sysfs_acpi_intel
      (some [⟨"intel_backlight", true⟩, ⟨"acpi_video0", true⟩]) = some "acpi_video0" := by
  have key : ∀ (sys : String → backlight_sysfs) (ents : List dirent),
      ∀ f : dirent, f ∈ ents → f.d_name.toList.head? ≠ some '.' →
      f.strdup_ok = true →
      backlight_exists t sys f.d_name ≠ t.BL_NONE →
      backlight_type_text (sys f.d_name).type = some "firmware" →
      ∃ de ∈ ents, __backlight_find t sys (some ents) = some de.d_name ∧
        backlight_exists t sys de.d_name ≠ t.BL_NONE ∧
        __backlight_type t sys de.d_name ≤ t.BL_FIRMWARE ∧
        backlight_type_text (sys de.d_name).type ≠ some "raw" := by
    intro sys ents f hf hdot hfs hfe hft
    have hfc := backlight_exists_cases t sys f.d_name hv
    rcases hfc with ⟨h, -, -⟩ | ⟨hfeq, -, -, hfcast, hflt⟩
    · exact absurd h hfe
    have hftype := (backlight_type_firmware_raw t sys f.d_name).1 hft ho.2
    simp only [__backlight_find]
    rcases backlight_find_loop_min t sys none (2 ^ 31 - 1) ents with
      ⟨-, hall⟩ | ⟨l1, de, l2, he, hnd, -, hres, hlt, h1, h2⟩
    · have := hall f hf hdot hfs
      omega
    · have hmem : de ∈ ents := by rw [he]; simp
      have hle : toUInt32 (backlight_exists t sys de.d_name) ≤
          toUInt32 (backlight_exists t sys f.d_name) := by
        rw [he] at hf
        rcases List.mem_append.mp hf with h | h
        · exact Nat.le_of_lt (h1 f h hdot hfs)
        · rcases List.mem_cons.mp h with h | h
          · rw [h]
          · exact h2 f h hdot hfs
      rcases backlight_exists_cases t sys de.d_name hv with ⟨-, -, hbig⟩ | ⟨hdeq, hdne, -, hdcast, -⟩
      · omega
      · have hrank : __backlight_type t sys de.d_name ≤ t.BL_FIRMWARE := by
          rw [← hdeq, ← hftype, ← hfeq]
          omega
        refine ⟨de, hmem, hres, hdne, hrank, ?_⟩
        intro hraw
        have := (backlight_type_firmware_raw t sys de.d_name).2 hraw
        have := ho.1
        omega
  refine ⟨key sys ents f hf hdot hfs hfe hft, ?_, ?_⟩
  · obtain ⟨de, hmem, hres, -, -, hraw⟩ := key sysfs_acpi_intel
      [⟨"acpi_video0", true⟩, ⟨"intel_backlight", true⟩]
      ⟨"acpi_video0", true⟩ (by decide) (by decide) rfl
      (by
        rcases backlight_exists_cases t sysfs_acpi_intel "acpi_video0" hv with ⟨-, h, -⟩ | h
        · exact absurd (by decide) h
        · exact h.2.1)
      (by decide)
    rw [hres]
    simp only [List.mem_cons, List.mem_singleton, List.not_mem_nil, or_false] at hmem
    rcases hmem with h | h
    · rw [h]
    · rw [h] at hraw
      exact absurd (by decide) hraw
  · obtain ⟨de, hmem, hres, -, -, hraw⟩ := key sysfs_acpi_intel
      [⟨"intel_backlight", true⟩, ⟨"acpi_video0", true⟩]
      ⟨"acpi_video0", true⟩ (by decide) (by decide) rfl
      (by
        rcases backlight_exists_cases t sysfs_acpi_intel "acpi_video0" hv with ⟨-, h, -⟩ | h
        · exact absurd (by decide) h
        · exact h.2.1)
      (by decide)
    rw [hres]
    simp only [List.mem_cons, List.mem_singleton, List.not_mem_nil, or_false] at hmem
    rcases hmem with h | h
    · rw [h] at hraw
      exact absurd (by decide) hraw
    · rw [h]

/-- C18 (amended) on the sysfs holding `acpi_video0` (firmware) and `intel_backlight`
(raw), enumerated as `.`, `intel_backlight`, `acpi_video0` with the copy of
`intel_backlight` failing, and on the two-entry directory with `intel_backlight`
first. -/
theorem backlight_find_firmware_over_raw_witness :
    (∃ de ∈ [(⟨".", true⟩ : dirent), ⟨"intel_backlight", false⟩, ⟨"acpi_video0", true⟩],
      __backlight_find backlight_type.spec sysfs_acpi_intel
        (some [⟨".", true⟩, ⟨"intel_backlight", false⟩, ⟨"acpi_video0", true⟩]) =
        some de.d_name ∧
      backlight_type_text (sysfs_acpi_intel de.d_name).type ≠ some "raw") ∧
    __backlight_find backlight_type.spec sysfs_acpi_intel
      (some [⟨"intel_backlight", true⟩, ⟨"acpi_video0", true⟩]) = some "acpi_video0" := by
  have h := backlight_find_firmware_over_raw
    backlight_type.spec sysfs_acpi_intel
    [⟨".", true⟩, ⟨"intel_backlight", false⟩, ⟨"acpi_video0", true⟩]
    (by decide) (by decide) ⟨"acpi_video0", true⟩ (by decide) (by decide) rfl
    (by decide) (by decide)
  obtain ⟨⟨de, hmem, hres, -, -, hraw⟩, -, h3⟩ := h
  exact ⟨⟨de, hmem, hres, hraw⟩, h3⟩

/-- C19 refuted as stated: over the candidates `acpi_video0` and `acpi_video1`, both
eligible with the same rank, when the copy of the name `acpi_video0` fails,
`__backlight_find` returns `acpi_video1`, which is not the first candidate of minimal
rank. -/
theorem backlight_find_skips_failed_copy :
    backlight_exists backlight_type.spec sysfs_two_firmware "acpi_video0" ≠
      backlight_type.spec.BL_NONE ∧
    backlight_exists backlight_type.spec sysfs_two_firmware "acpi_video0" =
      backlight_exists backlight_type.spec sysfs_two_firmware "acpi_video1" ∧
    __backlight_find backlight_type.spec sysfs_two_firmware
      (some [⟨"acpi_video0", false⟩, ⟨"acpi_video1", true⟩]) = some "acpi_video1" := by
  decide

/-- C19 as amended: `__backlight_find` skips entries whose name starts with `.`; it
never selects a candidate for which `backlight_exists` is `BL_NONE`; it returns none
when no candidate is eligible (or the directory cannot be opened), and also when no
eligible candidate's name can be copied; otherwise it returns the first candidate in
enumeration order whose rank is minimal among the eligible candidates whose name can be
copied: each such candidate before it ranks strictly worse, each such candidate after it
ranks no better. -/
theorem backlight_find_first_minimal (t : backlight_type)
    (sys : String → backlight_sysfs) (ents : List dirent) (hv : t.valid) :
    __backlight_find t sys none = none ∧
    (∀ n, __backlight_find t sys (some ents) = some n →
      ∃ de ∈ ents, de.d_name = n ∧ de.d_name.toList.head? ≠ some '.' ∧
        backlight_exists t sys n ≠ t.BL_NONE) ∧
    ((∀ de ∈ ents, de.d_name.toList.head? ≠ some '.' →
        backlight_exists t sys de.d_name = t.BL_NONE) →
      __backlight_find t sys (some ents) = none) ∧
    ((∀ de ∈ ents, de.d_name.toList.head? ≠ some '.' →
        backlight_exists t sys de.d_name ≠ t.BL_NONE → de.strdup_ok = false) →
      __backlight_find t sys (some ents) = none) ∧
    ((∃ de ∈ ents, de.d_name.toList.head? ≠ some '.' ∧
        backlight_exists t sys de.d_name ≠ t.BL_NONE ∧ de.strdup_ok = true) →
      ∃ l1 de l2, ents = l1 ++ de :: l2 ∧ de.d_name.toList.head? ≠ some '.' ∧
        backlight_exists t sys de.d_name ≠ t.BL_NONE ∧ de.strdup_ok = true ∧
        __backlight_find t sys (some ents) = some de.d_name ∧
        (∀ m ∈ l1, m.d_name.toList.head? ≠ some '.' →
          backlight_exists t sys m.d_name ≠ t.BL_NONE → m.strdup_ok = true →
          backlight_exists t sys de.d_name < backlight_exists t sys m.d_name) ∧
        (∀ m ∈ l2, m.d_name.toList.head? ≠ some '.' →
          backlight_exists t sys m.d_name ≠ t.BL_NONE → m.strdup_ok = true →
          backlight_exists t sys de.d_name ≤ backlight_exists t sys m.d_name)) := by
  refine ⟨rfl, ?_, ?_, ?_, ?_⟩
  · intro n hn
    simp only [__backlight_find] at hn
    rcases backlight_find_loop_sel t sys none (2 ^ 31 - 1) ents with h | ⟨de, hmem, hnd, hres, hlt⟩
    · rw [h] at hn; cases hn
    · rw [hres] at hn
      have hname : de.d_name = n := Option.some.inj hn
      refine ⟨de, hmem, hname, hnd, ?_⟩
      rw [← hname]
      rcases backlight_exists_cases t sys de.d_name hv with ⟨-, -, hbig⟩ | ⟨-, hne, -⟩
      · omega
      · exact hne
  · intro hall
    simp only [__backlight_find]
    rcases backlight_find_loop_sel t sys none (2 ^ 31 - 1) ents with h | ⟨de, hmem, hnd, hres, hlt⟩
    · exact h
    · rcases backlight_exists_cases t sys de.d_name hv with ⟨-, -, hbig⟩ | ⟨-, hne, -⟩
      · omega
      · exact absurd (hall de hmem hnd) hne
  · intro hall
    simp only [__backlight_find]
    rcases backlight_find_loop_min t sys none (2 ^ 31 - 1) ents with
      ⟨h, -⟩ | ⟨l1, de, l2, he, hnd, hok, hres, hlt, -, -⟩
    · exact h
    · have hmem : de ∈ ents := by rw [he]; simp
      rcases backlight_exists_cases t sys de.d_name hv with ⟨-, -, hbig⟩ | ⟨-, hne, -⟩
      · omega
      · have := hall de hmem hnd hne
        rw [hok] at this
        cases this
  · intro ⟨e, hemem, hend, heel, heok⟩
    simp only [__backlight_find]
    rcases backlight_find_loop_min t sys none (2 ^ 31 - 1) ents with
      ⟨-, hall⟩ | ⟨l1, de, l2, he, hnd, hok, hres, hlt, h1, h2⟩
    · have := hall e hemem hend heok
      rcases backlight_exists_cases t sys e.d_name hv with ⟨h, -, -⟩ | ⟨-, -, -, -, hsmall⟩
      · exact absurd h heel
      · omega
    · rcases backlight_exists_cases t sys de.d_name hv with ⟨-, -, hbig⟩ | ⟨-, hdne, -, hdcast, -⟩
      · omega
      · refine ⟨l1, de, l2, he, hnd, hdne, hok, hres, ?_, ?_⟩
        · intro m hm hmnd hmel hmok
          have := h1 m hm hmnd hmok
          rcases backlight_exists_cases t sys m.d_name hv with ⟨h, -, -⟩ | ⟨-, -, -, hmcast, -⟩
          · exact absurd h hmel
          · omega
        · intro m hm hmnd hmel hmok
          have := h2 m hm hmnd hmok
          rcases backlight_exists_cases t sys m.d_name hv with ⟨h, -, -⟩ | ⟨-, -, -, hmcast, -⟩
          · exact absurd h hmel
          · omega

/-- C19 (amended) on the sysfs holding `acpi_video0` (firmware) and `intel_backlight`
(raw), enumerated as `.`, `intel_backlight`, `foo`, `acpi_video0`: the selected entry is
`acpi_video0`, and the directory holding only `foo` selects nothing. -/
theorem backlight_find_first_minimal_witness :
    __backlight_find backlight_type.spec sysfs_acpi_intel
      (some [⟨".", true⟩, ⟨"intel_backlight", true⟩, ⟨"foo", true⟩,
        ⟨"acpi_video0", true⟩]) = some "acpi_video0" ∧
    __backlight_find backlight_type.spec sysfs_acpi_intel (some [⟨"foo", true⟩]) = none := by
  have h := backlight_find_first_minimal backlight_type.spec sysfs_acpi_intel
    [⟨"foo", true⟩] (by decide)
  exact ⟨by decide, h.2.2.1 (by decide)⟩

/-- C20 refuted as stated: an interface reading brightness 0 of 10 does not report a
positive current brightness, yet `backlight_exists` gives it a rank other than
`BL_NONE` and `backlight_open` on it succeeds, returning level 0. -/
theorem backlight_zero_brightness_eligible :
    ¬ (0 < (sysfs_dark "panel").brightness) ∧
    backlight_exists backlight_type.spec sysfs_dark "panel" ≠ backlight_type.spec.BL_NONE ∧
    (backlight_open backlight_type.spec sysfs_dark none
      (backlight_init backlight_type.spec ⟨0, none, 0, 0, 0, 0⟩) (some "panel")).2 = 0 ∧
    (backlight_open backlight_type.spec sysfs_dark none
      (backlight_init backlight_type.spec ⟨0, none, 0, 0, 0, 0⟩) (some "panel")).1.iface =
      some "panel" := by
  decide

theorem backlight_bl_power_irrelevant (t : backlight_type)
    (sys1 sys2 : String → backlight_sysfs) (dir : Option (List dirent)) (b : backlight)
    (i : String) (h1 : (sys1 i).brightness = (sys2 i).brightness)
    (h2 : (sys1 i).max_brightness = (sys2 i).max_brightness)
    (h3 : (sys1 i).type = (sys2 i).type)
    (h4 : (sys1 i).brightness_fd = (sys2 i).brightness_fd) :
    backlight_exists t sys1 i = backlight_exists t sys2 i ∧
    (backlight_open t sys1 dir b (some i)).2 = (backlight_open t sys2 dir b (some i)).2 := by
  have ht : __backlight_type t sys1 i = __backlight_type t sys2 i := by
    simp only [__backlight_type, h3]
  refine ⟨?_, ?_⟩
  · simp only [backlight_exists, h1, h2, ht]
  · simp only [backlight_open, __backlight_direct_init, __backlight_helper_init, h1, h2, h4]
    split_ifs <;> rfl

/-- C20 as amended: a candidate is eligible (`backlight_exists` returns a rank other
than `BL_NONE`) if and only if it reports a non-negative current brightness and a
positive maximum brightness; `backlight_open` on it succeeds exactly when, in addition,
`brightness` can be opened for writing, and then returns the current brightness; what
`bl_power` reads changes neither result and is only recorded in `has_power`. -/
theorem backlight_eligible_iff (t : backlight_type) (sys : String → backlight_sysfs)
    (dir : Option (List dirent)) (b : backlight) (i : String) (hv : t.valid) :
    (backlight_exists t sys i ≠ t.BL_NONE ↔
      0 ≤ (sys i).brightness ∧ 0 < (sys i).max_brightness) ∧
    ((backlight_open t sys dir b (some i)).2 ≠ -1 ↔
      0 ≤ (sys i).brightness ∧ 0 < (sys i).max_brightness ∧ 0 ≤ (sys i).brightness_fd) ∧
    ((backlight_open t sys dir b (some i)).2 ≠ -1 →
      (backlight_open t sys dir b (some i)).2 = (sys i).brightness ∧
      (backlight_open t sys dir b (some i)).1.has_power =
        (if (sys i).bl_power ≠ -1 then 1 else b.has_power)) ∧
    (∀ p : Int,
      backlight_exists t (fun n => if n = i then { sys i with bl_power := p } else sys n) i =
        backlight_exists t sys i ∧
      (backlight_open t (fun n => if n = i then { sys i with bl_power := p } else sys n)
        dir b (some i)).2 = (backlight_open t sys dir b (some i)).2) := by
  refine ⟨?_, ?_, ?_, ?_⟩
  · rcases backlight_exists_cases t sys i hv with ⟨h, hn, -⟩ | ⟨-, hne, hp, -⟩
    · exact ⟨fun hx => absurd h hx, fun hx => absurd hx hn⟩
    · exact ⟨fun _ => hp, fun _ => hne⟩
  · simp only [backlight_open, __backlight_direct_init, __backlight_helper_init]
    split_ifs <;> simp_all <;> omega
  · simp only [backlight_open, __backlight_direct_init, __backlight_helper_init]
    split_ifs <;> simp_all
  · intro p
    exact backlight_bl_power_irrelevant t _ sys dir b i (by simp) (by simp) (by simp)
      (by simp)

/-- C20 (amended) on `acpi_video0` of the sysfs holding `acpi_video0` and
`intel_backlight`: it is eligible and `backlight_open` returns its brightness 5. -/
theorem backlight_eligible_iff_witness :
    backlight_exists backlight_type.spec sysfs_acpi_intel "acpi_video0" ≠
      backlight_type.spec.BL_NONE ∧
    (backlight_open backlight_type.spec sysfs_acpi_intel none
      (backlight_init backlight_type.spec ⟨0, none, 0, 0, 0, 0⟩) (some "acpi_video0")).2 = 5 := by
  have h := backlight_eligible_iff backlight_type.spec sysfs_acpi_intel none
    (backlight_init backlight_type.spec ⟨0, none, 0, 0, 0, 0⟩) "acpi_video0" (by decide)
  exact ⟨h.1.mpr (by decide), (h.2.2.1 (h.2.1.mpr (by decide))).1.trans (by decide)⟩

/-! ## Backlight level: results -/

/-- C21 refuted as stated: on an open device with `max = 10`, `backlight_set` with the
negative level `-1` writes 10, not 0 = min(max(-1, 0), 10). -/
theorem backlight_set_negative_writes_max :
    (backlight_set ⟨0, some "acpi_video0", 7, -1, 10, 0⟩ (-1) true).1 = some 10 ∧
    (backlight_set ⟨0, some "acpi_video0", 7, -1, 10, 0⟩ (-1) true).1 ≠
      some (min (max (-1) 0) 10) := by
  decide

/-- C21 as amended: for an open device with `0 <= max` and every `int` level,
`backlight_set` writes the level unchanged when it lies in `[0, max]` and writes `max`
otherwise, that is both for a level above `max` and for a negative level; the value
written always lies in `[0, max]`. -/
theorem backlight_set_written (b : backlight) (level : Int) (write_ok : Bool)
    (hi : b.iface ≠ none) (hm0 : 0 ≤ b.max) (hm1 : b.max < 2 ^ 31)
    (hl0 : -(2 ^ 31) ≤ level) (hl1 : level < 2 ^ 31) :
    (backlight_set b level write_ok).1 =
      some (if 0 ≤ level ∧ level ≤ b.max then level else b.max) ∧
    (b.max < level → (backlight_set b level write_ok).1 = some b.max) ∧
    (level < 0 → (backlight_set b level write_ok).1 = some b.max) ∧
    (0 ≤ level → level ≤ b.max → (backlight_set b level write_ok).1 = some level) ∧
    (∀ v, (backlight_set b level write_ok).1 = some v → 0 ≤ v ∧ v ≤ b.max) := by
  have key : (backlight_set b level write_ok).1 =
      some (if 0 ≤ level ∧ level ≤ b.max then level else b.max) := by
    simp only [backlight_set, hi, if_false]
    congr 1
    by_cases h : 0 ≤ level ∧ level ≤ b.max
    · rw [if_pos h, if_neg]
      unfold toUInt32; omega
    · rw [if_neg h, if_pos]
      unfold toUInt32; omega
  refine ⟨key, ?_, ?_, ?_, ?_⟩
  · intro h
    rw [key, if_neg (by omega)]
  · intro h
    rw [key, if_neg (by omega)]
  · intro h1 h2
    rw [key, if_pos ⟨h1, h2⟩]
  · intro v hv
    rw [key] at hv
    have := Option.some.inj hv
    split_ifs at this <;> omega

/-- C21 (amended) on an open device with `max = 10`: the levels 4, 25 and `-3` are
written as 4, 10 and 10. -/
theorem backlight_set_written_witness :
    (backlight_set ⟨0, some "acpi_video0", 7, -1, 10, 0⟩ 4 true).1 = some 4 ∧
    (backlight_set ⟨0, some "acpi_video0", 7, -1, 10, 0⟩ 25 true).1 = some 10 ∧
    (backlight_set ⟨0, some "acpi_video0", 7, -1, 10, 0⟩ (-3) false).1 = some 10 :=
  ⟨(backlight_set_written ⟨0, some "acpi_video0", 7, -1, 10, 0⟩ 4 true (by decide)
      (by decide) (by decide) (by decide) (by decide)).2.2.2.1 (by decide) (by decide),
    (backlight_set_written ⟨0, some "acpi_video0", 7, -1, 10, 0⟩ 25 true (by decide)
      (by decide) (by decide) (by decide) (by decide)).2.1 (by decide),
    (backlight_set_written ⟨0, some "acpi_video0", 7, -1, 10, 0⟩ (-3) false (by decide)
      (by decide) (by decide) (by decide) (by decide)).2.2.1 (by decide)⟩

/-- C22: `backlight_get` returns `-1` when the device has no interface; on an open device
with `0 <= max` it returns `-1` when the brightness read is negative, `max` when the
value read exceeds `max`, and the value read otherwise, so its result is `-1` or lies in
`[0, max]`; it leaves the device record as it was. -/
theorem backlight_get_result (b : backlight) (brightness : Int) :
    (b.iface = none → (backlight_get b brightness).2 = -1) ∧
    (b.iface ≠ none → 0 ≤ b.max →
      (brightness < 0 → (backlight_get b brightness).2 = -1) ∧
      (b.max < brightness → (backlight_get b brightness).2 = b.max) ∧
      (0 ≤ brightness → brightness ≤ b.max → (backlight_get b brightness).2 = brightness) ∧
      ((backlight_get b brightness).2 = -1 ∨
        (0 ≤ (backlight_get b brightness).2 ∧ (backlight_get b brightness).2 ≤ b.max))) ∧
    (backlight_get b brightness).1 = b := by
  refine ⟨?_, ?_, ?_⟩
  · intro h
    simp only [backlight_get, h, if_true]
  · intro hi hm
    simp only [backlight_get, hi, if_false]
    refine ⟨?_, ?_, ?_, ?_⟩
    · intro h
      rw [if_neg (by omega), if_pos h]
    · intro h
      rw [if_pos h]
    · intro h1 h2
      rw [if_neg (by omega), if_neg (by omega)]
    · split_ifs with h1 h2
      · right; dsimp only; omega
      · left; rfl
      · right; dsimp only; omega
  · simp only [backlight_get]
    split_ifs <;> rfl

/-- C22 on an open device with `max = 10`: reads of 4, 25 and `-1` give 4, 10 and `-1`,
and a device without interface gives `-1`. -/
theorem backlight_get_result_witness :
    (backlight_get ⟨0, some "acpi_video0", 7, -1, 10, 0⟩ 4).2 = 4 ∧
    (backlight_get ⟨0, some "acpi_video0", 7, -1, 10, 0⟩ 25).2 = 10 ∧
    (backlight_get ⟨0, some "acpi_video0", 7, -1, 10, 0⟩ (-1)).2 = -1 ∧
    (backlight_get ⟨-1, none, -1, -1, -1, 0⟩ 4).2 = -1 :=
  ⟨((backlight_get_result ⟨0, some "acpi_video0", 7, -1, 10, 0⟩ 4).2.1 (by decide)
      (by decide)).2.2.1 (by decide) (by decide),
    ((backlight_get_result ⟨0, some "acpi_video0", 7, -1, 10, 0⟩ 25).2.1 (by decide)
      (by decide)).2.1 (by decide),
    ((backlight_get_result ⟨0, some "acpi_video0", 7, -1, 10, 0⟩ (-1)).2.1 (by decide)
      (by decide)).1 (by decide),
    (backlight_get_result ⟨-1, none, -1, -1, -1, 0⟩ 4).1 rfl⟩

/-! ## DRM master reference count: results -/

theorem get_master_eq (c : Int) (ok : Bool) :
    common_drm_get_master ⟨c⟩ ok =
      (⟨c + 1⟩, (if c ≠ 0 then true else ok), (if c ≠ 0 then [] else [master_call.SetMaster])) := by
  simp only [common_drm_get_master]
  split_ifs <;> rfl

theorem put_master_eq (c : Int) (hc : c ≠ 0) :
    common_drm_put_master ⟨c⟩ =
      some (⟨c - 1⟩, if c = 1 then [master_call.DropMaster] else []) := by
  simp only [common_drm_put_master, hc, if_false]
  by_cases h : c = 1
  · rw [if_pos (by omega), if_pos h]
  · rw [if_neg (by omega), if_neg h]

theorem master_run_acquire (c : Int) (ok : Bool) (rest : List master_op) :
    master_run ⟨c⟩ (master_op.acquire ok :: rest) =
      match master_run ⟨c + 1⟩ rest with
      | some (d, calls) =>
        some (d, (if c ≠ 0 then [] else [master_call.SetMaster]) :: calls)
      | none => none := by
  simp only [master_run, get_master_eq]

theorem master_run_release (c : Int) (rest : List master_op) (hc : c ≠ 0) :
    master_run ⟨c⟩ (master_op.release :: rest) =
      match master_run ⟨c - 1⟩ rest with
      | some (d, calls) =>
        some (d, (if c = 1 then [master_call.DropMaster] else []) :: calls)
      | none => none := by
  simp only [master_run, put_master_eq c hc]

theorem master_run_release_zero (rest : List master_op) :
    master_run ⟨0⟩ (master_op.release :: rest) = none := by
  simp [master_run, common_drm_put_master]

theorem master_run_trace (c : Int) (ops : List master_op)
    (hb : ∀ k, k ≤ ops.length → 0 ≤ master_balance c (ops.take k)) :
    ∃ d calls, master_run ⟨c⟩ ops = some (d, calls) ∧
      d.master_count = master_balance c ops ∧ calls.length = ops.length ∧
      ∀ j, j < ops.length →
        calls.getD j [] =
          match ops.get? j with
          | some (master_op.acquire _) =>
            if master_balance c (ops.take j) = 0 then [master_call.SetMaster] else []
          | some master_op.release =>
            if master_balance c (ops.take j) = 1 then [master_call.DropMaster] else []
          | none => [] := by
  induction ops generalizing c with
  | nil => exact ⟨⟨c⟩, [], rfl, rfl, rfl, fun j hj => by simp at hj⟩
  | cons op rest ih =>
    have hc0 : 0 ≤ c := by simpa [master_balance] using hb 0 (Nat.zero_le _)
    cases op with
    | acquire ok =>
      have hb2 : ∀ k, k ≤ rest.length → 0 ≤ master_balance (c + 1) (rest.take k) := by
        intro k hk
        have := hb (k + 1) (by simpa using hk)
        simpa [master_balance] using this
      obtain ⟨d, calls, hrun, hcount, hlen, hcalls⟩ := ih (c + 1) hb2
      refine ⟨d, (if c ≠ 0 then [] else [master_call.SetMaster]) :: calls, ?_, ?_, ?_, ?_⟩
      · rw [master_run_acquire, hrun]
      · simpa [master_balance] using hcount
      · simp [hlen]
      · intro j hj
        cases j with
        | zero =>
          simp only [List.getD_cons_zero, List.get?_cons_zero, List.take_zero, master_balance]
          split_ifs <;> simp_all
        | succ j =>
          have hj2 : j < rest.length := by simpa using hj
          simp only [List.getD_cons_succ, List.get?_cons_succ, List.take_succ_cons,
            master_balance]
          exact hcalls j hj2
    | release =>
      have hc1 : 0 ≤ c - 1 := by
        have := hb 1 (by simp)
        simpa [master_balance] using this
      have hb2 : ∀ k, k ≤ rest.length → 0 ≤ master_balance (c - 1) (rest.take k) := by
        intro k hk
        have := hb (k + 1) (by simpa using hk)
        simpa [master_balance] using this
      obtain ⟨d, calls, hrun, hcount, hlen, hcalls⟩ := ih (c - 1) hb2
      refine ⟨d, (if c = 1 then [master_call.DropMaster] else []) :: calls, ?_, ?_, ?_, ?_⟩
      · rw [master_run_release c rest (by omega), hrun]
      · simpa [master_balance] using hcount
      · simp [hlen]
      · intro j hj
        cases j with
        | zero =>
          simp only [List.getD_cons_zero, List.get?_cons_zero, List.take_zero, master_balance]
        | succ j =>
          have hj2 : j < rest.length := by simpa using hj
          simp only [List.getD_cons_succ, List.get?_cons_succ, List.take_succ_cons,
            master_balance]
          exact hcalls j hj2

theorem master_run_none_iff (c : Int) (ops : List master_op) (hc : 0 ≤ c) :
    (master_run ⟨c⟩ ops = none ↔
      ∃ k, k ≤ ops.length ∧ master_balance c (ops.take k) < 0) ∧
    (∀ d calls, master_run ⟨c⟩ ops = some (d, calls) →
      d.master_count = master_balance c ops ∧ 0 ≤ d.master_count) := by
  induction ops generalizing c with
  | nil =>
    refine ⟨⟨fun h => by simp [master_run] at h, ?_⟩, ?_⟩
    · rintro ⟨k, hk, hneg⟩
      simp [master_balance] at hneg
      omega
    · intro d calls h
      simp only [master_run, Option.some.injEq, Prod.mk.injEq] at h
      obtain ⟨rfl, -⟩ := h
      exact ⟨rfl, hc⟩
  | cons op rest ih =>
    cases op with
    | acquire ok =>
      obtain ⟨ih1, ih2⟩ := ih (c + 1) (by omega)
      rw [master_run_acquire]
      refine ⟨⟨?_, ?_⟩, ?_⟩
      · intro h
        cases hr : master_run ⟨c + 1⟩ rest with
        | some p => rw [hr] at h; cases h
        | none =>
          obtain ⟨k, hk, hneg⟩ := ih1.mp hr
          exact ⟨k + 1, by simpa using hk, by simpa [master_balance] using hneg⟩
      · rintro ⟨k, hk, hneg⟩
        cases k with
        | zero => simp [master_balance] at hneg; omega
        | succ k =>
          have hr := ih1.mpr ⟨k, by simpa using hk, by simpa [master_balance] using hneg⟩
          rw [hr]
      · intro d calls h
        cases hr : master_run ⟨c + 1⟩ rest with
        | none => rw [hr] at h; cases h
        | some p =>
          rw [hr] at h
          obtain ⟨d2, calls2⟩ := p
          simp only [Option.some.injEq, Prod.mk.injEq] at h
          obtain ⟨rfl, -⟩ := h
          have := ih2 d2 calls2 hr
          exact ⟨by simpa [master_balance] using this.1, this.2⟩
    | release =>
      by_cases hz : c = 0
      · subst hz
        rw [master_run_release_zero]
        refine ⟨⟨fun _ => ⟨1, by simp, by simp [master_balance]⟩, fun _ => rfl⟩, ?_⟩
        intro d calls h
        cases h
      · obtain ⟨ih1, ih2⟩ := ih (c - 1) (by omega)
        rw [master_run_release c rest hz]
        refine ⟨⟨?_, ?_⟩, ?_⟩
        · intro h
          cases hr : master_run ⟨c - 1⟩ rest with
          | some p => rw [hr] at h; cases h
          | none =>
            obtain ⟨k, hk, hneg⟩ := ih1.mp hr
            exact ⟨k + 1, by simpa using hk, by simpa [master_balance] using hneg⟩
        · rintro ⟨k, hk, hneg⟩
          cases k with
          | zero => simp [master_balance] at hneg; omega
          | succ k =>
            have hr := ih1.mpr ⟨k, by simpa using hk, by simpa [master_balance] using hneg⟩
            rw [hr]
        · intro d calls h
          cases hr : master_run ⟨c - 1⟩ rest with
          | none => rw [hr] at h; cases h
          | some p =>
            rw [hr] at h
            obtain ⟨d2, calls2⟩ := p
            simp only [Option.some.injEq, Prod.mk.injEq] at h
            obtain ⟨rfl, -⟩ := h
            have := ih2 d2 calls2 hr
            exact ⟨by simpa [master_balance] using this.1, this.2⟩

/-- C23: from `master_count = 0`, acquire; acquire; release; release calls `drmSetMaster`
once, on the first acquire, and `drmDropMaster` once, on the last release, and ends at 0;
and for every call sequence in which no initial part has more releases than acquires, no
assertion fails, the final count is acquires minus releases, and a call makes a grant
exactly when it is an acquire entered at count 0, a revoke exactly when it is a release
entered at count 1, and no libdrm call otherwise. -/
theorem master_refcount_transitions (ops : List master_op)
    (hb : ∀ k, k ≤ ops.length → 0 ≤ master_balance 0 (ops.take k)) :
    master_run ⟨0⟩ [master_op.acquire true, master_op.acquire true, master_op.release,
        master_op.release] =
      some (⟨0⟩, [[master_call.SetMaster], [], [], [master_call.DropMaster]]) ∧
    ∃ d calls, master_run ⟨0⟩ ops = some (d, calls) ∧
      d.master_count = master_balance 0 ops ∧ calls.length = ops.length ∧
      ∀ j, j < ops.length →
        calls.getD j [] =
          match ops.get? j with
          | some (master_op.acquire _) =>
            if master_balance 0 (ops.take j) = 0 then [master_call.SetMaster] else []
          | some master_op.release =>
            if master_balance 0 (ops.take j) = 1 then [master_call.DropMaster] else []
          | none => [] :=
  ⟨by decide, master_run_trace 0 ops hb⟩

/-- C23 on the call sequence acquire; release; acquire; acquire; release; release. -/
theorem master_refcount_transitions_witness :
    ∃ d calls, master_run ⟨0⟩ [master_op.acquire true, master_op.release,
        master_op.acquire false, master_op.acquire true, master_op.release,
        master_op.release] = some (d, calls) ∧ d.master_count = 0 ∧ calls.length = 6 := by
  obtain ⟨-, d, calls, h1, h2, h3, -⟩ := master_refcount_transitions
    [master_op.acquire true, master_op.release, master_op.acquire false,
      master_op.acquire true, master_op.release, master_op.release]
    (by
      intro k hk
      have hk6 : k ≤ 6 := hk
      interval_cases k <;> decide)
  exact ⟨d, calls, h1, h2.trans (by decide), h3⟩

/-- C24: `common_drm_get_master` adds exactly 1 to `master_count` whatever the outcome
of the grant; it calls `drmSetMaster` if and only if the count was 0 on entry; entered
with a non-zero count it returns `TRUE` without any libdrm call; entered with count 0 it
returns `TRUE` exactly when `drmSetMaster` succeeded. -/
theorem get_master_result (dev : common_drm_device) (set_master_ok : Bool) :
    (common_drm_get_master dev set_master_ok).1.master_count = dev.master_count + 1 ∧
    ((common_drm_get_master dev set_master_ok).2.2 = [master_call.SetMaster] ↔
      dev.master_count = 0) ∧
    (dev.master_count ≠ 0 →
      (common_drm_get_master dev set_master_ok).2.1 = true ∧
      (common_drm_get_master dev set_master_ok).2.2 = []) ∧
    (dev.master_count = 0 →
      (common_drm_get_master dev set_master_ok).2.1 = set_master_ok) := by
  simp only [common_drm_get_master]
  split_ifs with h <;> simp_all

/-- C24 on a device at count 0 whose grant fails and on a device at count 2. -/
theorem get_master_result_witness :
    (common_drm_get_master ⟨0⟩ false).1.master_count = 1 ∧
    (common_drm_get_master ⟨0⟩ false).2.1 = false ∧
    (common_drm_get_master ⟨2⟩ false).2.1 = true ∧
    (common_drm_get_master ⟨2⟩ false).2.2 = [] :=
  ⟨(get_master_result ⟨0⟩ false).1, (get_master_result ⟨0⟩ false).2.2.2 rfl,
    ((get_master_result ⟨2⟩ false).2.2.1 (by decide)).1,
    ((get_master_result ⟨2⟩ false).2.2.1 (by decide)).2⟩

/-- C25 refuted as stated: a device created with `ddx_managed_master = FALSE` starts at
`master_count = 1`, so a release made before any acquire passes the assertion, takes the
count to 0 and calls `drmDropMaster`. -/
theorem put_master_undetected :
    common_alloc_dev false true = some ⟨1⟩ ∧
    master_run ⟨1⟩ [master_op.release] = some (⟨0⟩, [[master_call.DropMaster]]) := by
  decide

/-- C25 as amended: a device created by `common_alloc_dev` starts at count 0 when
`ddx_managed_master` is set and at count 1 otherwise; for every sequence of acquire /
release calls on it, an assertion of `common_drm_put_master` fails exactly when some
release would take the releases beyond the acquires plus that starting count, the failing
call changing nothing; as long as no assertion fails the count equals the starting count
plus acquires minus releases and is never negative. -/
theorem master_release_detected (ddx_managed_master : Bool) (dev : common_drm_device)
    (ops : List master_op)
    (hdev : common_alloc_dev ddx_managed_master true = some dev) :
    dev.master_count = (if ddx_managed_master then 0 else 1) ∧
    (master_run dev ops = none ↔
      ∃ k, k ≤ ops.length ∧ master_balance dev.master_count (ops.take k) < 0) ∧
    (∀ d calls, master_run dev ops = some (d, calls) →
      d.master_count = master_balance dev.master_count ops ∧ 0 ≤ d.master_count) ∧
    common_drm_put_master ⟨0⟩ = none := by
  have hc : dev.master_count = (if ddx_managed_master then 0 else 1) := by
    simp only [common_alloc_dev, if_true, Option.some.injEq] at hdev
    rw [← hdev]
  have h0 : 0 ≤ dev.master_count := by
    rw [hc]; split_ifs <;> omega
  obtain ⟨c⟩ := dev
  have := master_run_none_iff c ops h0
  exact ⟨hc, this.1, this.2, by decide⟩

/-- C25 (amended) on a device created with `ddx_managed_master = TRUE`: acquire;
release; release fails at the second release. -/
theorem master_release_detected_witness :
    master_run ⟨0⟩ [master_op.acquire true, master_op.release, master_op.release] = none := by
  have h := master_release_detected true ⟨0⟩
    [master_op.acquire true, master_op.release, master_op.release] (by decide)
  exact h.2.1.mpr ⟨3, by decide, by decide⟩

/-! ## Sequence and MSC conversions: further results -/

/-- C27: for every CRTC record and every 32-bit raw value `seq`,
`common_drm_msc_to_frame` applied to the MSC that `common_drm_frame_to_msc` returns gives
`seq` back, whether or not a wrap was inferred, and applied to that MSC plus `k` (in
64-bit arithmetic) gives `(seq + k) mod 2^32`. -/
theorem msc_to_frame_of_frame_to_msc (drmc : common_crtc_info) (seq k : Nat)
    (hs : seq < 2 ^ 32) (hm : drmc.last_msc < 2 ^ 64) :
    common_drm_msc_to_frame (common_drm_frame_to_msc drmc seq).1
      (common_drm_frame_to_msc drmc seq).2 = seq ∧
    common_drm_msc_to_frame (common_drm_frame_to_msc drmc seq).1
      (((common_drm_frame_to_msc drmc seq).2 + k) % 2 ^ 64) = (seq + k) % 2 ^ 32 := by
  simp only [common_drm_msc_to_frame, common_drm_frame_to_msc]
  split_ifs <;> omega

/-- C27 on a CRTC at `(last_seq, last_msc) = (20, 0)` observing raw value 5 (a wrap). -/
theorem msc_to_frame_of_frame_to_msc_witness :
    common_drm_msc_to_frame (common_drm_frame_to_msc ⟨20, 0, 0, 0⟩ 5).1
      (common_drm_frame_to_msc ⟨20, 0, 0, 0⟩ 5).2 = 5 ∧
    common_drm_msc_to_frame (common_drm_frame_to_msc ⟨20, 0, 0, 0⟩ 5).1
      (((common_drm_frame_to_msc ⟨20, 0, 0, 0⟩ 5).2 + 7) % 2 ^ 64) = 12 := by
  have h := msc_to_frame_of_frame_to_msc ⟨20, 0, 0, 0⟩ 5 7 (by norm_num) (by norm_num)
  exact ⟨h.1, h.2.trans (by norm_num)⟩

theorem crtc_op_apply_last_msc (drmc : common_crtc_info) (op : crtc_op) :
    (op.apply drmc).last_msc = drmc.last_msc ∨
    (op.apply drmc).last_msc = (drmc.last_msc + 2 ^ 32) % 2 ^ 64 := by
  have hf : ∀ seq, (common_drm_frame_to_msc drmc seq).1.last_msc = drmc.last_msc ∨
      (common_drm_frame_to_msc drmc seq).1.last_msc = (drmc.last_msc + 2 ^ 32) % 2 ^ 64 := by
    intro seq
    simp only [common_drm_frame_to_msc]
    split_ifs
    · right; norm_num
    · left; trivial
  cases op with
  | frame_to_msc seq => exact hf seq
  | event frame tv_sec tv_usec =>
    simp only [crtc_op.apply, common_drm_event, if_true]
    exact hf frame
  | get_msc vbl =>
    cases vbl with
    | none => left; rfl
    | some r =>
      simp only [crtc_op.apply, common_drm_get_msc]
      exact hf r.sequence
  | queue_msc_event msc vbl =>
    cases vbl with
    | none => left; rfl
    | some r =>
      simp only [crtc_op.apply, common_drm_queue_msc_event]
      exact hf r.sequence

theorem crtc_run_last_msc (drmc : common_crtc_info) (ops : List crtc_op)
    (h : drmc.last_msc % 2 ^ 32 = 0) : (crtc_run drmc ops).last_msc % 2 ^ 32 = 0 := by
  induction ops generalizing drmc with
  | nil => exact h
  | cons op rest ih =>
    simp only [crtc_run]
    apply ih
    rcases crtc_op_apply_last_msc drmc op with e | e <;> rw [e] <;> omega

/-- C28: in every state reached from a freshly created CRTC by any sequence of
`common_drm_frame_to_msc`, `common_drm_event`, `common_drm_get_msc` and
`common_drm_queue_msc_event` steps, `last_msc` is a multiple of `2^32`; hence the MSC
`common_drm_frame_to_msc` returns for a 32-bit raw value has that value as its low 32
bits, and `common_drm_msc_to_frame(msc)` is `msc mod 2^32`. -/
theorem last_msc_multiple_of_range (ops : List crtc_op) :
    (crtc_run common_drm_crtc_init ops).last_msc % 2 ^ 32 = 0 ∧
    (∀ seq, seq < 2 ^ 32 →
      (common_drm_frame_to_msc (crtc_run common_drm_crtc_init ops) seq).2 % 2 ^ 32 = seq) ∧
    (∀ msc, common_drm_msc_to_frame (crtc_run common_drm_crtc_init ops) msc =
      msc % 2 ^ 32) := by
  have h := crtc_run_last_msc common_drm_crtc_init ops rfl
  generalize crtc_run common_drm_crtc_init ops = d at h
  refine ⟨h, ?_, ?_⟩
  · intro seq hs
    simp only [common_drm_frame_to_msc]
    split_ifs <;> omega
  · intro msc
    simp only [common_drm_msc_to_frame]
    omega

/-- C28 after an event with frame 10, a polled read of sequence 3 (a wrap) and a queued
event answered with sequence 1 (another wrap): `last_msc` is `2^33`. -/
theorem last_msc_multiple_of_range_witness :
    (crtc_run common_drm_crtc_init
      [crtc_op.event 10 0 0, crtc_op.get_msc (some ⟨3, 0, 0⟩),
        crtc_op.queue_msc_event 100 (some ⟨1, 0, 0⟩)]).last_msc = 2 ^ 33 ∧
    (common_drm_frame_to_msc (crtc_run common_drm_crtc_init
      [crtc_op.event 10 0 0, crtc_op.get_msc (some ⟨3, 0, 0⟩),
        crtc_op.queue_msc_event 100 (some ⟨1, 0, 0⟩)]) 7).2 % 2 ^ 32 = 7 :=
  ⟨by decide,
    (last_msc_multiple_of_range
      [crtc_op.event 10 0 0, crtc_op.get_msc (some ⟨3, 0, 0⟩),
        crtc_op.queue_msc_event 100 (some ⟨1, 0, 0⟩)]).2.1 7 (by norm_num)⟩

theorem toUInt64_sub_add_cancel (p : Nat) (delta : Int) (hp : p < 2 ^ 64) :
    toUInt64 ((toUInt64 ((p : Int) - delta) : Int) + delta) = p := by
  have h := toUInt64_cast ((p : Int) - delta)
  unfold toUInt64 at *
  omega

/-- C29: `common_drm_queue_drawable_msc_event` asks the kernel for the sequence
`msc_to_frame(target - delta_msc)`; when the request fails the caller's target MSC is
left exactly as passed in and the CRTC record is unchanged; when it succeeds the target
becomes `frame_to_msc(reply sequence) + delta_msc` in 64-bit arithmetic; without a
drawable the delta is 0. -/
theorem queue_drawable_msc_event_result (drmc : common_crtc_info)
    (drawc : Option common_pixmap) (pmsc : Nat) (vbl : Option drmVBlankReply)
    (hp : pmsc < 2 ^ 64) :
    (∀ d, drawc = some d →
      (common_drm_queue_drawable_msc_event drmc drawc pmsc vbl).2.sequence =
        common_drm_msc_to_frame drmc (toUInt64 ((pmsc : Int) - d.delta_msc)) ∧
      ∀ r, vbl = some r →
        (common_drm_queue_drawable_msc_event drmc drawc pmsc vbl).2.msc =
          toUInt64 (((common_drm_frame_to_msc drmc r.sequence).2 : Int) + d.delta_msc)) ∧
    (drawc = none →
      (common_drm_queue_drawable_msc_event drmc drawc pmsc vbl).2.sequence =
        common_drm_msc_to_frame drmc pmsc ∧
      ∀ r, vbl = some r →
        (common_drm_queue_drawable_msc_event drmc drawc pmsc vbl).2.msc =
          toUInt64 (((common_drm_frame_to_msc drmc r.sequence).2 : Int) + 0)) ∧
    (vbl = none →
      (common_drm_queue_drawable_msc_event drmc drawc pmsc vbl).2.msc = pmsc ∧
      (common_drm_queue_drawable_msc_event drmc drawc pmsc vbl).2.ret ≠ 0 ∧
      (common_drm_queue_drawable_msc_event drmc drawc pmsc vbl).1 = drmc) ∧
    (∀ r, vbl = some r →
      (common_drm_queue_drawable_msc_event drmc drawc pmsc vbl).2.ret = 0 ∧
      (common_drm_queue_drawable_msc_event drmc drawc pmsc vbl).1 =
        (common_drm_frame_to_msc drmc r.sequence).1) := by
  refine ⟨?_, ?_, ?_, ?_⟩
  · intro d hd
    subst hd
    refine ⟨?_, ?_⟩
    · cases vbl <;> rfl
    · intro r hr
      subst hr
      rfl
  · intro hd
    subst hd
    refine ⟨?_, ?_⟩
    · cases vbl <;> rfl
    · intro r hr
      subst hr
      rfl
  · intro hv
    subst hv
    cases drawc with
    | none =>
      refine ⟨?_, (by show (-1 : Int) ≠ 0; decide), rfl⟩
      show toUInt64 ((pmsc : Int) + 0) = pmsc
      unfold toUInt64
      omega
    | some d =>
      refine ⟨?_, (by show (-1 : Int) ≠ 0; decide), rfl⟩
      exact toUInt64_sub_add_cancel pmsc d.delta_msc hp
  · intro r hr
    subst hr
    exact ⟨rfl, rfl⟩

/-- C29 on a fresh CRTC and a drawable with `delta_msc = 60`: target 100 asks for
sequence 40; a failed request leaves 100, a reply with sequence 45 gives 105. -/
theorem queue_drawable_msc_event_result_witness :
    (common_drm_queue_drawable_msc_event common_drm_crtc_init (some ⟨some 0, 0, 100, 60⟩)
      100 none).2 = ⟨40, -1, 100⟩ ∧
    (common_drm_queue_drawable_msc_event common_drm_crtc_init (some ⟨some 0, 0, 100, 60⟩)
      100 (some ⟨45, 0, 0⟩)).2.msc = 105 := by
  have h2 := queue_drawable_msc_event_result common_drm_crtc_init
    (some ⟨some 0, 0, 100, 60⟩) 100 (some ⟨45, 0, 0⟩) (by norm_num)
  refine ⟨by decide, ?_⟩
  exact ((h2.1 _ rfl).2 _ rfl).trans (by decide)

/-! ## DPMS hook: results -/

theorem backlight_set_zero (b : backlight) (write_ok : Bool) (hi : b.iface ≠ none) :
    backlight_set b 0 write_ok = (some 0, if write_ok then 0 else -1) := by
  simp only [backlight_set, hi, if_false]
  have h : ¬ (toUInt32 b.max < toUInt32 0) := by
    unfold toUInt32; omega
  rw [if_neg h]

theorem conn_backlight_set_effects (conn : common_conn_info) (level : Int)
    (write_ok : Bool) (hi : conn.backlight.iface ≠ none) :
    (common_drm_conn_backlight_set conn level write_ok).2 =
      [conn_effect.BacklightWrite
        (if toUInt32 conn.backlight.max < toUInt32 level then conn.backlight.max
          else level)] ∧
    (common_drm_conn_backlight_set conn level write_ok).1.dpms_mode = conn.dpms_mode ∧
    (common_drm_conn_backlight_set conn level write_ok).1.backlight_active_level =
      conn.backlight_active_level ∧
    (write_ok = true → (common_drm_conn_backlight_set conn level write_ok).1 = conn) := by
  simp only [common_drm_conn_backlight_set, backlight_set, hi, if_false]
  cases write_ok <;> simp

theorem dpms_backlight_off (conn : common_conn_info) (oldmode mode : Int) (env : dpms_env)
    (hi : conn.backlight.iface ≠ none) (hm : mode ≠ DPMSModeOn) :
    (common_drm_conn_dpms_backlight conn oldmode mode env).2 =
      (if oldmode = DPMSModeOn then [conn_effect.BacklightRead] else []) ++
        [conn_effect.BacklightWrite 0] ∧
    (common_drm_conn_dpms_backlight conn oldmode mode env).1.dpms_mode = conn.dpms_mode ∧
    (common_drm_conn_dpms_backlight conn oldmode mode env).1.backlight_active_level =
      (if oldmode = DPMSModeOn then (backlight_get conn.backlight env.brightness).2
        else conn.backlight_active_level) ∧
    (env.write_ok = true →
      (common_drm_conn_dpms_backlight conn oldmode mode env).1.backlight =
        conn.backlight) := by
  have hz : ∀ c : common_conn_info, c.backlight.iface ≠ none →
      (common_drm_conn_backlight_set c 0 env.write_ok).2 = [conn_effect.BacklightWrite 0] := by
    intro c hc
    rw [(conn_backlight_set_effects c 0 env.write_ok hc).1]
    have h : ¬ (toUInt32 c.backlight.max < toUInt32 0) := by
      unfold toUInt32; omega
    rw [if_neg h]
  simp only [common_drm_conn_dpms_backlight, hi, hm, if_false, common_drm_conn_backlight_get]
  by_cases ho : oldmode = DPMSModeOn
  · simp only [ho, if_true]
    have hs := conn_backlight_set_effects
      { conn with backlight_active_level := (backlight_get conn.backlight env.brightness).2 }
      0 env.write_ok hi
    refine ⟨?_, hs.2.1, hs.2.2.1, ?_⟩
    · rw [hz { conn with
          backlight_active_level := (backlight_get conn.backlight env.brightness).2 } hi]
    · intro hw
      rw [hs.2.2.2 hw]
  · simp only [ho, if_false]
    have hs := conn_backlight_set_effects conn 0 env.write_ok hi
    refine ⟨?_, hs.2.1, hs.2.2.1, ?_⟩
    · rw [hz conn hi]
    · intro hw
      rw [hs.2.2.2 hw]

theorem dpms_backlight_on (conn : common_conn_info) (oldmode : Int) (env : dpms_env)
    (hi : conn.backlight.iface ≠ none) :
    (common_drm_conn_dpms_backlight conn oldmode DPMSModeOn env).2 =
      (if oldmode ≠ DPMSModeOn then
        [conn_effect.BacklightWrite
          (if toUInt32 conn.backlight.max < toUInt32 conn.backlight_active_level then
            conn.backlight.max else conn.backlight_active_level)]
        else []) ∧
    (common_drm_conn_dpms_backlight conn oldmode DPMSModeOn env).1.backlight_active_level =
      conn.backlight_active_level := by
  simp only [common_drm_conn_dpms_backlight, hi, if_false, if_true]
  by_cases ho : oldmode = DPMSModeOn
  · simp only [ho, ne_eq, not_true_eq_false, if_false, and_self]
  · simp only [ho, ne_eq, not_false_eq_true, if_true]
    have hs := conn_backlight_set_effects conn conn.backlight_active_level env.write_ok hi
    exact ⟨hs.1, hs.2.2.1⟩

theorem conn_dpms_off (conn : common_conn_info) (mode : Int) (env : dpms_env)
    (hi : conn.backlight.iface ≠ none) (hp : env.has_dpms = true)
    (hm : mode ≠ DPMSModeOn) :
    (common_drm_conn_dpms conn mode env).2 =
      (if conn.dpms_mode = DPMSModeOn then [conn_effect.BacklightRead] else []) ++
        [conn_effect.BacklightWrite 0, conn_effect.SetProperty mode,
          conn_effect.StoreDpmsMode mode] ∧
    (common_drm_conn_dpms conn mode env).1.dpms_mode = mode ∧
    (common_drm_conn_dpms conn mode env).1.backlight_active_level =
      (if conn.dpms_mode = DPMSModeOn then (backlight_get conn.backlight env.brightness).2
        else conn.backlight_active_level) ∧
    (env.write_ok = true →
      (common_drm_conn_dpms conn mode env).1.backlight = conn.backlight) := by
  have h := dpms_backlight_off conn conn.dpms_mode mode env hi hm
  simp only [common_drm_conn_dpms, hp, if_true, hm, ne_eq, not_false_eq_true, if_false]
  generalize common_drm_conn_dpms_backlight conn conn.dpms_mode mode env = r at h ⊢
  obtain ⟨h1, h2, h3, h4⟩ := h
  refine ⟨?_, ?_, h3, h4⟩
  · rw [h1]
    simp
  · first | rfl | trivial

theorem conn_dpms_on (conn : common_conn_info) (env : dpms_env)
    (hi : conn.backlight.iface ≠ none) (hp : env.has_dpms = true) :
    (common_drm_conn_dpms conn DPMSModeOn env).2 =
      [conn_effect.SetProperty DPMSModeOn] ++
        (if conn.dpms_mode ≠ DPMSModeOn then
          [conn_effect.BacklightWrite
            (if toUInt32 conn.backlight.max < toUInt32 conn.backlight_active_level then
              conn.backlight.max else conn.backlight_active_level)]
          else []) ++
        [conn_effect.StoreDpmsMode DPMSModeOn] ∧
    (common_drm_conn_dpms conn DPMSModeOn env).1.dpms_mode = DPMSModeOn ∧
    (common_drm_conn_dpms conn DPMSModeOn env).1.backlight_active_level =
      conn.backlight_active_level := by
  have h := dpms_backlight_on conn conn.dpms_mode env hi
  simp only [common_drm_conn_dpms, hp, if_true, ne_eq, not_true_eq_false, if_false]
  generalize common_drm_conn_dpms_backlight conn conn.dpms_mode DPMSModeOn env = r at h ⊢
  obtain ⟨h1, h2⟩ := h
  refine ⟨?_, ?_, h2⟩
  · rw [h1]
    simp
  · first | rfl | trivial

/-- C26: for an output with a backlight and a DPMS property, a `common_drm_conn_dpms`
call with a mode other than On first powers the backlight down (reading the level to
save it when coming from On, then writing level 0), then writes the DPMS property; a
call with mode On first writes the DPMS property, then (when coming from another mode)
writes the saved active level; in both cases `dpms_mode` is stored last and ends as the
requested mode. -/
theorem conn_dpms_order (conn : common_conn_info) (mode : Int) (env : dpms_env)
    (hi : conn.backlight.iface ≠ none) (hp : env.has_dpms = true) :
    (mode ≠ DPMSModeOn →
      (common_drm_conn_dpms conn mode env).2 =
        (if conn.dpms_mode = DPMSModeOn then [conn_effect.BacklightRead] else []) ++
          [conn_effect.BacklightWrite 0, conn_effect.SetProperty mode,
            conn_effect.StoreDpmsMode mode] ∧
      (common_drm_conn_dpms conn mode env).1.backlight_active_level =
        (if conn.dpms_mode = DPMSModeOn then
          (backlight_get conn.backlight env.brightness).2
          else conn.backlight_active_level)) ∧
    (mode = DPMSModeOn →
      (common_drm_conn_dpms conn mode env).2 =
        [conn_effect.SetProperty mode] ++
          (if conn.dpms_mode ≠ DPMSModeOn then
            [conn_effect.BacklightWrite
              (if toUInt32 conn.backlight.max < toUInt32 conn.backlight_active_level then
                conn.backlight.max else conn.backlight_active_level)]
            else []) ++
          [conn_effect.StoreDpmsMode mode]) ∧
    (common_drm_conn_dpms conn mode env).1.dpms_mode = mode := by
  refine ⟨?_, ?_, ?_⟩
  · intro hm
    have h := conn_dpms_off conn mode env hi hp hm
    exact ⟨h.1, h.2.2.1⟩
  · intro hm
    subst hm
    exact (conn_dpms_on conn env hi hp).1
  · by_cases hm : mode = DPMSModeOn
    · subst hm
      exact (conn_dpms_on conn env hi hp).2.1
    · exact (conn_dpms_off conn mode env hi hp hm).2.1

/-- C26 on an output that is On with a backlight of `max = 10` reading 7: the call
with mode 3 reads the level, writes 0, then sets the property; the call with mode On
from mode 3 with saved level 7 sets the property, then writes 7. -/
theorem conn_dpms_order_witness :
    (common_drm_conn_dpms ⟨0, ⟨0, some "acpi_video0", 7, -1, 10, 0⟩, 0⟩ 3
        ⟨true, 7, true⟩).2 =
      [conn_effect.BacklightRead, conn_effect.BacklightWrite 0, conn_effect.SetProperty 3,
        conn_effect.StoreDpmsMode 3] ∧
    (common_drm_conn_dpms ⟨3, ⟨0, some "acpi_video0", 7, -1, 10, 0⟩, 7⟩ 0
        ⟨true, 0, true⟩).2 =
      [conn_effect.SetProperty 0, conn_effect.BacklightWrite 7,
        conn_effect.StoreDpmsMode 0] := by
  have h1 := conn_dpms_order ⟨0, ⟨0, some "acpi_video0", 7, -1, 10, 0⟩, 0⟩ 3
    ⟨true, 7, true⟩ (by decide) rfl
  have h2 := conn_dpms_order ⟨3, ⟨0, some "acpi_video0", 7, -1, 10, 0⟩, 7⟩ 0
    ⟨true, 0, true⟩ (by decide) rfl
  exact ⟨(h1.1 (by decide)).1.trans (by decide), (h2.2.1 rfl).trans (by decide)⟩

/-! ## Backlight level across a DPMS off/on cycle: results -/

theorem conn_dpms_seq_append (a b : List (Int × dpms_env)) :
    ∀ conn : common_conn_info,
      conn_dpms_seq conn (a ++ b) =
        ((conn_dpms_seq (conn_dpms_seq conn a).1 b).1,
          (conn_dpms_seq conn a).2 ++ (conn_dpms_seq (conn_dpms_seq conn a).1 b).2) := by
  induction a with
  | nil => intro conn; simp only [List.nil_append, conn_dpms_seq]
  | cons c rest ih =>
    intro conn
    have e := ih (common_drm_conn_dpms conn c.1 c.2).1
    show ((conn_dpms_seq (common_drm_conn_dpms conn c.1 c.2).1 (rest ++ b)).1,
        (common_drm_conn_dpms conn c.1 c.2).2 ::
          (conn_dpms_seq (common_drm_conn_dpms conn c.1 c.2).1 (rest ++ b)).2) = _
    rw [e]
    simp only [conn_dpms_seq, List.cons_append]

theorem conn_dpms_seq_off_run (rest : List (Int × dpms_env)) :
    ∀ conn : common_conn_info, conn.dpms_mode ≠ DPMSModeOn →
      conn.backlight.iface ≠ none →
      (∀ c ∈ rest, c.1 ≠ DPMSModeOn ∧ c.2.has_dpms = true ∧ c.2.write_ok = true) →
      (conn_dpms_seq conn rest).2 =
          rest.map (fun c => [conn_effect.BacklightWrite 0, conn_effect.SetProperty c.1,
            conn_effect.StoreDpmsMode c.1]) ∧
        (conn_dpms_seq conn rest).1.backlight = conn.backlight ∧
        (conn_dpms_seq conn rest).1.backlight_active_level = conn.backlight_active_level ∧
        (conn_dpms_seq conn rest).1.dpms_mode ≠ DPMSModeOn := by
  induction rest with
  | nil =>
    intro conn hm _ _
    simp only [conn_dpms_seq, List.map_nil]
    exact ⟨trivial, trivial, trivial, hm⟩
  | cons c rest ih =>
    intro conn hm hi hall
    obtain ⟨hc1, hc2, hc3⟩ := hall c (List.mem_cons_self _ _)
    have hoff := conn_dpms_off conn c.1 c.2 hi hc2 hc1
    rw [if_neg hm, if_neg hm] at hoff
    obtain ⟨h1, h2, h3, h4⟩ := hoff
    have h4 := h4 hc3
    have hi2 : (common_drm_conn_dpms conn c.1 c.2).1.backlight.iface ≠ none := by
      rw [h4]; exact hi
    have hm2 : (common_drm_conn_dpms conn c.1 c.2).1.dpms_mode ≠ DPMSModeOn := by
      rw [h2]; exact hc1
    have hrec := ih (common_drm_conn_dpms conn c.1 c.2).1 hm2 hi2
      (fun d hd => hall d (List.mem_cons_of_mem _ hd))
    simp only [conn_dpms_seq, List.map_cons]
    refine ⟨?_, ?_, ?_, hrec.2.2.2⟩
    · rw [hrec.1, h1]; rfl
    · rw [hrec.2.1, h4]
    · rw [hrec.2.2.1, h3]

theorem backlight_get_in_range (b : backlight) (L : Int) (hi : b.iface ≠ none)
    (hL0 : 0 ≤ L) (hL1 : L ≤ b.max) : (backlight_get b L).2 = L := by
  simp only [backlight_get, hi, if_false]
  split_ifs with h1 h2
  · omega
  · omega
  · rfl

theorem conn_dpms_seq_cons (conn : common_conn_info) (c : Int × dpms_env)
    (rest : List (Int × dpms_env)) :
    conn_dpms_seq conn (c :: rest) =
      ((conn_dpms_seq (common_drm_conn_dpms conn c.1 c.2).1 rest).1,
        (common_drm_conn_dpms conn c.1 c.2).2 ::
          (conn_dpms_seq (common_drm_conn_dpms conn c.1 c.2).1 rest).2) := by
  simp only [conn_dpms_seq]

/-- C30 refuted as stated: on an output that is On with a backlight of `max = 10`
reading 7, when the write of level 0 at the non-On call fails the backlight is disabled
and the following On call writes no level at all; and when the connector has no DPMS
property neither call does anything, so level 0 is not written at the non-On call nor 7
at the On call. -/
theorem dpms_cycle_level_lost :
    (conn_dpms_seq ⟨0, ⟨0, some "acpi_video0", 7, -1, 10, 0⟩, 0⟩
      [(3, ⟨true, 7, false⟩), (0, ⟨true, 0, true⟩)]).2 =
      [[conn_effect.BacklightRead, conn_effect.BacklightWrite 0, conn_effect.SetProperty 3,
          conn_effect.StoreDpmsMode 3],
        [conn_effect.SetProperty 0, conn_effect.StoreDpmsMode 0]] ∧
    (conn_dpms_seq ⟨0, ⟨0, some "acpi_video0", 7, -1, 10, 0⟩, 0⟩
      [(3, ⟨false, 7, true⟩), (0, ⟨false, 7, true⟩)]).2 = [[], []] := by
  decide

/-- C30 as amended: on an output whose `dpms_mode` is On, with a backlight whose
`brightness` file reads `L` with `0 ≤ L ≤ max`, a run of `common_drm_conn_dpms` calls with one or more
non-On modes followed by a call with mode On (every call finding the DPMS property, every
write of level 0 succeeding) writes level 0 at each non-On call and exactly `L` at the On
call; only the first call reads the level, and after the first call and every later
non-On call `backlight_active_level` is `L`. -/
theorem dpms_cycle_preserves_level (conn : common_conn_info) (L m0 : Int) (e0 : dpms_env)
    (rest : List (Int × dpms_env)) (eon : dpms_env)
    (hon : conn.dpms_mode = DPMSModeOn) (hi : conn.backlight.iface ≠ none)
    (hmax : conn.backlight.max < 2 ^ 31) (hL0 : 0 ≤ L) (hL1 : L ≤ conn.backlight.max)
    (hread : e0.brightness = L)
    (h0 : m0 ≠ DPMSModeOn ∧ e0.has_dpms = true ∧ e0.write_ok = true)
    (hrest : ∀ c ∈ rest, c.1 ≠ DPMSModeOn ∧ c.2.has_dpms = true ∧ c.2.write_ok = true)
    (heon : eon.has_dpms = true) :
    (conn_dpms_seq conn ((m0, e0) :: (rest ++ [(DPMSModeOn, eon)]))).2 =
      ([conn_effect.BacklightRead, conn_effect.BacklightWrite 0, conn_effect.SetProperty m0,
          conn_effect.StoreDpmsMode m0] ::
        rest.map (fun c => [conn_effect.BacklightWrite 0, conn_effect.SetProperty c.1,
          conn_effect.StoreDpmsMode c.1])) ++
        [[conn_effect.SetProperty DPMSModeOn, conn_effect.BacklightWrite L,
          conn_effect.StoreDpmsMode DPMSModeOn]] ∧
    (∀ n : Nat,
      (conn_dpms_seq conn ((m0, e0) :: rest.take n)).1.backlight_active_level = L) ∧
    (conn_dpms_seq conn
      ((m0, e0) :: (rest ++ [(DPMSModeOn, eon)]))).1.backlight_active_level = L := by
  have hoff := conn_dpms_off conn m0 e0 hi h0.2.1 h0.1
  rw [if_pos hon, if_pos hon, hread, backlight_get_in_range _ _ hi hL0 hL1] at hoff
  obtain ⟨h1, h2, h3, h4⟩ := hoff
  have h4 := h4 h0.2.2
  have hi1 : (common_drm_conn_dpms conn m0 e0).1.backlight.iface ≠ none := by
    rw [h4]; exact hi
  have hm1 : (common_drm_conn_dpms conn m0 e0).1.dpms_mode ≠ DPMSModeOn := by
    rw [h2]; exact h0.1
  have hrun := conn_dpms_seq_off_run rest (common_drm_conn_dpms conn m0 e0).1 hm1 hi1 hrest
  have hpre : ∀ n : Nat,
      (conn_dpms_seq conn ((m0, e0) :: rest.take n)).1.backlight_active_level = L := by
    intro n
    have hr := conn_dpms_seq_off_run (rest.take n) (common_drm_conn_dpms conn m0 e0).1 hm1 hi1
      (fun c hc => hrest c (List.mem_of_mem_take hc))
    rw [conn_dpms_seq_cons]
    show (conn_dpms_seq (common_drm_conn_dpms conn m0 e0).1
      (rest.take n)).1.backlight_active_level = L
    rw [hr.2.2.1, h3]
  have hi2 : (conn_dpms_seq (common_drm_conn_dpms conn m0 e0).1 rest).1.backlight.iface ≠
      none := by
    rw [hrun.2.1, h4]; exact hi
  have hlast := conn_dpms_on (conn_dpms_seq (common_drm_conn_dpms conn m0 e0).1 rest).1 eon
    hi2 heon
  rw [if_pos hrun.2.2.2, hrun.2.2.1, h3, hrun.2.1, h4] at hlast
  have hclamp : ¬ (toUInt32 conn.backlight.max < toUInt32 L) := by
    unfold toUInt32; omega
  rw [if_neg hclamp] at hlast
  have hseq : conn_dpms_seq conn ((m0, e0) :: (rest ++ [(DPMSModeOn, eon)])) =
      ((common_drm_conn_dpms (conn_dpms_seq (common_drm_conn_dpms conn m0 e0).1 rest).1
          DPMSModeOn eon).1,
        (common_drm_conn_dpms conn m0 e0).2 ::
          ((conn_dpms_seq (common_drm_conn_dpms conn m0 e0).1 rest).2 ++
            [(common_drm_conn_dpms (conn_dpms_seq (common_drm_conn_dpms conn m0 e0).1 rest).1
              DPMSModeOn eon).2])) := by
    rw [conn_dpms_seq_cons, conn_dpms_seq_append]
    simp only [conn_dpms_seq]
  refine ⟨?_, hpre, ?_⟩
  · rw [hseq]
    show (common_drm_conn_dpms conn m0 e0).2 ::
      ((conn_dpms_seq (common_drm_conn_dpms conn m0 e0).1 rest).2 ++
        [(common_drm_conn_dpms (conn_dpms_seq (common_drm_conn_dpms conn m0 e0).1 rest).1
          DPMSModeOn eon).2]) = _
    rw [h1, hrun.1, hlast.1]
    rfl
  · rw [hseq]
    exact hlast.2.2

/-- C30 (amended) on a backlight of `max = 10` reading 7: off (mode 3), standby (mode 1), then On
writes 0, 0 and then 7. -/
theorem dpms_cycle_preserves_level_witness :
    (conn_dpms_seq ⟨0, ⟨0, some "acpi_video0", 7, -1, 10, 0⟩, 0⟩
      [(3, ⟨true, 7, true⟩), (1, ⟨true, 0, true⟩), (0, ⟨true, 0, true⟩)]).2 =
      [[conn_effect.BacklightRead, conn_effect.BacklightWrite 0, conn_effect.SetProperty 3,
          conn_effect.StoreDpmsMode 3],
        [conn_effect.BacklightWrite 0, conn_effect.SetProperty 1,
          conn_effect.StoreDpmsMode 1],
        [conn_effect.SetProperty 0, conn_effect.BacklightWrite 7,
          conn_effect.StoreDpmsMode 0]] :=
  (dpms_cycle_preserves_level ⟨0, ⟨0, some "acpi_video0", 7, -1, 10, 0⟩, 0⟩ 7 3
    ⟨true, 7, true⟩ [(1, ⟨true, 0, true⟩)] ⟨true, 0, true⟩ rfl (by decide) (by decide)
    (by decide) (by decide) rfl (by decide) (by decide) rfl).1

end Armada
